import Mathlib

/-!
# Status tree of `kubectl-capi-tree`

A shallow embedding of `cmd/kubectl-capi-tree/status` (`tree.go`, `util.go`,
`annotations.go`, `options.go`) and of the renderer `cmd/kubectl-capi-tree/tree.go`,
together with theorems about the condition model, the grouping / insertion
engine and the rendering of the tree.

Modelling conventions.

* Go strings are Lean strings; `types.UID`, `corev1.ConditionStatus`,
  `clusterv1.ConditionSeverity` and `clusterv1.ConditionType` are string types
  in Go and stay strings here.
* `metav1.Time` is an integer instant; the zero value `metav1.Time{}` is `0`
  and `Time.After` is the strict order `>`.
* A pointer `*clusterv1.Condition` is an `Option Condition` (`nil` is `none`).
* A `controllerutil.Object` is a record value.  The tree stores objects by
  identity; a mutation made through a pointer that the tree holds is
  modelled by writing the new value back under the key the pointer was
  fetched from.
* A nil pointer dereference (a Go panic) is the result `none`.
* Go maps are finite partial functions.  The inner map of `ownership`
  (a set of identities) is a duplicate free list; the order in which Go
  enumerates it is not fixed, so every enumeration takes a `MapOrder`.
* `util.RandomString` and `time.Now` are inputs carried by `Env`.
* The renderer takes the colour library, `fmt.Sprintf` without operands and
  `duration.HumanDuration` from a `RenderEnv`; a row is the list of the cells
  given to `tbl.AddRow`.  The message cell is a list of bytes, because
  `getCond` measures and slices the message in bytes.
* `sort.Slice` is the insertion sort that Go runs on a short slice, which
  keeps elements that compare equal in the order of its input.
* A recursion that Go does not bound (`treeViewInner`) takes a `fuel`.
* A sequence of calls of `add` is a list of `AddCall`, run by `runAdds`; the
  invariants `TreeInv`, `Exclusive` and `NamesInv` are carried along it.
-/

namespace CapiTree

/-! ## Condition model -/

abbrev UID := String

abbrev Time := Int

/-- The zero value `metav1.Time{}`. -/
def zeroTime : Time := 0

/-- Constant `corev1.ConditionTrue`. -/
def ConditionTrue : String := "True"

/-- Constant `corev1.ConditionFalse`. -/
def ConditionFalse : String := "False"

/-- Constant `corev1.ConditionUnknown`. -/
def ConditionUnknown : String := "Unknown"

/-- Constant `clusterv1.ReadyCondition`. -/
def ReadyCondition : String := "Ready"

/-- Constant `clusterv1.ConditionSeverityError`. -/
def ConditionSeverityError : String := "Error"

/-- Constant `clusterv1.ConditionSeverityWarning`. -/
def ConditionSeverityWarning : String := "Warning"

/-- Constant `clusterv1.ConditionSeverityInfo`. -/
def ConditionSeverityInfo : String := "Info"

/-- Record `clusterv1.Condition`. -/
structure Condition where
  Type_ : String := "Ready"
  Status : String := "True"
  Severity : String := ""
  LastTransitionTime : Time := 0
  Reason : String := ""
  Message : String := ""
deriving DecidableEq, Repr

/-- Function `hasSameReadyStatusSeverityAndReason` of `status/tree.go`. -/
def hasSameReadyStatusSeverityAndReason (a b : Option Condition) : Bool :=
  match a, b with
  | none, none => true
  | none, some _ => false
  | some _, none => false
  | some a, some b =>
    a.Status == b.Status && a.Severity == b.Severity && a.Reason == b.Reason

/-- Function `minLastTransitionTime` of `status/tree.go`.  The third branch of
the source reads `a.LastTransitionTime` although `a` is nil there, which is a
nil pointer dereference: the result is `none`. -/
def minLastTransitionTime (a b : Option Condition) : Option Time :=
  match a, b with
  | none, none => some zeroTime
  | some a, none => some a.LastTransitionTime
  | none, some _ => none
  | some a, some b =>
    if a.LastTransitionTime > b.LastTransitionTime then some a.LastTransitionTime
    else some b.LastTransitionTime

/-! ## Go string helpers -/

/-- Worker of `stringsSplit`: `cur` is the piece being read and `skip` the
number of characters of an already matched separator still to be consumed. -/
def splitGo (sep : List Char) : List Char → List Char → Nat → List (List Char)
  | [], cur, _ => [cur]
  | _ :: cs, cur, skip + 1 => splitGo sep cs cur skip
  | c :: cs, cur, 0 =>
    if sep.isPrefixOf (c :: cs) then cur :: splitGo sep cs [] (sep.length - 1)
    else splitGo sep cs (cur ++ [c]) 0

/-- Library function `strings.Split`: all pieces of `s` between the leftmost,
non overlapping occurrences of `sep`; with an empty `sep` the string is cut
after every character. -/
def stringsSplit (s sep : String) : List String :=
  if sep.data = [] then s.data.map (fun c => String.mk [c])
  else (splitGo sep.data s.data [] 0).map String.mk

/-- Library function `strings.Join`. -/
def stringsJoin : List String → String → String
  | [], _ => ""
  | [a], _ => a
  | a :: b :: rest, sep => a ++ sep ++ stringsJoin (b :: rest) sep

/-- Lexicographic comparison of two character sequences by code point, which
is the order of their UTF-8 encodings. -/
def lessChars : List Char → List Char → Bool
  | _, [] => false
  | [], _ :: _ => true
  | a :: as, b :: bs =>
    if a.toNat < b.toNat then true
    else if b.toNat < a.toNat then false
    else lessChars as bs

/-- Go comparison `a < b` of two strings. -/
def stringLess (a b : String) : Bool := lessChars a.data b.data

/-- Insertion of one string into a list sorted in increasing order. -/
def insertString (a : String) : List String → List String
  | [] => [a]
  | b :: rest => if stringLess b a then b :: insertString a rest else a :: b :: rest

/-- Library function `sort.Strings`: the strings in increasing lexicographic
order. -/
def sortStrings : List String → List String
  | [] => []
  | a :: rest => insertString a (sortStrings rest)

/-- Library function `strings.ToLower`, on the ASCII letters. -/
def stringsToLower (s : String) : String :=
  String.mk (s.data.map Char.toLower)

/-- Library function `strconv.ParseBool`: `none` is the error result. -/
def parseBool (s : String) : Option Bool :=
  if s = "1" ∨ s = "t" ∨ s = "T" ∨ s = "TRUE" ∨ s = "true" ∨ s = "True" then some true
  else if s = "0" ∨ s = "f" ∨ s = "F" ∨ s = "FALSE" ∨ s = "false" ∨ s = "False" then some false
  else none

/-! ## Objects and their annotations (`annotations.go`) -/

/-- The part of a `controllerutil.Object` the status tree reads or writes.
An object that exposes no conditions has the empty condition list. -/
structure Object where
  Kind : String := ""
  Namespace : String := ""
  Name : String := ""
  UID : String := ""
  Annotations : List (String × String) := []
  Conditions : List Condition := []
  DeletionTimestamp : Option Time := none
deriving DecidableEq, Repr

/-- Go map read `m[k]` with the comma-ok result as an option. -/
def mapLookup : List (String × String) → String → Option String
  | [], _ => none
  | (k1, v) :: rest, k => if k1 = k then some v else mapLookup rest k

/-- Go map write `m[k] = v`. -/
def mapStore : List (String × String) → String → String → List (String × String)
  | [], k, v => [(k, v)]
  | (k1, v1) :: rest, k, v =>
    if k1 = k then (k, v) :: rest else (k1, v1) :: mapStore rest k v

def ShowObjectConditionsAnnotation : String := "tree.cluster.x-k8s.io.io/show-conditions"

def ObjectMetaNameAnnotation : String := "tree.cluster.x-k8s.io.io/meta-name"

def VirtualObjectAnnotation : String := "tree.cluster.x-k8s.io.io/virtual-object"

def GroupingObjectAnnotation : String := "tree.cluster.x-k8s.io.io/grouping-object"

def GroupObjectAnnotation : String := "tree.cluster.x-k8s.io.io/group-object"

def GroupItemsAnnotation : String := "tree.cluster.x-k8s.io.io/group-items"

def GroupItemsSeparator : String := ", "

/-- Function `getAnnotation`. -/
def getAnnotation (obj : Object) (key : String) : Option String :=
  mapLookup obj.Annotations key

/-- Function `getBoolAnnotation`: `none` is the result `(false, false)`. -/
def getBoolAnnotation (obj : Object) (key : String) : Option Bool :=
  match mapLookup obj.Annotations key with
  | some val => parseBool val
  | none => none

/-- Function `addAnnotation`. -/
def addAnnotation (obj : Object) (key value : String) : Object :=
  { obj with Annotations := mapStore obj.Annotations key value }

/-- Function `GetMetaName`. -/
def GetMetaName (obj : Object) : String :=
  match getAnnotation obj ObjectMetaNameAnnotation with
  | some val => val
  | none => ""

/-- Function `IsGroupingObject`. -/
def IsGroupingObject (obj : Object) : Bool :=
  match getBoolAnnotation obj GroupingObjectAnnotation with
  | some val => val == true
  | none => false

/-- Function `IsGroupObject`. -/
def IsGroupObject (obj : Object) : Bool :=
  match getBoolAnnotation obj GroupObjectAnnotation with
  | some val => val == true
  | none => false

/-- Function `GetGroupItems`. -/
def GetGroupItems (obj : Object) : String :=
  match getAnnotation obj GroupItemsAnnotation with
  | some val => val
  | none => ""

/-- Function `IsVirtualObject`. -/
def IsVirtualObject (obj : Object) : Bool :=
  match getBoolAnnotation obj VirtualObjectAnnotation with
  | some val => val == true
  | none => false

/-- Function `IsShowConditionsObject`. -/
def IsShowConditionsObject (obj : Object) : Bool :=
  match getBoolAnnotation obj ShowObjectConditionsAnnotation with
  | some val => val == true
  | none => false

/-! ## Options of `add` (`options.go`) -/

/-- Record `AddObjectOptions`. -/
structure AddObjectOptions where
  MetaName : String := ""
  GroupingObject : Bool := false
  NoEcho : Bool := false
deriving DecidableEq, Repr

/-- The three implementations of the interface `AddObjectOption`. -/
inductive AddObjectOption where
  | ObjectMetaName (n : String)
  | GroupingObject (n : Bool)
  | NoEcho (n : Bool)
deriving DecidableEq, Repr

/-- Method `ApplyToAdd` of the three option types. -/
def AddObjectOption.ApplyToAdd : AddObjectOption → AddObjectOptions → AddObjectOptions
  | .ObjectMetaName n, options => { options with MetaName := n }
  | .GroupingObject n, options => { options with GroupingObject := n }
  | .NoEcho n, options => { options with NoEcho := n }

/-- Method `AddObjectOptions.ApplyOptions`. -/
def AddObjectOptions.ApplyOptions (o : AddObjectOptions) :
    List AddObjectOption → AddObjectOptions
  | [] => o
  | opt :: rest => AddObjectOptions.ApplyOptions (opt.ApplyToAdd o) rest

/-! ## Conditions of an object (`util.go`) -/

/-- Library function `conditions.Get`: the first condition of the given type. -/
def conditionsGet : List Condition → String → Option Condition
  | [], _ => none
  | c :: rest, t => if c.Type_ = t then some c else conditionsGet rest t

/-- Library helper `hasSameState` of `conditions.Set`. -/
def hasSameState (i j : Condition) : Bool :=
  i.Type_ == j.Type_ && i.Status == j.Status && i.Reason == j.Reason &&
    i.Severity == j.Severity && i.Message == j.Message

/-- The loop of `conditions.Set` over the existing conditions: at the first
condition of the same type, the new condition replaces it, stamped with the
current time, when its state differs, and the existing one is kept otherwise.
The result is `none` when no condition of that type exists. -/
def conditionsSetLoop (now : Time) (c : Condition) : List Condition → Option (List Condition)
  | [] => none
  | e :: rest =>
    if e.Type_ = c.Type_ then
      if !hasSameState e c then some ({ c with LastTransitionTime := now } :: rest)
      else some (e :: rest)
    else
      match conditionsSetLoop now c rest with
      | some rest1 => some (e :: rest1)
      | none => none

/-- Library helper `lexicographicLess`: `Ready` first, then by type. -/
def lexicographicLess (i j : Condition) : Bool :=
  (i.Type_ == ReadyCondition || stringLess i.Type_ j.Type_) && j.Type_ != ReadyCondition

/-- Insertion of one condition into a list ordered by `lexicographicLess`,
after the conditions that are less and before all others. -/
def insertCondition (a : Condition) : List Condition → List Condition
  | [] => [a]
  | b :: rest =>
    if lexicographicLess b a then b :: insertCondition a rest else a :: b :: rest

/-- The call `sort.Slice(conditions, lexicographicLess)` of `conditions.Set`. -/
def sortConditions : List Condition → List Condition
  | [] => []
  | a :: rest => insertCondition a (sortConditions rest)

/-- Library function `conditions.Set` on the condition list of the target: an
existing condition of the same type is replaced only on a change of state, a
new one is appended with the current time when its own is zero, and the list
is sorted. -/
def conditionsSet (now : Time) (conds : List Condition) (c : Condition) : List Condition :=
  match conditionsSetLoop now c conds with
  | some conds1 => sortConditions conds1
  | none =>
    sortConditions (conds ++
      [{ c with LastTransitionTime :=
          if c.LastTransitionTime = zeroTime then now else c.LastTransitionTime }])

/-- Function `GetReadyCondition`. -/
def GetReadyCondition (obj : Object) : Option Condition :=
  conditionsGet obj.Conditions ReadyCondition

/-- Function `setReadyCondition`. -/
def setReadyCondition (obj : Object) (ready : Condition) (now : Time) : Object :=
  { obj with Conditions := conditionsSet now obj.Conditions ready }

/-- Function `virtualObject`. -/
def virtualObject (namespace_ name : String) : Object :=
  { Kind := name
    Namespace := namespace_
    Name := name
    Annotations := [( VirtualObjectAnnotation, "True")]
    UID := "" ++ ", " ++ namespace_ ++ "/" ++ name }

/-! ## The object tree (`tree.go`) -/

/-- Record `objectTreeOptions`. -/
structure objectTreeOptions where
  ShowOtherConditions : String := ""
  DisableNoEcho : Bool := false
  DisableGroupObjects : Bool := false
  DebugFilter : String := ""
deriving DecidableEq, Repr

/-- A set of identities, the inner `map[types.UID]bool` of `ownership`. -/
structure UIDSet where
  elems : List String
  nodup : elems.Nodup

/-- The empty set of identities (a nil or empty inner map). -/
def UIDSet.empty : UIDSet := ⟨[], List.nodup_nil⟩

/-- Go map write `m[id] = true`. -/
def UIDSet.insert (s : UIDSet) (id : String) : UIDSet :=
  if h : id ∈ s.elems then s
  else ⟨s.elems ++ [id], by
    rw [List.nodup_append]
    refine ⟨s.nodup, List.nodup_singleton id, ?_⟩
    intro a ha hb
    rw [List.mem_singleton] at hb
    exact h (hb ▸ ha)⟩

/-- Go map deletion `delete(m, id)`. -/
def UIDSet.erase (s : UIDSet) (id : String) : UIDSet :=
  ⟨s.elems.filter (fun x => x != id), s.nodup.filter _⟩

/-- One enumeration order of a Go map: any rearrangement of its keys. -/
structure MapOrder where
  enum : List String → List String
  perm : ∀ l, (enum l).Perm l

/-- The enumeration that follows the stored order. -/
def MapOrder.stored : MapOrder := ⟨fun l => l, fun l => List.Perm.refl l⟩

/-- The enumeration that follows the reverse of the stored order. -/
def MapOrder.reversed : MapOrder := ⟨fun l => l.reverse, fun l => List.reverse_perm l⟩

/-- What one call of `add` takes from its environment: the enumeration order of
the children of the parent, the outcome of `util.RandomString(6)` and the
current time read by `conditions.Set`. -/
structure Env where
  order : MapOrder := MapOrder.stored
  rand : String := ""
  now : Time := 0

/-- Record `ObjectTree`. -/
structure ObjectTree where
  options : objectTreeOptions
  items : String → Option Object
  ownership : String → UIDSet

/-- Function `newObjectTree`. -/
def newObjectTree (options : objectTreeOptions) : ObjectTree :=
  { options := options
    items := fun _ => none
    ownership := fun _ => UIDSet.empty }

/-- Method `ObjectTree.remove`. -/
def ObjectTree.remove (od : ObjectTree) (parent s : Object) : ObjectTree :=
  { od with
    items := fun id => if id = s.UID then none else od.items id
    ownership := fun id =>
      if id = parent.UID then (od.ownership id).erase s.UID else od.ownership id }

/-- Method `ObjectTree.addInner`. -/
def ObjectTree.addInner (od : ObjectTree) (parent obj : Object) : ObjectTree :=
  { od with
    items := fun id => if id = obj.UID then some obj else od.items id
    ownership := fun id =>
      if id = parent.UID then (od.ownership id).insert obj.UID else od.ownership id }

/-- Method `ObjectTree.GetObject`: `none` is the nil interface value. -/
def ObjectTree.GetObject (od : ObjectTree) (id : String) : Option Object :=
  od.items id

/-- The keys of `ownership[id]` in the order of one enumeration. -/
def ObjectTree.childKeys (od : ObjectTree) (id : String) (order : MapOrder) : List String :=
  order.enum (od.ownership id).elems

/-- Method `ObjectTree.GetObjectsByParent`. -/
def ObjectTree.GetObjectsByParent (od : ObjectTree) (id : String) (order : MapOrder) :
    List (Option Object) :=
  (od.childKeys id order).map od.GetObject

/-- The loop of `isObjDebug` over the comma separated filters. -/
def isObjDebugLoop (obj : Object) : List String → Bool
  | [] => false
  | filter :: rest =>
    if filter = "" then isObjDebugLoop obj rest
    else if stringsToLower filter = "all" then true
    else
      let kn := stringsSplit filter "/"
      if kn.length = 2 then
        if obj.Kind = kn.getD 0 "" ∧ obj.Name = kn.getD 1 "" then true
        else isObjDebugLoop obj rest
      else if obj.Kind = kn.getD 0 "" then true
      else isObjDebugLoop obj rest

/-- Function `isObjDebug`. -/
def isObjDebug (obj : Object) (debugFilter : String) : Bool :=
  if debugFilter = "" then false
  else isObjDebugLoop obj (stringsSplit debugFilter ",")

/-- Function `readyStatusSeverityAndReasonUID`; `rand` is the outcome of
`util.RandomString(6)`. -/
def readyStatusSeverityAndReasonUID (obj : Object) (rand : String) : String :=
  match GetReadyCondition obj with
  | none => "zzz_" ++ rand
  | some ready =>
    "zz_" ++ ready.Status ++ "_" ++ ready.Severity ++ "_" ++ ready.Reason ++ "_" ++ rand

/-- Function `createGroupNode`. -/
def createGroupNode (s : Object) (sReady : Option Condition) (obj : Object)
    (objReady : Option Condition) (env : Env) : Option Object :=
  let groupNode := virtualObject obj.Namespace (readyStatusSeverityAndReasonUID obj env.rand)
  let groupNode := addAnnotation groupNode GroupObjectAnnotation "True"
  let items := sortStrings [obj.Name, s.Name]
  let groupNode :=
    addAnnotation groupNode GroupItemsAnnotation (stringsJoin items GroupItemsSeparator)
  match objReady with
  | none => some groupNode
  | some ready =>
    match minLastTransitionTime objReady sReady with
    | none => none
    | some t =>
      some (setReadyCondition groupNode
        { ready with LastTransitionTime := t, Message := "" } env.now)

/-- Function `updateGroupNode`; the result is the new state of `s`. -/
def updateGroupNode (s : Object) (sReady : Option Condition) (obj : Object)
    (objReady : Option Condition) (env : Env) : Option Object :=
  let items := stringsSplit (GetGroupItems s) GroupItemsSeparator
  let items := items ++ [obj.Name]
  let items := sortStrings items
  let s := addAnnotation s GroupItemsAnnotation (stringsJoin items GroupItemsSeparator)
  match sReady with
  | none => some s
  | some ready =>
    match minLastTransitionTime objReady sReady with
    | none => none
    | some t =>
      some (setReadyCondition s { ready with LastTransitionTime := t, Message := "" } env.now)

/-- How the sibling loop of `add` ends. -/
inductive GroupOutcome where
  | fallThrough
  | merged (od : ObjectTree)
  | panicked

/-- The loop of `add` over the siblings, given by their keys in enumeration
order; the sibling of key `k` is `od.GetObject k`.  A key without an item gives
the nil interface, whose readiness is absent and on which `IsGroupObject`
panics. -/
def groupSiblings (od : ObjectTree) (parent obj : Object) (objReady : Option Condition)
    (env : Env) : List String → GroupOutcome
  | [] => GroupOutcome.fallThrough
  | k :: rest =>
    let s := od.GetObject k
    let sReady := s.bind GetReadyCondition
    if !hasSameReadyStatusSeverityAndReason objReady sReady then
      groupSiblings od parent obj objReady env rest
    else
      match s with
      | none => GroupOutcome.panicked
      | some s =>
        if IsGroupObject s then
          match updateGroupNode s sReady obj objReady env with
          | none => GroupOutcome.panicked
          | some s1 =>
            GroupOutcome.merged
              { od with items := fun id => if id = k then some s1 else od.items id }
        else
          match createGroupNode s sReady obj objReady env with
          | none => GroupOutcome.panicked
          | some groupNode =>
            GroupOutcome.merged ((od.addInner parent groupNode).remove parent s)

/-- The test of the echo suppression step of `add`. -/
def isEcho (od : ObjectTree) (addOpts : AddObjectOptions)
    (parentReady objReady : Option Condition) : Bool :=
  if addOpts.NoEcho && !od.options.DisableNoEcho then
    if (match objReady with
        | some ready => ready.Status == ConditionTrue
        | none => false) || hasSameReadyStatusSeverityAndReason parentReady objReady then
      true
    else false
  else false

/-- The state of `obj` after the debug marking step of `add`. -/
def markDebug (od : ObjectTree) (obj : Object) : Object :=
  if isObjDebug obj od.options.ShowOtherConditions then
    addAnnotation obj ShowObjectConditionsAnnotation "True"
  else obj

/-- The state of `obj` after the meta name step of `add`. -/
def markMetaName (addOpts : AddObjectOptions) (obj : Object) : Object :=
  if addOpts.MetaName ≠ "" then addAnnotation obj ObjectMetaNameAnnotation addOpts.MetaName
  else obj

/-- The state of `obj` after the grouping establishment step of `add`. -/
def markGrouping (od : ObjectTree) (addOpts : AddObjectOptions) (obj : Object) : Object :=
  if addOpts.GroupingObject && !od.options.DisableGroupObjects then
    addAnnotation obj GroupingObjectAnnotation "True"
  else obj

/-- Method `ObjectTree.add`: the tree after the call, or `none` when the call
panics. -/
def ObjectTree.add (od : ObjectTree) (parent obj : Object) (opts : List AddObjectOption)
    (env : Env) : Option ObjectTree :=
  let addOpts := AddObjectOptions.ApplyOptions {} opts
  let objReady := GetReadyCondition obj
  let parentReady := GetReadyCondition parent
  let obj := markDebug od obj
  if isEcho od addOpts parentReady objReady then some od
  else
    let obj := markMetaName addOpts obj
    let outcome :=
      if IsGroupingObject parent then
        groupSiblings od parent obj objReady env (od.childKeys parent.UID env.order)
      else GroupOutcome.fallThrough
    match outcome with
    | GroupOutcome.panicked => none
    | GroupOutcome.merged od1 => some od1
    | GroupOutcome.fallThrough => some (od.addInner parent (markGrouping od addOpts obj))

end CapiTree

namespace CapiTree

/-! ## Example inputs -/

/-- A readiness condition with status False, severity Error, reason Crashed. -/
def crashed (t : Time) (message : String) : Condition :=
  { Status := "False", Severity := "Error", Reason := "Crashed",
    LastTransitionTime := t, Message := message }

/-- A readiness condition with status True. -/
def readyTrue (t : Time) : Condition :=
  { Status := "True", LastTransitionTime := t }

/-- A parent that carries the grouping-parent marker and has no readiness. -/
def sampleParent : Object :=
  { Kind := "KubeadmControlPlane", Name := "cp", UID := "uid-cp",
    Annotations := [( GroupingObjectAnnotation, "True")] }

/-- A machine with the given name, identity and readiness. -/
def machine (name uid : String) (ready : Condition) : Object :=
  { Kind := "Machine", Name := name, UID := uid, Conditions := [ready] }

/-! ## Predicates used by the statements -/

/-- A parent without any marker and without readiness. -/
def plainParent : Object :=
  { Kind := "Cluster", Name := "c1", UID := "uid-c1" }

/-- The key of the sibling at which the loop of `add` stops: the first key, in
enumeration order, whose item has readiness equivalent to `objReady`. -/
def ObjectTree.matchingSibling (od : ObjectTree) (objReady : Option Condition) :
    List String → Option String
  | [] => none
  | k :: rest =>
    if hasSameReadyStatusSeverityAndReason objReady
        ((od.GetObject k).bind GetReadyCondition) then some k
    else od.matchingSibling objReady rest

/-- Two conditions that agree on everything but the last transition time. -/
def sameButTime (r c : Condition) : Prop :=
  r.Type_ = c.Type_ ∧ r.Status = c.Status ∧ r.Severity = c.Severity ∧
    r.Reason = c.Reason ∧ r.Message = c.Message

/-- A group node of two machines. -/
def sampleGroup : Object :=
  { Kind := "zz_False_Error_Crashed_abcdef", Name := "zz_False_Error_Crashed_abcdef",
    UID := "uid-g",
    Annotations := [( VirtualObjectAnnotation, "True"), ( GroupObjectAnnotation, "True"),
      ( GroupItemsAnnotation, "m1, m2")],
    Conditions := [crashed 20 ""] }

/-- A tree in which `sampleParent` has the single child `sampleGroup`. -/
def groupTree : ObjectTree :=
  { options := {}
    items := fun id => if id = "uid-g" then some sampleGroup else none
    ownership := fun id =>
      if id = "uid-cp" then ⟨["uid-g"], List.nodup_singleton _⟩ else UIDSet.empty }

/-- A tree in which `sampleParent` has the single child `machine m1`. -/
def oneMachineTree : ObjectTree :=
  { options := {}
    items := fun id => if id = "uid-m1" then some (machine "m1" "uid-m1" (crashed 10 "boom")) else none
    ownership := fun id =>
      if id = "uid-cp" then ⟨["uid-m1"], List.nodup_singleton _⟩ else UIDSet.empty }

/-- The identity `createGroupNode` gives to the group node made for `obj`. -/
def groupNodeUID (obj : Object) (rand : String) : String :=
  (virtualObject obj.Namespace (readyStatusSeverityAndReasonUID obj rand)).UID

/-- The tree after three equivalent machines, whose readiness changed at the
times 10, 20 and 5, were added one after another under `sampleParent`. -/
def threeAdds : Option ObjectTree :=
  ((((newObjectTree {}).add sampleParent (machine "m1" "uid-m1" (crashed 10 "boom")) []
      { rand := "abcdef", now := 100 }).bind
    (fun od => od.add sampleParent (machine "m2" "uid-m2" (crashed 20 "bang")) []
      { rand := "abcdef", now := 100 })).bind
    (fun od => od.add sampleParent (machine "m3" "uid-m3" (crashed 5 "crack")) []
      { rand := "abcdef", now := 100 }))

/-- Go test `strings.Contains(s, sep)` on character sequences, for a non empty
separator. -/
def containsChars (sep : List Char) : List Char → Bool
  | [] => false
  | c :: cs => sep.isPrefixOf (c :: cs) || containsChars sep cs

/-- The name contains the separator of the group-items annotation. -/
def hasSeparator (name : String) : Bool :=
  containsChars GroupItemsSeparator.data name.data

/-- The order `a ≤ b` of Go strings: `b < a` does not hold. -/
def stringLe (a b : String) : Prop := stringLess b a = false

/-- A readiness condition with status False, severity Warning, reason X. -/
def warned (t : Time) (message : String) : Condition :=
  { Status := "False", Severity := "Warning", Reason := "X",
    LastTransitionTime := t, Message := message }

/-- The tree after three machines named `b, a`, `c` and `d`, with the same
readiness, were added one after another under `sampleParent`. -/
def separatorAdds : Option ObjectTree :=
  ((((newObjectTree {}).add sampleParent (machine "b, a" "uid-1" (warned 10 "boom")) []
      { rand := "abcdef" }).bind
    (fun od => od.add sampleParent (machine "c" "uid-2" (warned 20 "bang")) []
      { rand := "abcdef" })).bind
    (fun od => od.add sampleParent (machine "d" "uid-3" (warned 5 "crack")) []
      { rand := "abcdef" }))

/-- The tree a call of `add` returns once the sibling loop ended as given. -/
def addOutcome (od : ObjectTree) (parent obj : Object) (addOpts : AddObjectOptions) :
    GroupOutcome → Option ObjectTree
  | GroupOutcome.panicked => none
  | GroupOutcome.merged od1 => some od1
  | GroupOutcome.fallThrough => some (od.addInner parent (markGrouping od addOpts obj))

/-- The tree with another `ShowOtherConditions` filter. -/
def ObjectTree.withFilter (od : ObjectTree) (filter : String) : ObjectTree :=
  { od with options := { od.options with ShowOtherConditions := filter } }

/-- Two objects that differ at most in the show-conditions annotation. -/
def sameButShowConditions (o1 o2 : Object) : Prop :=
  o1.Kind = o2.Kind ∧ o1.Namespace = o2.Namespace ∧ o1.Name = o2.Name ∧ o1.UID = o2.UID ∧
    o1.Conditions = o2.Conditions ∧ o1.DeletionTimestamp = o2.DeletionTimestamp ∧
    ∀ key, key ≠ ShowObjectConditionsAnnotation →
      getAnnotation o1 key = getAnnotation o2 key

/-- Two ends of the sibling loop that agree on `items` and `ownership`. -/
def GroupOutcome.sameStructure : GroupOutcome → GroupOutcome → Prop
  | GroupOutcome.fallThrough, GroupOutcome.fallThrough => True
  | GroupOutcome.panicked, GroupOutcome.panicked => True
  | GroupOutcome.merged t1, GroupOutcome.merged t2 =>
    t1.items = t2.items ∧ t1.ownership = t2.ownership
  | _, _ => False

/-- One call `od.add(parent, obj, opts...)` with what it takes from its
environment. -/
structure AddCall where
  parent : Object
  obj : Object
  opts : List AddObjectOption := []
  env : Env := {}

/-- A sequence of calls of `add`, one after another on the same tree; `none`
when one of them panics. -/
def runAdds (od : ObjectTree) : List AddCall → Option ObjectTree
  | [] => some od
  | c :: rest =>
    match od.add c.parent c.obj c.opts c.env with
    | none => none
    | some od1 => runAdds od1 rest

/-- The identities a sequence of calls brings: for each call the identity of
its object and the identity it would synthesize for a group node. -/
def callIdentities : List AddCall → List String
  | [] => []
  | c :: rest => c.obj.UID :: groupNodeUID c.obj c.env.rand :: callIdentities rest

/-- The invariant of the engine: no child identity without an item, every
item stored under its own identity, every child identity under one parent,
and every child identity among the identities `done` brought so far. -/
structure TreeInv (done : List String) (od : ObjectTree) : Prop where
  consistent : ∀ p c, c ∈ (od.ownership p).elems → ∃ o, od.GetObject c = some o
  keyed : ∀ k o, od.GetObject k = some o → o.UID = k
  singleOwner : ∀ p1 p2 c, c ∈ (od.ownership p1).elems → c ∈ (od.ownership p2).elems →
    p1 = p2
  known : ∀ p c, c ∈ (od.ownership p).elems → c ∈ done

/-- A second parent without any marker. -/
def otherParent : Object :=
  { Kind := "MachineDeployment", Name := "md1", UID := "uid-md1" }

/-- Three equivalent machines added under `sampleParent` and one machine added
under `plainParent`, each call with its own random suffix. -/
def sampleCalls : List AddCall :=
  [{ parent := sampleParent, obj := machine "m1" "uid-m1" (crashed 10 "boom"),
     env := { rand := "aaaaaa" } },
   { parent := sampleParent, obj := machine "m2" "uid-m2" (crashed 20 "bang"),
     env := { rand := "bbbbbb" } },
   { parent := sampleParent, obj := machine "m3" "uid-m3" (crashed 5 "crack"),
     env := { rand := "cccccc" } },
   { parent := plainParent, obj := machine "m4" "uid-m4" (readyTrue 1),
     env := { rand := "dddddd" } }]

/-- The same machine added under two parents. -/
def twoParentCalls : List AddCall :=
  [{ parent := plainParent, obj := machine "m0" "uid-m0" (readyTrue 7) },
   { parent := otherParent, obj := machine "m0" "uid-m0" (readyTrue 7) }]

/-! ## The renderer (`cmd/kubectl-capi-tree/tree.go`) and `GetOtherConditions` -/

/-- Constant `firstElemPrefix`, the glyph of a child that is not the last. -/
def firstElemPrefix : String := "├─"

/-- Constant `lastElemPrefix`, the glyph of the last child. -/
def lastElemPrefix : String := "└─"

/-- Constant `indent`. -/
def indent : String := "  "

/-- Constant `pipe`, the continuation of an ancestor that is not the last. -/
def pipe : String := "│ "

/-- The colour objects of `tree.go`; `bold` is the object `color.New(color.Bold)`
made anew at each use. -/
inductive Color where
  | gray
  | red
  | green
  | yellow
  | white
  | cyan
  | bold
deriving DecidableEq, Repr

/-- What the renderer takes from its environment.  `sprint n c s` is the text
`c.Sprint(s)` of the colour library when `Bold` was added `n` times to the
shared colour object `white` (the call `white.Add(color.Bold)` made for every
group node changes that object; the count matters for `white` only, and
`getName`, which never prints in white, passes `0`); `format s` is
`fmt.Sprintf(s)` without operands; `humanDuration d` is
`duration.HumanDuration(d)`; `now` is the current time read by `time.Since`. -/
structure RenderEnv where
  order : MapOrder := MapOrder.stored
  sprint : Nat → Color → String → String := fun _ _ s => s
  format : String → String := fun s => s
  humanDuration : Int → String := fun _ => "5m"
  now : Time := 0

/-- The bytes of the UTF-8 encoding of a character. -/
def utf8EncodeChar (c : Char) : List Nat :=
  let n := c.toNat
  if n < 128 then [n]
  else if n < 2048 then [192 + n / 64, 128 + n % 64]
  else if n < 65536 then [224 + n / 4096, 128 + (n / 64) % 64, 128 + n % 64]
  else [240 + n / 262144, 128 + (n / 4096) % 64, 128 + (n / 64) % 64, 128 + n % 64]

/-- The bytes of the characters of a sequence. -/
def utf8Chars : List Char → List Nat
  | [] => []
  | c :: cs => utf8EncodeChar c ++ utf8Chars cs

/-- The bytes of a Go string. -/
def utf8Bytes (s : String) : List Nat := utf8Chars s.data

/-- Record `cond`; `readyColor` is a pointer, nil in the zero value, and
`message` is kept as bytes because `getCond` slices it by bytes. -/
structure cond where
  readyColor : Option Color := none
  age : String := ""
  status : String := ""
  severity : String := ""
  reason : String := ""
  message : List Nat := []
deriving DecidableEq, Repr

/-- The message of `getCond`: `len(v.message) > 100` counts bytes and
`v.message[:100]` keeps the first 100 bytes. -/
def truncateMessage (message : String) : List Nat :=
  if (utf8Bytes message).length > 100 then
    (utf8Bytes message).take 100 ++ utf8Bytes " ..."
  else utf8Bytes message

/-- Function `getCond`. -/
def getCond (env : RenderEnv) (c : Option Condition) : cond :=
  match c with
  | none => {}
  | some c =>
    { readyColor :=
        if c.Status = ConditionTrue then some Color.green
        else if c.Status = ConditionFalse ∨ c.Status = ConditionUnknown then
          if c.Severity = ConditionSeverityError then some Color.red
          else if c.Severity = ConditionSeverityWarning then some Color.yellow
          else some Color.white
        else some Color.gray
      status := c.Status
      severity := c.Severity
      reason := c.Reason
      message := truncateMessage c.Message
      age := env.humanDuration (env.now - c.LastTransitionTime) }

/-- Function `getName`. -/
def getName (env : RenderEnv) (obj : Object) : String :=
  if IsGroupObject obj then
    toString (stringsSplit (GetGroupItems obj) GroupItemsSeparator).length ++ " Machines..."
  else if IsVirtualObject obj then obj.Name
  else
    let objName := obj.Kind ++ "/" ++ env.sprint 0 Color.bold obj.Name
    if GetMetaName obj ≠ "" then
      GetMetaName obj ++ " - " ++ env.sprint 0 Color.gray (env.format objName)
    else objName

/-- Library function `strings.HasSuffix`. -/
def stringsHasSuffix (s suffix : String) : Bool :=
  suffix.data.reverse.isPrefixOf s.data.reverse

/-- Worker of `stringsCount`, for a non empty `old`; `skip` is the number of
characters of a counted occurrence still to be passed. -/
def countGo (old : List Char) : List Char → Nat → Nat
  | [], _ => 0
  | _ :: cs, skip + 1 => countGo old cs skip
  | c :: cs, 0 =>
    if old.isPrefixOf (c :: cs) then 1 + countGo old cs (old.length - 1)
    else countGo old cs 0

/-- Library function `strings.Count`: the number of non overlapping
occurrences; for an empty `substr` one more than the number of characters. -/
def stringsCount (s substr : String) : Nat :=
  if substr.data = [] then s.data.length + 1 else countGo substr.data s.data 0

/-- Worker of `stringsReplace`, for a non empty `old`: `n` replacements are
still allowed and `skip` characters of a replaced occurrence are still to be
dropped. -/
def replaceGo (old new : List Char) : List Char → Nat → Nat → List Char
  | [], _, _ => []
  | _ :: cs, n, skip + 1 => replaceGo old new cs n skip
  | c :: cs, 0, 0 => c :: cs
  | c :: cs, n + 1, 0 =>
    if old.isPrefixOf (c :: cs) then new ++ replaceGo old new cs n (old.length - 1)
    else c :: replaceGo old new cs (n + 1) 0

/-- Worker of `stringsReplace` for the empty `old`: `new` is put in front of
each of the first `n` characters, and at the end when replacements are left. -/
def replaceEmpty (new : List Char) : List Char → Nat → List Char
  | cs, 0 => cs
  | [], _ + 1 => new
  | c :: cs, n + 1 => new ++ c :: replaceEmpty new cs n

/-- Library function `strings.Replace`: the first `n` non overlapping
occurrences of `old` are replaced by `new`, all of them when `n` is
negative. -/
def stringsReplace (s old new : String) (n : Int) : String :=
  let limit := if n < 0 then stringsCount s old else n.toNat
  if old = new then s
  else if old.data = [] then String.mk (replaceEmpty new.data s.data limit)
  else String.mk (replaceGo old.data new.data s.data limit 0)

/-- Library function `strings.ReplaceAll`. -/
def stringsReplaceAll (s old new : String) : String := stringsReplace s old new (-1)

/-- Library function `strings.Repeat`. -/
def stringsRepeat (s : String) : Nat → String
  | 0 => ""
  | n + 1 => s ++ stringsRepeat s n

/-- Function `printPrefix`. -/
def printPrefix (p : String) : String :=
  let p :=
    if stringsHasSuffix p firstElemPrefix then
      stringsReplace p firstElemPrefix pipe ((stringsCount p firstElemPrefix : Int) - 1)
    else stringsReplaceAll p firstElemPrefix pipe
  if stringsHasSuffix p lastElemPrefix then
    stringsReplace p lastElemPrefix (stringsRepeat " " lastElemPrefix.length)
      ((stringsCount p lastElemPrefix : Int) - 1)
  else stringsReplaceAll p lastElemPrefix (stringsRepeat " " lastElemPrefix.length)

/-- One pass of the inner loop of Go's insertion sort: `x` moves to the left
past the predecessors it is less than; `before` lists the predecessors, the
nearest first, and so does the result. -/
def sinkLeft {α : Type} (less : α → α → Bool) (x : α) : List α → List α
  | [] => [x]
  | e :: before => if less x e then e :: sinkLeft less x before else x :: e :: before

/-- The outer loop of Go's insertion sort; `sorted` is the part already in
order, the last element first. -/
def insertionSortGo {α : Type} (less : α → α → Bool) : List α → List α → List α
  | sorted, [] => sorted
  | sorted, x :: rest => insertionSortGo less (sinkLeft less x sorted) rest

/-- Library function `sort.Slice` as the insertion sort Go runs on a short
slice; on a longer slice Go may order equal elements differently. -/
def sortSlice {α : Type} (less : α → α → Bool) (l : List α) : List α :=
  (insertionSortGo less [] l).reverse

/-- Function `GetOtherConditions` of `status/util.go`. -/
def GetOtherConditions (obj : Object) : List Condition :=
  sortSlice (fun a b => stringLess a.Type_ b.Type_)
    (obj.Conditions.filter (fun c => c.Type_ != ReadyCondition))

/-- One row given to `tbl.AddRow`: the six cells. -/
structure Row where
  name : String
  status : String
  severity : String
  reason : String
  age : String
  message : List Nat
deriving DecidableEq, Repr

/-- The call `tbl.AddRow(name, v.readyColor.Sprint(v.status), ...)`: `none`
when `readyColor` is nil, on which `Sprint` panics. -/
def addRow (env : RenderEnv) (bolds : Nat) (name : String) (v : cond) : Option Row :=
  match v.readyColor with
  | none => none
  | some color =>
    some { name := name
           status := env.sprint bolds color v.status
           severity := env.sprint bolds color v.severity
           reason := env.sprint bolds color v.reason
           age := v.age
           message := v.message }

/-- The row `treeViewInner` adds for the node itself, under the prefix `pfx`;
`bolds` counts the calls `white.Add(color.Bold)` made so far, the one of this
node included. -/
def nodeRow (env : RenderEnv) (pfx : String) (bolds : Nat) (obj : Object) : Option Row :=
  let v : cond := { readyColor := some Color.gray }
  let v := match GetReadyCondition obj with
    | some ready => getCond env (some ready)
    | none => v
  let name := getName env obj
  let items := stringsSplit (GetGroupItems obj) GroupItemsSeparator
  let name := if IsGroupObject obj then env.sprint bolds Color.white (env.format name) else name
  let v :=
    if IsGroupObject obj then
      if items.length ≤ 2 then
        { v with message := utf8Bytes (env.sprint bolds Color.gray
            ("See " ++ stringsJoin items GroupItemsSeparator)) }
      else
        { v with message := utf8Bytes (env.sprint bolds Color.gray
            ("See " ++ stringsJoin (items.take 2) GroupItemsSeparator ++ ", ...")) }
    else v
  let deleted : Bool := match obj.DeletionTimestamp with
    | some t => t != zeroTime
    | none => false
  let name :=
    if deleted then env.sprint bolds Color.red (env.format "!! DELETED !!") ++ " " ++ name
    else name
  addRow env bolds (env.sprint bolds Color.gray (printPrefix pfx) ++ name) v

/-- The row `treeViewInner` adds for the condition of index `i` out of `total`
other conditions of a node with `children` children. -/
def conditionRow (env : RenderEnv) (pfx : String) (bolds children total i : Nat)
    (c : Condition) : Option Row :=
  let filler := stringsRepeat " " 10
  let siblingsPipe := if children > 0 then pipe else "  "
  let p :=
    if i = total - 1 then pfx ++ siblingsPipe ++ filler ++ lastElemPrefix
    else pfx ++ siblingsPipe ++ filler ++ firstElemPrefix
  addRow env bolds
    (env.sprint bolds Color.gray (printPrefix p) ++ env.sprint bolds Color.cyan c.Type_)
    (getCond env (some c))

/-- The loop of `treeViewInner` over the other conditions, from index `i`. -/
def conditionRowsFrom (env : RenderEnv) (pfx : String) (bolds children total : Nat) :
    Nat → List Condition → Option (List Row)
  | _, [] => some []
  | i, c :: rest =>
    match conditionRow env pfx bolds children total i c with
    | none => none
    | some row =>
      match conditionRowsFrom env pfx bolds children total (i + 1) rest with
      | none => none
      | some rows => some (row :: rows)

/-- The rows `treeViewInner` adds for the other conditions of a node: none
unless the node carries the show-conditions marker. -/
def conditionRows (env : RenderEnv) (pfx : String) (bolds children : Nat) (obj : Object) :
    Option (List Row) :=
  if IsShowConditionsObject obj then
    conditionRowsFrom env pfx bolds children (GetOtherConditions obj).length 0
      (GetOtherConditions obj)
  else some []

/-- The children as objects: `none` when one of them is the nil interface. -/
def allPresent : List (Option Object) → Option (List Object)
  | [] => some []
  | none :: _ => none
  | some o :: rest =>
    match allPresent rest with
    | none => none
    | some os => some (o :: os)

/-- The children of a node in the order in which `treeViewInner` visits them:
`GetObjectsByParent` sorted by `getName`.  A nil child makes the traversal
panic, in the comparison of the sort or when the child is visited. -/
def visitOrder (env : RenderEnv) (od : ObjectTree) (obj : Object) : Option (List Object) :=
  match allPresent (od.GetObjectsByParent obj.UID env.order) with
  | none => none
  | some chs =>
    some (sortSlice (fun a b => stringLess (getName env a) (getName env b)) chs)

/-- The loop of `treeViewInner` over the sorted children; `visit` is the
recursive call and the last child gets the glyph `lastElemPrefix`. -/
def visitChildren (visit : String → Nat → Object → Option (List Row × Nat)) (pfx : String) :
    Nat → List Object → Option (List Row × Nat)
  | bolds, [] => some ([], bolds)
  | bolds, [child] => visit (pfx ++ lastElemPrefix) bolds child
  | bolds, child :: next :: rest =>
    match visit (pfx ++ firstElemPrefix) bolds child with
    | none => none
    | some (rows, bolds1) =>
      match visitChildren visit pfx bolds1 (next :: rest) with
      | none => none
      | some (rows1, bolds2) => some (rows ++ rows1, bolds2)

/-- Function `treeViewInner`: the rows added to the table and the number of
calls `white.Add(color.Bold)` made so far.  The result is `none` when the
traversal panics or when the depth of the recursion exceeds `fuel`. -/
def treeViewInner (env : RenderEnv) (od : ObjectTree) :
    Nat → String → Nat → Object → Option (List Row × Nat)
  | 0, _, _, _ => none
  | fuel + 1, pfx, bolds, obj =>
    let bolds1 := if IsGroupObject obj then bolds + 1 else bolds
    match nodeRow env pfx bolds1 obj with
    | none => none
    | some row =>
      match conditionRows env pfx bolds1 (od.GetObjectsByParent obj.UID env.order).length
          obj with
      | none => none
      | some condRows =>
        match visitOrder env od obj with
        | none => none
        | some chs =>
          match visitChildren (treeViewInner env od fuel) pfx bolds1 chs with
          | none => none
          | some (rows, bolds2) => some (row :: condRows ++ rows, bolds2)

/-- A message of 60 characters of two bytes each. -/
def accentedMessage : String := String.mk (List.replicate 60 'é')

/-- A message of 99 letters, one character of two bytes and one more letter. -/
def straddlingMessage : String := String.mk (List.replicate 99 'a' ++ ['é', 'b'])

/-- A tree in which `plainParent` has the machines `b` and `a` as children. -/
def twoMachineTree : ObjectTree :=
  { options := {}
    items := fun id =>
      if id = "uid-b" then some (machine "b" "uid-b" (crashed 10 "boom"))
      else if id = "uid-a" then some (machine "a" "uid-a" (readyTrue 20))
      else none
    ownership := fun id =>
      if id = "uid-c1" then ⟨["uid-b", "uid-a"], by decide⟩ else UIDSet.empty }

/-- A machine marked to show all its conditions, with two conditions besides
the readiness. -/
def debugMachine : Object :=
  { Kind := "Machine", Name := "m9", UID := "uid-m9",
    Annotations := [( ShowObjectConditionsAnnotation, "True")],
    Conditions := [crashed 10 "boom",
      { Type_ := "InfrastructureReady", Status := "False", Severity := "Warning",
        Reason := "Waiting", LastTransitionTime := 3 },
      { Type_ := "BootstrapReady", Status := "True", LastTransitionTime := 4 }] }

/-- Two crashed machines and two warned machines added under `sampleParent`:
the parent ends with two group nodes of two members each. -/
def twoGroupCalls : List AddCall :=
  [{ parent := sampleParent, obj := machine "m1" "uid-m1" (crashed 10 "boom"),
     env := { rand := "aaaaaa" } },
   { parent := sampleParent, obj := machine "m2" "uid-m2" (crashed 20 "bang"),
     env := { rand := "bbbbbb" } },
   { parent := sampleParent, obj := machine "m3" "uid-m3" (warned 30 "slow"),
     env := { rand := "cccccc" } },
   { parent := sampleParent, obj := machine "m4" "uid-m4" (warned 40 "late"),
     env := { rand := "dddddd" } }]

/-- The rows of `treeViewInner` for `sampleParent` in the tree of
`twoGroupCalls`, under one enumeration order of the child sets. -/
def twoGroupRows (order : MapOrder) : Option (List Row) :=
  ((runAdds (newObjectTree {}) twoGroupCalls).bind
    (fun od => treeViewInner { order := order } od 3 "" 0 sampleParent)).map (fun r => r.1)

/-- The branch glyph of one level of a prefix: `firstElemPrefix` for a child
that is not the last, `lastElemPrefix` for the last. -/
def branchGlyph (notLast : Bool) : String :=
  if notLast then firstElemPrefix else lastElemPrefix

/-- The continuation of an ancestor level: the vertical bar for an ancestor
that is not the last child, two blanks for a last child. -/
def continuationGlyph (notLast : Bool) : String :=
  if notLast then pipe else "  "

/-- The prefix made of the branch glyphs of the given levels. -/
def joinBranches : List Bool → String
  | [] => ""
  | g :: rest => branchGlyph g ++ joinBranches rest

/-- The continuations of the given levels. -/
def joinContinuations : List Bool → String
  | [] => ""
  | g :: rest => continuationGlyph g ++ joinContinuations rest

/-- The two-character cells a prefix is made of. -/
inductive PrefixCell where
  | first
  | last
  | bar
  | blank
deriving DecidableEq, Repr

/-- The characters of a cell. -/
def PrefixCell.chars : PrefixCell → List Char
  | PrefixCell.first => ['├', '─']
  | PrefixCell.last => ['└', '─']
  | PrefixCell.bar => ['│', ' ']
  | PrefixCell.blank => [' ', ' ']

/-- The characters of a sequence of cells. -/
def renderCells : List PrefixCell → List Char
  | [] => []
  | c :: cs => c.chars ++ renderCells cs

/-- The first `n` cells `x` replaced by `y`. -/
def replaceCells (x y : PrefixCell) : Nat → List PrefixCell → List PrefixCell
  | 0, cs => cs
  | _ + 1, [] => []
  | n + 1, c :: cs =>
    if c = x then y :: replaceCells x y n cs else c :: replaceCells x y (n + 1) cs

/-- The number of cells `x`. -/
def countCells (x : PrefixCell) : List PrefixCell → Nat
  | [] => 0
  | c :: cs => if c = x then 1 + countCells x cs else countCells x cs

/-- The cell of a branch glyph. -/
def branchCell (notLast : Bool) : PrefixCell :=
  if notLast then PrefixCell.first else PrefixCell.last

/-- The cell of a continuation. -/
def continuationCell (notLast : Bool) : PrefixCell :=
  if notLast then PrefixCell.bar else PrefixCell.blank

/-- The name of a colour. -/
def Color.label : Color → String
  | Color.gray => "gray"
  | Color.red => "red"
  | Color.green => "green"
  | Color.yellow => "yellow"
  | Color.white => "white"
  | Color.cyan => "cyan"
  | Color.bold => "bold"

/-- A rendering environment that shows what it is given: the colour is written
in front of the text, the age is the number of seconds, and the current time
is 100. -/
def showingEnv : RenderEnv :=
  { sprint := fun _ color s => "<" ++ color.label ++ ">" ++ s
    humanDuration := fun d => toString d.toNat ++ "s"
    now := 100 }

/-! ## Sequences of calls: what the statements speak of -/

/-- The call is cut short by the echo test, on a tree with the given options. -/
def AddCall.suppressed (options : objectTreeOptions) (c : AddCall) : Bool :=
  isEcho (newObjectTree options) (AddObjectOptions.ApplyOptions {} c.opts)
    (GetReadyCondition c.parent) (GetReadyCondition c.obj)

/-- The object of the call as `add` stores it on a tree with the given
options: with the marks of the debug, meta name and grouping steps. -/
def AddCall.stored (options : objectTreeOptions) (c : AddCall) : Object :=
  markGrouping (newObjectTree options) (AddObjectOptions.ApplyOptions {} c.opts)
    (markMetaName (AddObjectOptions.ApplyOptions {} c.opts)
      (markDebug (newObjectTree options) c.obj))

/-- Two objects added under `plainParent` with the option `GroupingObject(true)`
and three machines added under the first of them: one with `NoEcho(true)` and
the readiness of its parent, two with the same readiness.  The parent of the
later calls is the first object as its call stored it. -/
def ungroupedCalls : List AddCall :=
  [{ parent := plainParent, obj := machine "md1" "uid-md1" (crashed 10 "boom"),
     opts := [AddObjectOption.GroupingObject true] },
   { parent := plainParent, obj := machine "md2" "uid-md2" (crashed 20 "bang"),
     opts := [AddObjectOption.GroupingObject true] },
   { parent := machine "md1" "uid-md1" (crashed 10 "boom"),
     obj := machine "m1" "uid-m1" (crashed 10 "boom"),
     opts := [AddObjectOption.NoEcho true] },
   { parent := machine "md1" "uid-md1" (crashed 10 "boom"),
     obj := machine "m2" "uid-m2" (warned 10 "slow") },
   { parent := machine "md1" "uid-md1" (crashed 10 "boom"),
     obj := machine "m3" "uid-m3" (warned 20 "late") }]

/-- The member list of a group node: the group-items annotation cut at the
separator, as `updateGroupNode` and the renderer read it. -/
def memberList (g : Object) : List String :=
  stringsSplit (GetGroupItems g) GroupItemsSeparator

/-- The readiness of the child stored under the key `k`; absent when the key
has no item. -/
def ObjectTree.readyOf (od : ObjectTree) (k : String) : Option Condition :=
  (od.GetObject k).bind GetReadyCondition

/-- The children of the parent `pid` are mutually exclusive: every child key
has an item, stored under its own identity, and no two children have
equivalent readiness. -/
structure Exclusive (od : ObjectTree) (pid : String) : Prop where
  present : ∀ k ∈ (od.ownership pid).elems, ∃ o, od.GetObject k = some o ∧ o.UID = k
  exclusive : ∀ k1 ∈ (od.ownership pid).elems, ∀ k2 ∈ (od.ownership pid).elems, k1 ≠ k2 →
    hasSameReadyStatusSeverityAndReason (od.readyOf k1) (od.readyOf k2) = false

/-- Machines of three kinds of readiness added under `sampleParent` in mixed
order. -/
def mixedCalls : List AddCall :=
  [{ parent := sampleParent, obj := machine "m1" "uid-m1" (crashed 10 "boom"),
     env := { rand := "aaaaaa" } },
   { parent := sampleParent, obj := machine "m2" "uid-m2" (warned 20 "slow"),
     env := { rand := "bbbbbb" } },
   { parent := sampleParent, obj := machine "m3" "uid-m3" (crashed 5 "crack"),
     env := { rand := "cccccc", order := MapOrder.reversed } },
   { parent := sampleParent, obj := machine "m4" "uid-m4" (readyTrue 1),
     env := { rand := "dddddd" } },
   { parent := sampleParent, obj := machine "m5" "uid-m5" (crashed 7 "bang"),
     env := { rand := "eeeeee", order := MapOrder.reversed } }]

/-- The names the child stored under the key `k` stands for: the members of a
group node, the name of a plain node. -/
def ObjectTree.namesOf (od : ObjectTree) (k : String) : List String :=
  match od.GetObject k with
  | some o => if IsGroupObject o then memberList o else [o.Name]
  | none => []

/-- The names the children with the given keys stand for. -/
def ObjectTree.namesOfAll (od : ObjectTree) : List String → List String
  | [] => []
  | k :: rest => od.namesOf k ++ od.namesOfAll rest

/-- The invariant of the names under the parent `pid`: every child key has an
item, stored under its own identity, every child key is among the identities
`ids` brought so far, and the children stand for the names `names`. -/
structure NamesInv (od : ObjectTree) (pid : String) (ids names : List String) : Prop where
  present : ∀ k ∈ (od.ownership pid).elems, ∃ o, od.GetObject k = some o ∧ o.UID = k
  known : ∀ k ∈ (od.ownership pid).elems, k ∈ ids
  names : (od.namesOfAll (od.ownership pid).elems).Perm names

/-! ## Condition model: theorems -/

theorem hasSame_some_iff (x y : Condition) :
    hasSameReadyStatusSeverityAndReason (some x) (some y) = true ↔
      x.Status = y.Status ∧ x.Severity = y.Severity ∧ x.Reason = y.Reason := by
  simp [hasSameReadyStatusSeverityAndReason, and_assoc]

theorem hasSame_symm (a b : Option Condition) :
    hasSameReadyStatusSeverityAndReason a b = hasSameReadyStatusSeverityAndReason b a := by
  cases a <;> cases b <;> try rfl
  rw [Bool.eq_iff_iff, hasSame_some_iff, hasSame_some_iff]
  constructor <;> rintro ⟨h1, h2, h3⟩ <;> exact ⟨h1.symm, h2.symm, h3.symm⟩

/-- C1: `hasSameReadyStatusSeverityAndReason a b` holds exactly when both
conditions are absent, or both are present with the same status, severity and
reason; an absent and a present condition are never equivalent; and replacing
the message and the last transition time of either condition leaves the result
unchanged. -/
theorem hasSameReadyStatusSeverityAndReason_spec (a b : Option Condition) :
    (hasSameReadyStatusSeverityAndReason a b = true ↔
      (a = none ∧ b = none) ∨
      (∃ x y, a = some x ∧ b = some y ∧
        x.Status = y.Status ∧ x.Severity = y.Severity ∧ x.Reason = y.Reason)) ∧
    (∀ x : Condition,
      hasSameReadyStatusSeverityAndReason (some x) none = false ∧
      hasSameReadyStatusSeverityAndReason none (some x) = false) ∧
    (∀ (m1 m2 : String) (t1 t2 : Time),
      hasSameReadyStatusSeverityAndReason
        (a.map (fun c => { c with Message := m1, LastTransitionTime := t1 }))
        (b.map (fun c => { c with Message := m2, LastTransitionTime := t2 })) =
      hasSameReadyStatusSeverityAndReason a b) := by
  refine ⟨?_, ?_, ?_⟩
  · cases a <;> cases b <;> simp [hasSameReadyStatusSeverityAndReason, and_assoc]
  · intro x
    simp [hasSameReadyStatusSeverityAndReason]
  · intro m1 m2 t1 t2
    cases a <;> cases b <;> simp [hasSameReadyStatusSeverityAndReason]

/-- C2: on two present conditions whose times are 2 and 1,
`minLastTransitionTime` returns 2, the later time, which is not less than or
equal to both times. -/
theorem minLastTransitionTime_returns_later :
    minLastTransitionTime (some (crashed 2 "")) (some (crashed 1 "")) = some 2 ∧
    ¬ ((2 : Time) ≤ (crashed 1 "").LastTransitionTime) := by
  decide

/-- C3: with `a` absent and `b` present, `minLastTransitionTime a b` reads a
field of the nil `a` and fails instead of returning the time of `b`. -/
theorem minLastTransitionTime_absent_present_fails (b : Condition) :
    minLastTransitionTime none (some b) = none := by
  rfl

/-! ## Annotations and conditions: lemmas -/

theorem mapLookup_mapStore_same (m : List (String × String)) (k v : String) :
    mapLookup (mapStore m k v) k = some v := by
  induction m with
  | nil => simp [mapStore, mapLookup]
  | cons e rest ih =>
    obtain ⟨k1, v1⟩ := e
    by_cases h : k1 = k
    · simp [mapStore, mapLookup, h]
    · simp [mapStore, mapLookup, h, ih]

theorem mapLookup_mapStore_other (m : List (String × String)) (k v k2 : String)
    (hne : k2 ≠ k) : mapLookup (mapStore m k v) k2 = mapLookup m k2 := by
  induction m with
  | nil => simp [mapStore, mapLookup, Ne.symm hne]
  | cons e rest ih =>
    obtain ⟨k1, v1⟩ := e
    by_cases h : k1 = k
    · subst h
      simp [mapStore, mapLookup, Ne.symm hne]
    · by_cases h2 : k1 = k2
      · subst h2
        simp [mapStore, mapLookup, h]
      · simp [mapStore, mapLookup, h, h2, ih]

theorem conditionsGet_type (l : List Condition) (t : String) (c : Condition)
    (h : conditionsGet l t = some c) : c.Type_ = t := by
  induction l with
  | nil => simp [conditionsGet] at h
  | cons e rest ih =>
    by_cases he : e.Type_ = t
    · simp [conditionsGet, he] at h
      rw [← h]; exact he
    · simp [conditionsGet, he] at h
      exact ih h

theorem conditionsGet_insertCondition_ready (a : Condition) (l : List Condition) :
    conditionsGet (insertCondition a l) ReadyCondition =
      conditionsGet (a :: l) ReadyCondition := by
  induction l with
  | nil => rfl
  | cons b rest ih =>
    by_cases hl : lexicographicLess b a = true
    · have ha : a.Type_ ≠ ReadyCondition := by
        intro ha
        simp [lexicographicLess, ha] at hl
      by_cases hb : b.Type_ = ReadyCondition
      · simp [insertCondition, hl, conditionsGet, hb, ha]
      · simp [insertCondition, hl, conditionsGet, hb, ha] at ih ⊢
        exact ih
    · simp [insertCondition, hl]

theorem conditionsGet_sortConditions_ready (l : List Condition) :
    conditionsGet (sortConditions l) ReadyCondition = conditionsGet l ReadyCondition := by
  induction l with
  | nil => rfl
  | cons a rest ih =>
    rw [sortConditions, conditionsGet_insertCondition_ready]
    by_cases ha : a.Type_ = ReadyCondition
    · simp [conditionsGet, ha]
    · simp [conditionsGet, ha, ih]

theorem conditionsGet_setLoop (now : Time) (c : Condition) (l l1 : List Condition)
    (h : conditionsSetLoop now c l = some l1) :
    ∃ r, conditionsGet l1 c.Type_ = some r ∧ sameButTime r c ∧
      ((∃ e, conditionsGet l c.Type_ = some e ∧ hasSameState e c = true ∧ r = e) ∨
       (∃ e, conditionsGet l c.Type_ = some e ∧ hasSameState e c = false ∧
          r = { c with LastTransitionTime := now })) := by
  induction l generalizing l1 with
  | nil => simp [conditionsSetLoop] at h
  | cons e rest ih =>
    by_cases he : e.Type_ = c.Type_
    · by_cases hs : hasSameState e c = true
      · simp [conditionsSetLoop, he, hs] at h
        subst h
        refine ⟨e, by simp [conditionsGet, he], ?_, Or.inl ⟨e, by simp [conditionsGet, he], hs, rfl⟩⟩
        simp [hasSameState] at hs
        obtain ⟨⟨⟨⟨h1, h2⟩, h3⟩, h4⟩, h5⟩ := hs
        exact ⟨h1, h2, h4, h3, h5⟩
      · simp [conditionsSetLoop, he, hs] at h
        subst h
        refine ⟨{ c with LastTransitionTime := now }, by simp [conditionsGet], ?_, Or.inr ⟨e, by simp [conditionsGet, he], by simpa using hs, rfl⟩⟩
        exact ⟨rfl, rfl, rfl, rfl, rfl⟩
    · simp only [conditionsSetLoop, he, if_false] at h
      cases hrest : conditionsSetLoop now c rest with
      | none => simp [hrest] at h
      | some rest1 =>
        simp [hrest] at h
        subst h
        obtain ⟨r, hr, hsame, hcase⟩ := ih rest1 hrest
        refine ⟨r, by simp [conditionsGet, he, hr], hsame, ?_⟩
        simpa [conditionsGet, he] using hcase

theorem conditionsSetLoop_none (now : Time) (c : Condition) (l : List Condition)
    (h : conditionsSetLoop now c l = none) : conditionsGet l c.Type_ = none := by
  induction l with
  | nil => rfl
  | cons e rest ih =>
    by_cases he : e.Type_ = c.Type_
    · by_cases hs : hasSameState e c = true <;> simp [conditionsSetLoop, he, hs] at h
    · simp only [conditionsSetLoop, he, if_false] at h
      cases hrest : conditionsSetLoop now c rest with
      | none => simp [conditionsGet, he, ih hrest]
      | some rest1 => simp [hrest] at h

theorem conditionsGet_append_none (l : List Condition) (t : String) (c : Condition)
    (h : conditionsGet l t = none) (hc : c.Type_ = t) :
    conditionsGet (l ++ [c]) t = some c := by
  induction l with
  | nil => simp [conditionsGet, hc]
  | cons e rest ih =>
    by_cases he : e.Type_ = t
    · simp [conditionsGet, he] at h
    · simp [conditionsGet, he] at h ⊢
      exact ih h

/-- After `conditions.Set` of a condition of type Ready, the readiness read
back agrees with it on type, status, severity, reason and message. -/
theorem conditionsGet_conditionsSet_ready (now : Time) (l : List Condition) (c : Condition)
    (hc : c.Type_ = ReadyCondition) :
    ∃ r, conditionsGet (conditionsSet now l c) ReadyCondition = some r ∧ sameButTime r c := by
  unfold conditionsSet
  cases h : conditionsSetLoop now c l with
  | some l1 =>
    obtain ⟨r, hr, hsame, _⟩ := conditionsGet_setLoop now c l l1 h
    refine ⟨r, ?_, hsame⟩
    simp only [conditionsGet_sortConditions_ready]
    rw [← hc]; exact hr
  | none =>
    have hnone := conditionsSetLoop_none now c l h
    rw [hc] at hnone
    simp only [conditionsGet_sortConditions_ready]
    refine ⟨_, conditionsGet_append_none l ReadyCondition _ hnone hc, ?_⟩
    exact ⟨rfl, rfl, rfl, rfl, rfl⟩

/-! ## Echo suppression -/

theorem isEcho_eq_true (od : ObjectTree) (addOpts : AddObjectOptions)
    (parentReady objReady : Option Condition)
    (hNoEcho : addOpts.NoEcho = true) (hToggle : od.options.DisableNoEcho = false)
    (hEcho : (∃ r, objReady = some r ∧ r.Status = ConditionTrue) ∨
      hasSameReadyStatusSeverityAndReason objReady parentReady = true) :
    isEcho od addOpts parentReady objReady = true := by
  unfold isEcho
  rw [hasSame_symm parentReady objReady]
  rcases hEcho with ⟨r, hr, hs⟩ | h
  · simp [hNoEcho, hToggle, hr, hs]
  · simp [hNoEcho, hToggle, h]

/-- C4: a call of `add` with the `NoEcho` option in force, on a tree whose
`DisableNoEcho` toggle is off, for an object whose readiness is present with
status True or is equivalent to the readiness of the parent (both absent
included), returns the tree it was given: `items` and `ownership` are what
they were, and an object that was not a child of the parent is not among the
keys enumerated by `GetObjectsByParent` afterwards, whatever the other
options, the parent's markers and the enumeration order are. -/
theorem add_echo_drops_object (od : ObjectTree) (parent obj : Object)
    (opts : List AddObjectOption) (env : Env)
    (hNoEcho : (AddObjectOptions.ApplyOptions {} opts).NoEcho = true)
    (hToggle : od.options.DisableNoEcho = false)
    (hEcho : (∃ r, GetReadyCondition obj = some r ∧ r.Status = ConditionTrue) ∨
      hasSameReadyStatusSeverityAndReason (GetReadyCondition obj)
        (GetReadyCondition parent) = true) :
    ∃ od1, od.add parent obj opts env = some od1 ∧
      od1.items = od.items ∧ od1.ownership = od.ownership ∧
      (obj.UID ∉ (od.ownership parent.UID).elems →
        ∀ order : MapOrder, obj.UID ∉ od1.childKeys parent.UID order) := by
  refine ⟨od, ?_, rfl, rfl, ?_⟩
  · unfold ObjectTree.add
    simp only [isEcho_eq_true od _ _ _ hNoEcho hToggle hEcho, if_true]
  · intro hnot order hmem
    exact hnot ((order.perm _).mem_iff.mp hmem)

theorem add_echo_drops_object_witness :
    ∃ od1, (newObjectTree {}).add sampleParent (machine "m0" "uid-m0" (readyTrue 7))
        [AddObjectOption.ObjectMetaName "Infra", AddObjectOption.GroupingObject true,
          AddObjectOption.NoEcho true] {} = some od1 ∧
      od1.items = (newObjectTree {}).items ∧
      od1.ownership = (newObjectTree {}).ownership ∧
      ((machine "m0" "uid-m0" (readyTrue 7)).UID ∉
          ((newObjectTree {}).ownership sampleParent.UID).elems →
        ∀ order : MapOrder,
          (machine "m0" "uid-m0" (readyTrue 7)).UID ∉ od1.childKeys sampleParent.UID order) :=
  add_echo_drops_object (newObjectTree {}) sampleParent (machine "m0" "uid-m0" (readyTrue 7))
    [AddObjectOption.ObjectMetaName "Infra", AddObjectOption.GroupingObject true,
      AddObjectOption.NoEcho true] {} (by decide) (by decide)
    (Or.inl ⟨readyTrue 7, by decide, by decide⟩)

/-! ## Plain insertion -/

theorem UIDSet.mem_insert (s : UIDSet) (id x : String) :
    x ∈ (s.insert id).elems ↔ x = id ∨ x ∈ s.elems := by
  unfold UIDSet.insert
  by_cases h : id ∈ s.elems
  · simp only [h, dite_true]
    constructor
    · intro hx; exact Or.inr hx
    · rintro (rfl | hx)
      · exact h
      · exact hx
  · simp only [h, dite_false, List.mem_append, List.mem_singleton]
    tauto

theorem UIDSet.mem_erase (s : UIDSet) (id x : String) :
    x ∈ (s.erase id).elems ↔ x ∈ s.elems ∧ x ≠ id := by
  simp [UIDSet.erase]

theorem isEcho_iff (od : ObjectTree) (addOpts : AddObjectOptions)
    (parentReady objReady : Option Condition) :
    isEcho od addOpts parentReady objReady = true ↔
      (addOpts.NoEcho = true ∧ od.options.DisableNoEcho = false ∧
        ((∃ r, objReady = some r ∧ r.Status = ConditionTrue) ∨
          hasSameReadyStatusSeverityAndReason objReady parentReady = true)) := by
  unfold isEcho
  rw [hasSame_symm parentReady objReady]
  cases objReady with
  | none => simp [and_assoc]
  | some r => simp [and_assoc]

theorem groupSiblings_fallThrough (od : ObjectTree) (parent obj : Object)
    (objReady : Option Condition) (env : Env) (keys : List String)
    (h : ∀ k ∈ keys, hasSameReadyStatusSeverityAndReason objReady
      ((od.GetObject k).bind GetReadyCondition) = false) :
    groupSiblings od parent obj objReady env keys = GroupOutcome.fallThrough := by
  induction keys with
  | nil => rfl
  | cons k rest ih =>
    have hk := h k (List.mem_cons_self k rest)
    simp only [groupSiblings, hk, Bool.not_false, if_true]
    exact ih (fun j hj => h j (List.mem_cons_of_mem k hj))

@[simp] theorem markDebug_UID (od : ObjectTree) (obj : Object) :
    (markDebug od obj).UID = obj.UID := by
  unfold markDebug; split <;> rfl

@[simp] theorem markMetaName_UID (o : AddObjectOptions) (obj : Object) :
    (markMetaName o obj).UID = obj.UID := by
  unfold markMetaName; split <;> rfl

@[simp] theorem markGrouping_UID (od : ObjectTree) (o : AddObjectOptions) (obj : Object) :
    (markGrouping od o obj).UID = obj.UID := by
  unfold markGrouping; split <;> rfl

/-- The three marking steps of `add` change nothing but the annotations. -/
theorem marks_only_annotations (od : ObjectTree) (o : AddObjectOptions) (obj : Object) :
    markGrouping od o (markMetaName o (markDebug od obj)) =
      { obj with Annotations :=
          (markGrouping od o (markMetaName o (markDebug od obj))).Annotations } := by
  unfold markGrouping markMetaName markDebug addAnnotation
  split <;> split <;> split <;> rfl



/-- C8: a call of `add` that is not echo-suppressed and in which no grouping
merge happens (the parent carries no grouping-parent marker, or no current
child of the parent has readiness equivalent to that of the object) returns a
tree in which `GetObject obj.UID` is the object, changed in its annotations
only, the object is among `GetObjectsByParent parent.UID` in every enumeration
order, every other entry of `items` and the child set of every other parent
are what they were, and the child set of the parent gained exactly the
identity of the object. -/
theorem add_plain_insertion (od : ObjectTree) (parent obj : Object)
    (opts : List AddObjectOption) (env : Env)
    (hNotEcho : ¬ ((AddObjectOptions.ApplyOptions {} opts).NoEcho = true ∧
      od.options.DisableNoEcho = false ∧
      ((∃ r, GetReadyCondition obj = some r ∧ r.Status = ConditionTrue) ∨
        hasSameReadyStatusSeverityAndReason (GetReadyCondition obj)
          (GetReadyCondition parent) = true)))
    (hNoMerge : IsGroupingObject parent = false ∨
      ∀ k ∈ (od.ownership parent.UID).elems,
        hasSameReadyStatusSeverityAndReason (GetReadyCondition obj)
          ((od.GetObject k).bind GetReadyCondition) = false) :
    ∃ od1 stored, od.add parent obj opts env = some od1 ∧
      od1.GetObject obj.UID = some stored ∧
      stored = { obj with Annotations := stored.Annotations } ∧
      (∀ order : MapOrder, some stored ∈ od1.GetObjectsByParent parent.UID order) ∧
      (∀ id, id ≠ obj.UID → od1.GetObject id = od.GetObject id) ∧
      (∀ p, p ≠ parent.UID → od1.ownership p = od.ownership p) ∧
      (∀ id, id ∈ (od1.ownership parent.UID).elems ↔
        id = obj.UID ∨ id ∈ (od.ownership parent.UID).elems) := by
  have hecho : isEcho od (AddObjectOptions.ApplyOptions {} opts) (GetReadyCondition parent)
      (GetReadyCondition obj) = false := by
    rw [← Bool.not_eq_true, isEcho_iff]
    exact hNotEcho
  have hout : (if IsGroupingObject parent then
        groupSiblings od parent (markMetaName (AddObjectOptions.ApplyOptions {} opts)
          (markDebug od obj)) (GetReadyCondition obj) env (od.childKeys parent.UID env.order)
      else GroupOutcome.fallThrough) = GroupOutcome.fallThrough := by
    rcases hNoMerge with hg | hk
    · simp [hg]
    · split
      · apply groupSiblings_fallThrough
        intro k hkmem
        exact hk k ((env.order.perm _).mem_iff.mp hkmem)
      · rfl
  refine ⟨od.addInner parent (markGrouping od (AddObjectOptions.ApplyOptions {} opts)
      (markMetaName (AddObjectOptions.ApplyOptions {} opts) (markDebug od obj))),
    markGrouping od (AddObjectOptions.ApplyOptions {} opts)
      (markMetaName (AddObjectOptions.ApplyOptions {} opts) (markDebug od obj)),
    ?_, ?_, ?_, ?_, ?_, ?_, ?_⟩
  · unfold ObjectTree.add
    simp only [hecho, hout]
    simp
  · simp [ObjectTree.GetObject, ObjectTree.addInner]
  · exact marks_only_annotations od _ obj
  · intro order
    simp only [ObjectTree.GetObjectsByParent, List.mem_map]
    refine ⟨obj.UID, ?_, ?_⟩
    · unfold ObjectTree.childKeys
      rw [(order.perm _).mem_iff]
      simp [ObjectTree.addInner, UIDSet.mem_insert]
    · simp [ObjectTree.GetObject, ObjectTree.addInner]
  · intro id hid
    simp [ObjectTree.GetObject, ObjectTree.addInner, hid]
  · intro p hp
    simp [ObjectTree.addInner, hp]
  · intro id
    simp [ObjectTree.addInner, UIDSet.mem_insert]

theorem add_plain_insertion_witness :
    ∃ od1 stored, (newObjectTree {}).add plainParent (machine "m0" "uid-m0" (readyTrue 7))
        [AddObjectOption.NoEcho false] {} = some od1 ∧
      od1.GetObject (machine "m0" "uid-m0" (readyTrue 7)).UID = some stored ∧
      stored = { machine "m0" "uid-m0" (readyTrue 7) with Annotations := stored.Annotations } ∧
      (∀ order : MapOrder, some stored ∈ od1.GetObjectsByParent plainParent.UID order) ∧
      (∀ id, id ≠ (machine "m0" "uid-m0" (readyTrue 7)).UID →
        od1.GetObject id = (newObjectTree {}).GetObject id) ∧
      (∀ p, p ≠ plainParent.UID → od1.ownership p = (newObjectTree {}).ownership p) ∧
      (∀ id, id ∈ (od1.ownership plainParent.UID).elems ↔
        id = (machine "m0" "uid-m0" (readyTrue 7)).UID ∨
          id ∈ ((newObjectTree {}).ownership plainParent.UID).elems) :=
  add_plain_insertion (newObjectTree {}) plainParent (machine "m0" "uid-m0" (readyTrue 7))
    [AddObjectOption.NoEcho false] {} (fun h => absurd h.1 (by decide)) (Or.inl (by decide))

/-! ## Absorption into an existing group -/

theorem matchingSibling_some (od : ObjectTree) (objReady : Option Condition)
    (keys : List String) (k : String) (h : od.matchingSibling objReady keys = some k) :
    k ∈ keys ∧ hasSameReadyStatusSeverityAndReason objReady
      ((od.GetObject k).bind GetReadyCondition) = true := by
  induction keys with
  | nil => simp [ObjectTree.matchingSibling] at h
  | cons j rest ih =>
    by_cases hj : hasSameReadyStatusSeverityAndReason objReady
        ((od.GetObject j).bind GetReadyCondition) = true
    · simp only [ObjectTree.matchingSibling, hj, if_true, Option.some.injEq] at h
      subst h
      exact ⟨List.mem_cons_self _ _, hj⟩
    · simp only [ObjectTree.matchingSibling, hj] at h
      obtain ⟨h1, h2⟩ := ih h
      exact ⟨List.mem_cons_of_mem _ h1, h2⟩

/-- The sibling loop of `add` acts on the matching sibling only. -/
theorem groupSiblings_matching (od : ObjectTree) (parent obj : Object)
    (objReady : Option Condition) (env : Env) (keys : List String) (k : String)
    (h : od.matchingSibling objReady keys = some k) :
    groupSiblings od parent obj objReady env keys =
      groupSiblings od parent obj objReady env [k] := by
  induction keys with
  | nil => simp [ObjectTree.matchingSibling] at h
  | cons j rest ih =>
    by_cases hj : hasSameReadyStatusSeverityAndReason objReady
        ((od.GetObject j).bind GetReadyCondition) = true
    · simp only [ObjectTree.matchingSibling, hj, if_true, Option.some.injEq] at h
      subst h
      simp only [groupSiblings, hj, Bool.not_true]
      rfl
    · simp only [ObjectTree.matchingSibling, hj] at h
      rw [← ih h]
      simp only [Bool.not_eq_true] at hj
      simp only [groupSiblings, hj, Bool.not_false, if_true]

theorem minLastTransitionTime_of_same (a b : Option Condition)
    (h : hasSameReadyStatusSeverityAndReason a b = true) :
    ∃ t, minLastTransitionTime a b = some t := by
  cases a with
  | none =>
    cases b with
    | none => exact ⟨_, rfl⟩
    | some y => simp [hasSameReadyStatusSeverityAndReason] at h
  | some x =>
    cases b with
    | none => exact ⟨_, rfl⟩
    | some y =>
      by_cases hxy : x.LastTransitionTime > y.LastTransitionTime
      · exact ⟨x.LastTransitionTime, by simp [minLastTransitionTime, hxy]⟩
      · exact ⟨y.LastTransitionTime, by simp [minLastTransitionTime, hxy]⟩

theorem GetReadyCondition_type (obj : Object) (r : Condition)
    (h : GetReadyCondition obj = some r) : r.Type_ = ReadyCondition :=
  conditionsGet_type _ _ _ h

theorem GetReadyCondition_setReadyCondition (obj : Object) (c : Condition) (now : Time)
    (hc : c.Type_ = ReadyCondition) :
    ∃ r, GetReadyCondition (setReadyCondition obj c now) = some r ∧ sameButTime r c :=
  conditionsGet_conditionsSet_ready now obj.Conditions c hc

/-- What `updateGroupNode` does to a sibling whose readiness is equivalent to
that of the absorbed object: it does not fail, keeps the identity and every
annotation but the member list, stores the re-sorted member list, and leaves
the readiness absent or present with the same status, severity and reason and
an empty message. -/
theorem updateGroupNode_spec (s obj : Object) (objReady : Option Condition) (env : Env)
    (h : hasSameReadyStatusSeverityAndReason objReady (GetReadyCondition s) = true) :
    ∃ s1, updateGroupNode s (GetReadyCondition s) obj objReady env = some s1 ∧
      s1.UID = s.UID ∧ s1.Name = s.Name ∧ s1.Kind = s.Kind ∧ s1.Namespace = s.Namespace ∧
      (∀ key, key ≠ GroupItemsAnnotation → getAnnotation s1 key = getAnnotation s key) ∧
      GetGroupItems s1 =
        stringsJoin (sortStrings (stringsSplit (GetGroupItems s) GroupItemsSeparator ++
          [obj.Name])) GroupItemsSeparator ∧
      (GetReadyCondition s = none → GetReadyCondition s1 = none) ∧
      (∀ r, GetReadyCondition s = some r → ∃ r1, GetReadyCondition s1 = some r1 ∧
        r1.Status = r.Status ∧ r1.Severity = r.Severity ∧ r1.Reason = r.Reason ∧
        r1.Message = "") := by
  obtain ⟨t, ht⟩ := minLastTransitionTime_of_same _ _ h
  cases hs : GetReadyCondition s with
  | none =>
    have hupd : updateGroupNode s none obj objReady env =
        some ( addAnnotation s GroupItemsAnnotation
          (stringsJoin (sortStrings (stringsSplit (GetGroupItems s) GroupItemsSeparator ++
            [obj.Name])) GroupItemsSeparator)) := by
      simp only [updateGroupNode]
    refine ⟨_, hupd, rfl, rfl, rfl, rfl, ?_, ?_, ?_, ?_⟩
    · intro key hkey
      simp [ getAnnotation, addAnnotation, mapLookup_mapStore_other _ _ _ _ hkey]
    · simp [GetGroupItems, getAnnotation, addAnnotation, mapLookup_mapStore_same]
    · intro _
      exact hs
    · intro r hr
      simp at hr
  | some r =>
    rw [hs] at ht
    have hty := GetReadyCondition_type s r hs
    obtain ⟨r1, hr1, hsame⟩ := GetReadyCondition_setReadyCondition
      ( addAnnotation s GroupItemsAnnotation
        (stringsJoin (sortStrings (stringsSplit (GetGroupItems s) GroupItemsSeparator ++
          [obj.Name])) GroupItemsSeparator))
      { r with LastTransitionTime := t, Message := "" } env.now hty
    have hupd : updateGroupNode s (some r) obj objReady env =
        some (setReadyCondition ( addAnnotation s GroupItemsAnnotation
          (stringsJoin (sortStrings (stringsSplit (GetGroupItems s) GroupItemsSeparator ++
            [obj.Name])) GroupItemsSeparator))
          { r with LastTransitionTime := t, Message := "" } env.now) := by
      simp only [updateGroupNode, ht]
    refine ⟨_, hupd, rfl, rfl, rfl, rfl, ?_, ?_, ?_, ?_⟩
    · intro key hkey
      simp [ getAnnotation, addAnnotation, setReadyCondition,
        mapLookup_mapStore_other _ _ _ _ hkey]
    · simp [GetGroupItems, getAnnotation, addAnnotation, setReadyCondition,
        mapLookup_mapStore_same]
    · intro hn
      simp at hn
    · intro r2 hr2
      simp only [Option.some.injEq] at hr2
      subst hr2
      obtain ⟨_, h2, h3, h4, h5⟩ := hsame
      exact ⟨r1, hr1, h2, h3, h4, h5⟩

@[simp] theorem markDebug_Name (od : ObjectTree) (obj : Object) :
    (markDebug od obj).Name = obj.Name := by
  unfold markDebug; split <;> rfl

@[simp] theorem markMetaName_Name (o : AddObjectOptions) (obj : Object) :
    (markMetaName o obj).Name = obj.Name := by
  unfold markMetaName; split <;> rfl

theorem IsGroupObject_congr (s s1 : Object)
    (h : getAnnotation s1 GroupObjectAnnotation = getAnnotation s GroupObjectAnnotation) :
    IsGroupObject s1 = IsGroupObject s := by
  unfold IsGroupObject getBoolAnnotation
  unfold getAnnotation at h
  rw [h]

/-! ## Group creation -/

@[simp] theorem markDebug_Conditions (od : ObjectTree) (obj : Object) :
    (markDebug od obj).Conditions = obj.Conditions := by
  unfold markDebug; split <;> rfl

@[simp] theorem markMetaName_Conditions (o : AddObjectOptions) (obj : Object) :
    (markMetaName o obj).Conditions = obj.Conditions := by
  unfold markMetaName; split <;> rfl

@[simp] theorem markDebug_Namespace (od : ObjectTree) (obj : Object) :
    (markDebug od obj).Namespace = obj.Namespace := by
  unfold markDebug; split <;> rfl

@[simp] theorem markMetaName_Namespace (o : AddObjectOptions) (obj : Object) :
    (markMetaName o obj).Namespace = obj.Namespace := by
  unfold markMetaName; split <;> rfl

theorem groupNodeUID_marks (od : ObjectTree) (o : AddObjectOptions) (obj : Object)
    (rand : String) :
    groupNodeUID (markMetaName o (markDebug od obj)) rand = groupNodeUID obj rand := by
  simp [groupNodeUID, readyStatusSeverityAndReasonUID, GetReadyCondition]

/-- What `createGroupNode` returns for two objects with equivalent readiness:
it does not fail; the node has the synthesized identity, the virtual and
group-node markers, the sorted names of the two objects as member list, and
readiness absent or with the status, severity and reason of `objReady` and an
empty message. -/
theorem createGroupNode_spec (s obj : Object) (sReady objReady : Option Condition)
    (env : Env) (h : hasSameReadyStatusSeverityAndReason objReady sReady = true)
    (hty : ∀ r, objReady = some r → r.Type_ = ReadyCondition) :
    ∃ g, createGroupNode s sReady obj objReady env = some g ∧
      g.UID = groupNodeUID obj env.rand ∧
      IsGroupObject g = true ∧ IsVirtualObject g = true ∧
      GetGroupItems g = stringsJoin (sortStrings [obj.Name, s.Name]) GroupItemsSeparator ∧
      (objReady = none → GetReadyCondition g = none) ∧
      (∀ r, objReady = some r → ∃ r1, GetReadyCondition g = some r1 ∧
        r1.Status = r.Status ∧ r1.Severity = r.Severity ∧ r1.Reason = r.Reason ∧
        r1.Message = "") := by
  obtain ⟨t, ht⟩ := minLastTransitionTime_of_same _ _ h
  cases ho : objReady with
  | none =>
    have hc : createGroupNode s sReady obj none env =
        some ( addAnnotation ( addAnnotation
          (virtualObject obj.Namespace (readyStatusSeverityAndReasonUID obj env.rand))
          GroupObjectAnnotation "True") GroupItemsAnnotation
          (stringsJoin (sortStrings [obj.Name, s.Name]) GroupItemsSeparator)) := by
      simp only [createGroupNode]
    refine ⟨_, hc, rfl, ?_, ?_, ?_, ?_, ?_⟩
    · rfl
    · rfl
    · simp [GetGroupItems, getAnnotation, addAnnotation, mapLookup_mapStore_same]
    · intro _
      rfl
    · intro r hr
      simp at hr
  | some r =>
    rw [ho] at ht
    have hr := hty r ho
    obtain ⟨r1, hr1, hsame⟩ := GetReadyCondition_setReadyCondition
      ( addAnnotation ( addAnnotation
          (virtualObject obj.Namespace (readyStatusSeverityAndReasonUID obj env.rand))
          GroupObjectAnnotation "True") GroupItemsAnnotation
          (stringsJoin (sortStrings [obj.Name, s.Name]) GroupItemsSeparator))
      { r with LastTransitionTime := t, Message := "" } env.now hr
    have hc : createGroupNode s sReady obj (some r) env =
        some (setReadyCondition ( addAnnotation ( addAnnotation
          (virtualObject obj.Namespace (readyStatusSeverityAndReasonUID obj env.rand))
          GroupObjectAnnotation "True") GroupItemsAnnotation
          (stringsJoin (sortStrings [obj.Name, s.Name]) GroupItemsSeparator))
          { r with LastTransitionTime := t, Message := "" } env.now) := by
      simp only [createGroupNode, ht]
    refine ⟨_, hc, rfl, ?_, ?_, ?_, ?_, ?_⟩
    · rfl
    · rfl
    · simp [GetGroupItems, getAnnotation, addAnnotation, setReadyCondition,
        mapLookup_mapStore_same]
    · intro hn
      simp at hn
    · intro r2 hr2
      simp only [Option.some.injEq] at hr2
      subst hr2
      obtain ⟨_, h2, h3, h4, h5⟩ := hsame
      exact ⟨r1, hr1, h2, h3, h4, h5⟩

theorem UIDSet.length_insert_erase (S : UIDSet) (g s : String)
    (hg : g ∉ S.elems) (hs : s ∈ S.elems) :
    ((S.insert g).erase s).elems.length = S.elems.length := by
  have hne : g ≠ s := fun h => hg (h ▸ hs)
  have hfilter : S.elems.filter (fun x => x != s) = S.elems.erase s := by
    rw [S.nodup.erase_eq_filter]
  unfold UIDSet.insert UIDSet.erase
  simp only [hg, dite_false, List.filter_append, List.length_append, hfilter]
  rw [List.length_erase_of_mem hs]
  have hpos : 0 < S.elems.length := List.length_pos_of_mem hs
  simp [hne]
  omega

/-- C10: when a call of `add` that is not echo-suppressed runs under a parent
carrying the grouping-parent marker and the matching sibling `s`, stored under
its own identity, is not a group node, the call succeeds; afterwards `s` is
purged from `items` and from the child set of the parent, a node with the
synthesized identity and the group-node marker is in `items` and in the child
set of the parent, the object has not been added to `items` or to any child
set, and the parent has as many children as before.  The identity synthesized
for the group node, which the data model keeps distinct from the identities
in use, is not yet a child of the parent and is not the identity of the
object. -/
theorem add_creates_group (od : ObjectTree) (parent obj : Object)
    (opts : List AddObjectOption) (env : Env) (s : Object)
    (hNotEcho : ¬ ((AddObjectOptions.ApplyOptions {} opts).NoEcho = true ∧
      od.options.DisableNoEcho = false ∧
      ((∃ r, GetReadyCondition obj = some r ∧ r.Status = ConditionTrue) ∨
        hasSameReadyStatusSeverityAndReason (GetReadyCondition obj)
          (GetReadyCondition parent) = true)))
    (hGrouping : IsGroupingObject parent = true)
    (hMatch : od.matchingSibling (GetReadyCondition obj)
      (od.childKeys parent.UID env.order) = some s.UID)
    (hItem : od.GetObject s.UID = some s)
    (hPlain : IsGroupObject s = false)
    (hFresh : groupNodeUID obj env.rand ∉ (od.ownership parent.UID).elems)
    (hFreshObj : groupNodeUID obj env.rand ≠ obj.UID) :
    ∃ od1 g, od.add parent obj opts env = some od1 ∧
      g.UID = groupNodeUID obj env.rand ∧
      od1.GetObject s.UID = none ∧ s.UID ∉ (od1.ownership parent.UID).elems ∧
      od1.GetObject g.UID = some g ∧ IsGroupObject g = true ∧
      g.UID ∈ (od1.ownership parent.UID).elems ∧
      (od.GetObject obj.UID = none → od1.GetObject obj.UID = none) ∧
      (∀ p, obj.UID ∉ (od.ownership p).elems → obj.UID ∉ (od1.ownership p).elems) ∧
      (od1.ownership parent.UID).elems.length = (od.ownership parent.UID).elems.length := by
  have hecho : isEcho od (AddObjectOptions.ApplyOptions {} opts) (GetReadyCondition parent)
      (GetReadyCondition obj) = false := by
    rw [← Bool.not_eq_true, isEcho_iff]
    exact hNotEcho
  obtain ⟨hmem, hsame⟩ := matchingSibling_some _ _ _ _ hMatch
  have hsmem : s.UID ∈ (od.ownership parent.UID).elems :=
    (env.order.perm _).mem_iff.mp hmem
  rw [hItem] at hsame
  simp only [Option.some_bind] at hsame
  obtain ⟨g, hc, hUID, hgroup, _, _, _, _⟩ :=
    createGroupNode_spec s (markMetaName (AddObjectOptions.ApplyOptions {} opts)
      (markDebug od obj)) (GetReadyCondition s) (GetReadyCondition obj) env hsame
      (fun r hr => GetReadyCondition_type obj r hr)
  rw [groupNodeUID_marks] at hUID
  have hgs : g.UID ≠ s.UID := by
    rw [hUID]
    intro h
    exact hFresh (h ▸ hsmem)
  have hadd : od.add parent obj opts env = some ((od.addInner parent g).remove parent s) := by
    unfold ObjectTree.add
    simp only [hecho, hGrouping, if_true]
    rw [groupSiblings_matching _ _ _ _ _ _ _ hMatch]
    simp [groupSiblings, hItem, hsame, hPlain, hc]
  refine ⟨_, g, hadd, hUID, ?_, ?_, ?_, hgroup, ?_, ?_, ?_, ?_⟩
  · simp [ObjectTree.GetObject, ObjectTree.remove]
  · simp [ObjectTree.remove, UIDSet.mem_erase]
  · simp [ObjectTree.GetObject, ObjectTree.remove, ObjectTree.addInner, hgs]
  · simp [ObjectTree.remove, ObjectTree.addInner, UIDSet.mem_erase, UIDSet.mem_insert, hgs]
  · intro hobj
    have hog : obj.UID ≠ g.UID := by
      rw [hUID]
      exact Ne.symm hFreshObj
    by_cases hos : obj.UID = s.UID
    · simp [ObjectTree.GetObject, ObjectTree.remove, hos]
    · simpa [ObjectTree.GetObject, ObjectTree.remove, ObjectTree.addInner, hos, hog] using hobj
  · intro p hp
    have hog : obj.UID ≠ g.UID := by
      rw [hUID]
      exact Ne.symm hFreshObj
    by_cases hpp : p = parent.UID
    · subst hpp
      simp [ObjectTree.remove, ObjectTree.addInner, UIDSet.mem_erase, UIDSet.mem_insert, hog, hp]
    · simpa [ObjectTree.remove, ObjectTree.addInner, hpp] using hp
  · simp only [ObjectTree.remove, ObjectTree.addInner, if_true]
    apply UIDSet.length_insert_erase
    · rw [hUID]; exact hFresh
    · exact hsmem

theorem add_creates_group_witness :
    ∃ od1 g, oneMachineTree.add sampleParent (machine "m2" "uid-m2" (crashed 20 "bang")) []
        { rand := "abcdef" } = some od1 ∧
      g.UID = groupNodeUID (machine "m2" "uid-m2" (crashed 20 "bang")) "abcdef" ∧
      od1.GetObject (machine "m1" "uid-m1" (crashed 10 "boom")).UID = none ∧
      (machine "m1" "uid-m1" (crashed 10 "boom")).UID ∉
        (od1.ownership sampleParent.UID).elems ∧
      od1.GetObject g.UID = some g ∧ IsGroupObject g = true ∧
      g.UID ∈ (od1.ownership sampleParent.UID).elems ∧
      (oneMachineTree.GetObject (machine "m2" "uid-m2" (crashed 20 "bang")).UID = none →
        od1.GetObject (machine "m2" "uid-m2" (crashed 20 "bang")).UID = none) ∧
      (∀ p, (machine "m2" "uid-m2" (crashed 20 "bang")).UID ∉ (oneMachineTree.ownership p).elems →
        (machine "m2" "uid-m2" (crashed 20 "bang")).UID ∉ (od1.ownership p).elems) ∧
      (od1.ownership sampleParent.UID).elems.length =
        (oneMachineTree.ownership sampleParent.UID).elems.length :=
  add_creates_group oneMachineTree sampleParent (machine "m2" "uid-m2" (crashed 20 "bang")) []
    { rand := "abcdef" } (machine "m1" "uid-m1" (crashed 10 "boom"))
    (fun h => absurd h.1 (by decide)) (by decide) (by decide) (by decide) (by decide)
    (by decide) (by decide)

/-! ## Transition time of a group node -/

/-- C7: the group node that `createGroupNode` makes of two members whose
readiness changed at the times 10 and 20 has the last transition time 20, the
later one, and after a third member whose time is 5 was absorbed the time of
the group is still 20, where the earliest time of the members is 5. -/
theorem group_time_is_not_the_earliest :
    (createGroupNode (machine "m1" "uid-m1" (crashed 10 "boom")) (some (crashed 10 "boom"))
        (machine "m2" "uid-m2" (crashed 20 "bang")) (some (crashed 20 "bang"))
        { rand := "abcdef", now := 100 }).bind GetReadyCondition = some (crashed 20 "") ∧
    (threeAdds.bind (fun od => od.GetObject ", /zz_False_Error_Crashed_abcdef")).bind
      GetReadyCondition = some (crashed 20 "") ∧
    (threeAdds.bind (fun od => od.GetObject ", /zz_False_Error_Crashed_abcdef")).map
      GetGroupItems = some "m1, m2, m3" := by
  decide

/-! ## Order and sorting of strings -/

theorem lessChars_asymm (a b : List Char) (h : lessChars a b = true) :
    lessChars b a = false := by
  induction a generalizing b with
  | nil =>
    cases b with
    | nil => simp [lessChars] at h
    | cons y ys => simp [lessChars]
  | cons x xs ih =>
    cases b with
    | nil => simp [lessChars] at h
    | cons y ys =>
      simp only [lessChars] at h ⊢
      by_cases h1 : x.toNat < y.toNat
      · have h2 : ¬ y.toNat < x.toNat := by omega
        simp [h1, h2]
      · by_cases h2 : y.toNat < x.toNat
        · simp [h1, h2] at h
        · simp only [h1, h2, if_false] at h ⊢
          exact ih ys h

theorem lessChars_le_trans (a b c : List Char) (hab : lessChars b a = false)
    (hbc : lessChars c b = false) : lessChars c a = false := by
  induction a generalizing b c with
  | nil => cases c <;> simp [lessChars]
  | cons x xs ih =>
    cases c with
    | nil =>
      cases b with
      | nil => simp [lessChars] at hab
      | cons y ys => simp [lessChars] at hbc
    | cons z zs =>
      cases b with
      | nil => simp [lessChars] at hab
      | cons y ys =>
        simp only [lessChars] at hab hbc ⊢
        by_cases h1 : y.toNat < x.toNat
        · simp [h1] at hab
        · by_cases h2 : x.toNat < y.toNat
          · by_cases h3 : z.toNat < y.toNat
            · simp [h3] at hbc
            · have h4 : ¬ z.toNat < x.toNat := by omega
              have h5 : x.toNat < z.toNat := by omega
              simp [h4, h5]
          · simp only [h1, h2, if_false] at hab
            by_cases h3 : z.toNat < y.toNat
            · simp [h3] at hbc
            · by_cases h4 : y.toNat < z.toNat
              · have h5 : ¬ z.toNat < x.toNat := by omega
                have h6 : x.toNat < z.toNat := by omega
                simp [h5, h6]
              · simp only [h3, h4, if_false] at hbc
                have h5 : ¬ z.toNat < x.toNat := by omega
                have h6 : ¬ x.toNat < z.toNat := by omega
                simp only [h5, h6, if_false]
                exact ih ys zs hab hbc

theorem stringLe_trans (a b c : String) (hab : stringLe a b) (hbc : stringLe b c) :
    stringLe a c :=
  lessChars_le_trans a.data b.data c.data hab hbc

theorem stringLe_of_less (a b : String) (h : stringLess a b = true) : stringLe a b :=
  lessChars_asymm a.data b.data h

theorem insertString_perm (a : String) (l : List String) :
    (insertString a l).Perm (a :: l) := by
  induction l with
  | nil => exact List.Perm.refl _
  | cons b rest ih =>
    by_cases h : stringLess b a = true
    · simp only [insertString, h, if_true]
      exact ((List.Perm.cons b ih).trans (List.Perm.swap a b rest))
    · simp only [insertString, h]
      exact List.Perm.refl _

theorem sortStrings_perm (l : List String) : (sortStrings l).Perm l := by
  induction l with
  | nil => exact List.Perm.refl _
  | cons a rest ih =>
    exact (insertString_perm a (sortStrings rest)).trans (List.Perm.cons a ih)

theorem insertString_sorted (a : String) (l : List String)
    (h : l.Pairwise stringLe) : (insertString a l).Pairwise stringLe := by
  induction l with
  | nil => simp [insertString]
  | cons b rest ih =>
    rw [List.pairwise_cons] at h
    by_cases hba : stringLess b a = true
    · simp only [insertString, hba, if_true]
      rw [List.pairwise_cons]
      refine ⟨?_, ih h.2⟩
      intro x hx
      rcases List.mem_cons.mp ((insertString_perm a rest).mem_iff.mp hx) with hx | hx
      · rw [hx]
        exact stringLe_of_less b a hba
      · exact h.1 x hx
    · have hab : stringLe a b := by simpa [stringLe] using hba
      simp only [insertString, hba, Bool.false_eq_true, if_false]
      rw [List.pairwise_cons]
      refine ⟨?_, List.pairwise_cons.mpr h⟩
      intro x hx
      rcases List.mem_cons.mp hx with hx | hx
      · rw [hx]; exact hab
      · exact stringLe_trans a b x hab (h.1 x hx)

theorem sortStrings_sorted (l : List String) : (sortStrings l).Pairwise stringLe := by
  induction l with
  | nil => exact List.Pairwise.nil
  | cons a rest ih => exact insertString_sorted a _ ih

/-! ## Splitting a joined member list -/

theorem splitGo_last (name cur : List Char)
    (hfree : containsChars [',', ' '] name = false) :
    splitGo [',', ' '] name cur 0 = [cur ++ name] := by
  induction name generalizing cur with
  | nil => simp [splitGo]
  | cons c cs ih =>
    simp only [containsChars, Bool.or_eq_false_iff] at hfree
    simp only [splitGo, hfree.1, Bool.false_eq_true, if_false]
    rw [ih (cur ++ [c]) hfree.2]
    simp

theorem splitGo_step (name rest cur : List Char)
    (hfree : containsChars [',', ' '] name = false) :
    splitGo [',', ' '] (name ++ ',' :: ' ' :: rest) cur 0 =
      (cur ++ name) :: splitGo [',', ' '] rest [] 0 := by
  induction name generalizing cur with
  | nil => simp [splitGo, List.isPrefixOf]
  | cons c cs ih =>
    simp only [containsChars, Bool.or_eq_false_iff] at hfree
    have hpre : List.isPrefixOf [',', ' '] (c :: (cs ++ ',' :: ' ' :: rest)) = false := by
      cases cs with
      | nil =>
        simp [List.isPrefixOf]
      | cons d ds =>
        have h1 := hfree.1
        simp only [List.isPrefixOf, Bool.and_true] at h1
        simp only [List.cons_append, List.isPrefixOf, Bool.and_true]
        exact h1
    rw [List.cons_append, splitGo, hpre]
    simp only [Bool.false_eq_true, if_false]
    rw [ih (cur ++ [c]) hfree.2]
    simp

/-- Splitting the joined list of names that do not contain the separator gives
the names back. -/
theorem stringsSplit_stringsJoin (l : List String) (hne : l ≠ [])
    (hfree : ∀ x ∈ l, hasSeparator x = false) :
    stringsSplit (stringsJoin l GroupItemsSeparator) GroupItemsSeparator = l := by
  have hsep : GroupItemsSeparator.data = [',', ' '] := rfl
  have key : ∀ l : List String, l ≠ [] → (∀ x ∈ l, hasSeparator x = false) →
      splitGo [',', ' '] (stringsJoin l GroupItemsSeparator).data [] 0 =
        l.map String.data := by
    intro l
    induction l with
    | nil => intro h; exact absurd rfl h
    | cons a rest ih =>
      intro _ hfree
      have ha : containsChars [',', ' '] a.data = false := hfree a (List.mem_cons_self _ _)
      cases rest with
      | nil =>
        simp only [stringsJoin, List.map]
        rw [splitGo_last a.data [] ha]
        simp
      | cons b rest1 =>
        have hrest := ih (by simp) (fun x hx => hfree x (List.mem_cons_of_mem _ hx))
        simp only [stringsJoin, String.data_append, hsep, List.append_assoc, List.cons_append,
          List.nil_append]
        rw [splitGo_step a.data _ [] ha, hrest]
        simp
  unfold stringsSplit
  simp only [hsep]
  rw [if_neg (by simp), key l hne hfree, List.map_map]
  have hid : (String.mk ∘ String.data) = id := by
    funext x
    rfl
  rw [hid, List.map_id]

/-! ## Results of add, case by case -/

theorem isEcho_of_noEcho_false (od : ObjectTree) (addOpts : AddObjectOptions)
    (parentReady objReady : Option Condition) (h : addOpts.NoEcho = false) :
    isEcho od addOpts parentReady objReady = false := by
  simp [isEcho, h]

/-- The result of `add` when the call ends in the plain insertion. -/
theorem add_eq_addInner (od : ObjectTree) (parent obj : Object)
    (opts : List AddObjectOption) (env : Env)
    (hecho : isEcho od (AddObjectOptions.ApplyOptions {} opts) (GetReadyCondition parent)
      (GetReadyCondition obj) = false)
    (hNoMerge : IsGroupingObject parent = false ∨
      ∀ k ∈ (od.ownership parent.UID).elems,
        hasSameReadyStatusSeverityAndReason (GetReadyCondition obj)
          ((od.GetObject k).bind GetReadyCondition) = false) :
    od.add parent obj opts env =
      some (od.addInner parent (markGrouping od (AddObjectOptions.ApplyOptions {} opts)
        (markMetaName (AddObjectOptions.ApplyOptions {} opts) (markDebug od obj)))) := by
  have hout : (if IsGroupingObject parent then
        groupSiblings od parent (markMetaName (AddObjectOptions.ApplyOptions {} opts)
          (markDebug od obj)) (GetReadyCondition obj) env (od.childKeys parent.UID env.order)
      else GroupOutcome.fallThrough) = GroupOutcome.fallThrough := by
    rcases hNoMerge with hg | hk
    · simp [hg]
    · split
      · apply groupSiblings_fallThrough
        intro k hkmem
        exact hk k ((env.order.perm _).mem_iff.mp hkmem)
      · rfl
  unfold ObjectTree.add
  simp only [hecho, hout]
  simp

/-- The result of `add` when the matching sibling is a plain node. -/
theorem add_eq_create (od : ObjectTree) (parent obj : Object)
    (opts : List AddObjectOption) (env : Env) (k : String) (s g : Object)
    (hecho : isEcho od (AddObjectOptions.ApplyOptions {} opts) (GetReadyCondition parent)
      (GetReadyCondition obj) = false)
    (hGrouping : IsGroupingObject parent = true)
    (hMatch : od.matchingSibling (GetReadyCondition obj)
      (od.childKeys parent.UID env.order) = some k)
    (hItem : od.GetObject k = some s)
    (hPlain : IsGroupObject s = false)
    (hc : createGroupNode s (GetReadyCondition s)
      (markMetaName (AddObjectOptions.ApplyOptions {} opts) (markDebug od obj))
      (GetReadyCondition obj) env = some g) :
    od.add parent obj opts env = some ((od.addInner parent g).remove parent s) := by
  obtain ⟨_, hsame⟩ := matchingSibling_some _ _ _ _ hMatch
  rw [hItem] at hsame
  simp only [Option.some_bind] at hsame
  unfold ObjectTree.add
  simp only [hecho, hGrouping, if_true]
  rw [groupSiblings_matching _ _ _ _ _ _ _ hMatch]
  simp [groupSiblings, hItem, hsame, hPlain, hc]

/-- The result of `add` when the matching sibling is a group node. -/
theorem add_eq_update (od : ObjectTree) (parent obj : Object)
    (opts : List AddObjectOption) (env : Env) (k : String) (s s1 : Object)
    (hecho : isEcho od (AddObjectOptions.ApplyOptions {} opts) (GetReadyCondition parent)
      (GetReadyCondition obj) = false)
    (hGrouping : IsGroupingObject parent = true)
    (hMatch : od.matchingSibling (GetReadyCondition obj)
      (od.childKeys parent.UID env.order) = some k)
    (hItem : od.GetObject k = some s)
    (hGroup : IsGroupObject s = true)
    (hu : updateGroupNode s (GetReadyCondition s)
      (markMetaName (AddObjectOptions.ApplyOptions {} opts) (markDebug od obj))
      (GetReadyCondition obj) env = some s1) :
    od.add parent obj opts env =
      some { od with items := fun id => if id = k then some s1 else od.items id } := by
  obtain ⟨_, hsame⟩ := matchingSibling_some _ _ _ _ hMatch
  rw [hItem] at hsame
  simp only [Option.some_bind] at hsame
  unfold ObjectTree.add
  simp only [hecho, hGrouping, if_true]
  rw [groupSiblings_matching _ _ _ _ _ _ _ hMatch]
  simp [groupSiblings, hItem, hsame, hGroup, hu]

theorem UIDSet.insert_of_nil (S : UIDSet) (x : String) (h : S.elems = []) :
    (S.insert x).elems = [x] := by
  unfold UIDSet.insert
  simp [h]

theorem UIDSet.insert_erase_single (S : UIDSet) (a g : String) (h : S.elems = [a])
    (hne : g ≠ a) : ((S.insert g).erase a).elems = [g] := by
  unfold UIDSet.insert UIDSet.erase
  simp [h, hne]

theorem childKeys_single (od : ObjectTree) (id a : String) (order : MapOrder)
    (h : (od.ownership id).elems = [a]) : od.childKeys id order = [a] := by
  unfold ObjectTree.childKeys
  have hp := order.perm (od.ownership id).elems
  rw [h] at hp ⊢
  exact List.perm_singleton.mp hp

theorem marks_Annotation_other (od : ObjectTree) (o : AddObjectOptions) (obj : Object)
    (key : String) (h1 : key ≠ ShowObjectConditionsAnnotation)
    (h2 : key ≠ ObjectMetaNameAnnotation) (h3 : key ≠ GroupingObjectAnnotation) :
    mapLookup (markGrouping od o (markMetaName o (markDebug od obj))).Annotations key =
      mapLookup obj.Annotations key := by
  unfold markGrouping markMetaName markDebug addAnnotation
  split <;> split <;> split <;>
    simp [mapLookup_mapStore_other _ _ _ _ h1, mapLookup_mapStore_other _ _ _ _ h2,
      mapLookup_mapStore_other _ _ _ _ h3]

theorem IsGroupObject_marks (od : ObjectTree) (o : AddObjectOptions) (obj : Object) :
    IsGroupObject (markGrouping od o (markMetaName o (markDebug od obj))) =
      IsGroupObject obj := by
  unfold IsGroupObject getBoolAnnotation
  rw [marks_Annotation_other od o obj GroupObjectAnnotation (by decide) (by decide)
    (by decide)]

theorem GetReadyCondition_marks (od : ObjectTree) (o : AddObjectOptions) (obj : Object) :
    GetReadyCondition (markGrouping od o (markMetaName o (markDebug od obj))) =
      GetReadyCondition obj := by
  rw [marks_only_annotations od o obj]
  rfl

theorem Name_marks (od : ObjectTree) (o : AddObjectOptions) (obj : Object) :
    (markGrouping od o (markMetaName o (markDebug od obj))).Name = obj.Name := by
  rw [marks_only_annotations od o obj]

/-! ## Two equivalent siblings -/

/-- Two insertions of equivalent plain resources under a grouping parent
without children: the second call replaces the first resource by a group
node. -/
theorem two_adds_make_group (od : ObjectTree) (R A B : Object)
    (optsA optsB : List AddObjectOption) (envA envB : Env) (ra rb : Condition)
    (hGrouping : IsGroupingObject R = true)
    (hNoChildren : (od.ownership R.UID).elems = [])
    (hNoEchoA : (AddObjectOptions.ApplyOptions {} optsA).NoEcho = false)
    (hNoEchoB : (AddObjectOptions.ApplyOptions {} optsB).NoEcho = false)
    (hReadyA : GetReadyCondition A = some ra)
    (hReadyB : GetReadyCondition B = some rb)
    (hEquiv : hasSameReadyStatusSeverityAndReason (some ra) (some rb) = true)
    (hPlainA : IsGroupObject A = false)
    (hFreshA : groupNodeUID B envB.rand ≠ A.UID) :
    ∃ od1 od2 g, od.add R A optsA envA = some od1 ∧ od1.add R B optsB envB = some od2 ∧
      g.UID = groupNodeUID B envB.rand ∧
      (od2.ownership R.UID).elems = [g.UID] ∧
      od2.GetObject g.UID = some g ∧
      IsGroupObject g = true ∧
      GetGroupItems g = stringsJoin (sortStrings [B.Name, A.Name]) GroupItemsSeparator ∧
      (∃ r, GetReadyCondition g = some r ∧ r.Status = rb.Status ∧
        r.Severity = rb.Severity ∧ r.Reason = rb.Reason ∧ r.Message = "") ∧
      od2.GetObject A.UID = none ∧
      (od.GetObject B.UID = none → groupNodeUID B envB.rand ≠ B.UID →
        od2.GetObject B.UID = none) := by
  -- first call: plain insertion
  have h1 := add_eq_addInner od R A optsA envA (isEcho_of_noEcho_false _ _ _ _ hNoEchoA)
    (Or.inr (by rw [hNoChildren]; intro k hk; simp at hk))
  generalize hA1 : markGrouping od (AddObjectOptions.ApplyOptions {} optsA)
    (markMetaName (AddObjectOptions.ApplyOptions {} optsA) (markDebug od A)) = A1 at h1
  have hA1uid : A1.UID = A.UID := by rw [← hA1]; simp
  have hA1ready : GetReadyCondition A1 = some ra := by
    rw [← hA1, GetReadyCondition_marks, hReadyA]
  have hA1plain : IsGroupObject A1 = false := by
    rw [← hA1, IsGroupObject_marks, hPlainA]
  have hA1name : A1.Name = A.Name := by rw [← hA1, Name_marks]
  have hown1 : ((od.addInner R A1).ownership R.UID).elems = [A.UID] := by
    simp only [ObjectTree.addInner, if_true, hA1uid]
    exact UIDSet.insert_of_nil _ _ hNoChildren
  have hitem1 : (od.addInner R A1).GetObject A.UID = some A1 := by
    simp [ObjectTree.GetObject, ObjectTree.addInner, hA1uid]
  -- second call: the matching sibling is the first resource
  have hsameBA : hasSameReadyStatusSeverityAndReason (GetReadyCondition B)
      (GetReadyCondition A1) = true := by
    rw [hReadyB, hA1ready, hasSame_symm]
    exact hEquiv
  have hmatch : (od.addInner R A1).matchingSibling (GetReadyCondition B)
      ((od.addInner R A1).childKeys R.UID envB.order) = some A.UID := by
    rw [childKeys_single _ _ _ _ hown1]
    simp only [ObjectTree.matchingSibling, hitem1, Option.some_bind, hsameBA, if_true]
  obtain ⟨g, hc, hgUID, hggroup, _, hgitems, _, hgready⟩ :=
    createGroupNode_spec A1 (markMetaName (AddObjectOptions.ApplyOptions {} optsB)
      (markDebug (od.addInner R A1) B)) (GetReadyCondition A1) (GetReadyCondition B) envB
      hsameBA (fun r hr => GetReadyCondition_type B r hr)
  rw [groupNodeUID_marks] at hgUID
  simp only [markMetaName_Name, markDebug_Name, hA1name] at hgitems
  have h2 := add_eq_create (od.addInner R A1) R B optsB envB A.UID A1 g
    (isEcho_of_noEcho_false _ _ _ _ hNoEchoB) hGrouping hmatch hitem1 hA1plain hc
  have hgA : g.UID ≠ A.UID := by rw [hgUID]; exact hFreshA
  refine ⟨_, _, g, h1, h2, hgUID, ?_, ?_, hggroup, hgitems, ?_, ?_, ?_⟩
  · simp only [ObjectTree.remove, ObjectTree.addInner, if_true, hA1uid]
    apply UIDSet.insert_erase_single _ _ _ _ hgA
    exact UIDSet.insert_of_nil _ _ hNoChildren
  · simp [ObjectTree.GetObject, ObjectTree.remove, ObjectTree.addInner, hA1uid, hgA]
  · exact hgready rb hReadyB
  · simp [ObjectTree.GetObject, ObjectTree.remove, hA1uid]
  · intro hB hFreshB
    have hBg : B.UID ≠ g.UID := by rw [hgUID]; exact Ne.symm hFreshB
    by_cases hBA : B.UID = A.UID
    · simp [ObjectTree.GetObject, ObjectTree.remove, hA1uid, hBA]
    · simpa [ObjectTree.GetObject, ObjectTree.remove, ObjectTree.addInner, hA1uid, hBA, hBg]
        using hB

/-! ## End-to-end grouping of two siblings -/

/-- C5: for a parent that carries the grouping-parent marker and has no
children, inserting without NoEcho two resources A and then B whose readiness
conditions are present and equivalent leaves the parent with exactly one child;
that child is a group node whose member list is the sorted names of A and B
joined by the separator, whose readiness has the status, severity and reason
of A and B and an empty message; A is not in `items`, and neither is B unless
it was there before the calls.  A and B are resources: A is not itself a group
node, and the identity synthesized for the group node, which the data model
keeps distinct from the identity of every resource, is neither the identity
of A nor that of B. -/
theorem add_two_equivalent_siblings (od : ObjectTree) (R A B : Object)
    (optsA optsB : List AddObjectOption) (envA envB : Env) (ra rb : Condition)
    (hGrouping : IsGroupingObject R = true)
    (hNoChildren : (od.ownership R.UID).elems = [])
    (hNoEchoA : (AddObjectOptions.ApplyOptions {} optsA).NoEcho = false)
    (hNoEchoB : (AddObjectOptions.ApplyOptions {} optsB).NoEcho = false)
    (hReadyA : GetReadyCondition A = some ra)
    (hReadyB : GetReadyCondition B = some rb)
    (hEquiv : hasSameReadyStatusSeverityAndReason (some ra) (some rb) = true)
    (hPlainA : IsGroupObject A = false)
    (hFreshA : groupNodeUID B envB.rand ≠ A.UID)
    (hFreshB : groupNodeUID B envB.rand ≠ B.UID) :
    ∃ od1 od2 g l, od.add R A optsA envA = some od1 ∧ od1.add R B optsB envB = some od2 ∧
      (od2.ownership R.UID).elems = [g.UID] ∧
      (∀ order : MapOrder, od2.GetObjectsByParent R.UID order = [some g]) ∧
      IsGroupObject g = true ∧
      GetGroupItems g = stringsJoin l GroupItemsSeparator ∧
      l = sortStrings [B.Name, A.Name] ∧ l.Perm [A.Name, B.Name] ∧ l.Pairwise stringLe ∧
      (∃ r, GetReadyCondition g = some r ∧
        r.Status = ra.Status ∧ r.Severity = ra.Severity ∧ r.Reason = ra.Reason ∧
        r.Status = rb.Status ∧ r.Severity = rb.Severity ∧ r.Reason = rb.Reason ∧
        r.Message = "") ∧
      od2.GetObject A.UID = none ∧
      (od.GetObject B.UID = none → od2.GetObject B.UID = none) := by
  obtain ⟨od1, od2, g, h1, h2, _, hown, hitem, hgroup, hitems, ⟨r, hr, hs1, hs2, hs3, hm⟩,
    hA, hB⟩ := two_adds_make_group od R A B optsA optsB envA envB ra rb hGrouping
      hNoChildren hNoEchoA hNoEchoB hReadyA hReadyB hEquiv hPlainA hFreshA
  obtain ⟨e1, e2, e3⟩ := (hasSame_some_iff ra rb).mp hEquiv
  refine ⟨od1, od2, g, sortStrings [B.Name, A.Name], h1, h2, hown, ?_, hgroup, hitems, rfl,
    ?_, sortStrings_sorted _, ⟨r, hr, ?_, ?_, ?_, hs1, hs2, hs3, hm⟩, hA,
    fun hNewB => hB hNewB hFreshB⟩
  · intro order
    simp only [ObjectTree.GetObjectsByParent, childKeys_single _ _ _ _ hown, List.map, hitem]
  · exact (sortStrings_perm _).trans (List.Perm.swap A.Name B.Name [])
  · rw [hs1, e1]
  · rw [hs2, e2]
  · rw [hs3, e3]

/-- The crashed machines `A` and `B` added to the empty tree under
`sampleParent`. -/
theorem add_two_equivalent_siblings_witness :
    IsGroupingObject sampleParent = true ∧
    ((newObjectTree {}).ownership sampleParent.UID).elems = [] ∧
    GetReadyCondition (machine "A" "uid-a" (crashed 10 "boom")) = some (crashed 10 "boom") ∧
    GetReadyCondition (machine "B" "uid-b" (crashed 20 "bang")) = some (crashed 20 "bang") ∧
    hasSameReadyStatusSeverityAndReason (some (crashed 10 "boom")) (some (crashed 20 "bang")) =
      true ∧
    IsGroupObject (machine "A" "uid-a" (crashed 10 "boom")) = false ∧
    groupNodeUID (machine "B" "uid-b" (crashed 20 "bang")) "abcdef" ≠
      (machine "A" "uid-a" (crashed 10 "boom")).UID ∧
    groupNodeUID (machine "B" "uid-b" (crashed 20 "bang")) "abcdef" ≠
      (machine "B" "uid-b" (crashed 20 "bang")).UID ∧
    ∃ od1 od2 g l,
      (newObjectTree {}).add sampleParent (machine "A" "uid-a" (crashed 10 "boom")) [] {} =
        some od1 ∧
      od1.add sampleParent (machine "B" "uid-b" (crashed 20 "bang")) []
        { rand := "abcdef" } = some od2 ∧
      (od2.ownership sampleParent.UID).elems = [g.UID] ∧
      (∀ order : MapOrder, od2.GetObjectsByParent sampleParent.UID order = [some g]) ∧
      IsGroupObject g = true ∧
      GetGroupItems g = stringsJoin l GroupItemsSeparator ∧
      l = sortStrings [(machine "B" "uid-b" (crashed 20 "bang")).Name,
        (machine "A" "uid-a" (crashed 10 "boom")).Name] ∧
      l.Perm [(machine "A" "uid-a" (crashed 10 "boom")).Name,
        (machine "B" "uid-b" (crashed 20 "bang")).Name] ∧
      l.Pairwise stringLe ∧
      (∃ r, GetReadyCondition g = some r ∧
        r.Status = (crashed 10 "boom").Status ∧ r.Severity = (crashed 10 "boom").Severity ∧
        r.Reason = (crashed 10 "boom").Reason ∧
        r.Status = (crashed 20 "bang").Status ∧ r.Severity = (crashed 20 "bang").Severity ∧
        r.Reason = (crashed 20 "bang").Reason ∧
        r.Message = "") ∧
      od2.GetObject (machine "A" "uid-a" (crashed 10 "boom")).UID = none ∧
      ((newObjectTree {}).GetObject (machine "B" "uid-b" (crashed 20 "bang")).UID = none →
        od2.GetObject (machine "B" "uid-b" (crashed 20 "bang")).UID = none) :=
  ⟨by decide, by decide, by decide, by decide, by decide, by decide, by decide, by decide,
    add_two_equivalent_siblings (newObjectTree {}) sampleParent
      (machine "A" "uid-a" (crashed 10 "boom")) (machine "B" "uid-b" (crashed 20 "bang")) [] []
      {} { rand := "abcdef" } (crashed 10 "boom") (crashed 20 "bang")
      (by decide) (by decide) (by decide) (by decide) (by decide) (by decide) (by decide)
      (by decide) (by decide) (by decide)⟩

/-! ## Grouping of three siblings -/

/-- C6 (amended): inserting without NoEcho three resources with equivalent
readiness one after another under the same parent, which carries the
grouping-parent marker and has no children, where no name contains the
separator, the first resource is not a group node and the identity
synthesized for the group is not the identity of the first resource, yields
exactly one child of the parent: a group node whose member list, stored
joined by the separator and read back by splitting, is the three names in
sorted order.  The third insertion matches the group node made by the second
and leaves the child set as it was. -/
theorem add_three_equivalent_siblings (od : ObjectTree) (R A B C : Object)
    (optsA optsB optsC : List AddObjectOption) (envA envB envC : Env)
    (ra rb rc : Condition)
    (hGrouping : IsGroupingObject R = true)
    (hNoChildren : (od.ownership R.UID).elems = [])
    (hNoEchoA : (AddObjectOptions.ApplyOptions {} optsA).NoEcho = false)
    (hNoEchoB : (AddObjectOptions.ApplyOptions {} optsB).NoEcho = false)
    (hNoEchoC : (AddObjectOptions.ApplyOptions {} optsC).NoEcho = false)
    (hReadyA : GetReadyCondition A = some ra)
    (hReadyB : GetReadyCondition B = some rb)
    (hReadyC : GetReadyCondition C = some rc)
    (hEquivAB : hasSameReadyStatusSeverityAndReason (some ra) (some rb) = true)
    (hEquivBC : hasSameReadyStatusSeverityAndReason (some rb) (some rc) = true)
    (hPlainA : IsGroupObject A = false)
    (hFreshA : groupNodeUID B envB.rand ≠ A.UID)
    (hSepA : hasSeparator A.Name = false)
    (hSepB : hasSeparator B.Name = false)
    (hSepC : hasSeparator C.Name = false) :
    ∃ od1 od2 od3 g l, od.add R A optsA envA = some od1 ∧
      od1.add R B optsB envB = some od2 ∧ od2.add R C optsC envC = some od3 ∧
      (od3.ownership R.UID).elems = [g.UID] ∧
      (∀ order : MapOrder, od3.GetObjectsByParent R.UID order = [some g]) ∧
      IsGroupObject g = true ∧
      GetGroupItems g = stringsJoin l GroupItemsSeparator ∧
      stringsSplit (GetGroupItems g) GroupItemsSeparator = l ∧
      l.Perm [A.Name, B.Name, C.Name] ∧ l.Pairwise stringLe ∧
      od3.ownership = od2.ownership ∧
      (∃ g2, od2.GetObject g.UID = some g2 ∧ IsGroupObject g2 = true) := by
  obtain ⟨od1, od2, g2, h1, h2, _, hown, hitem, hgroup, hitems, ⟨r, hr, hs1, hs2, hs3, _⟩,
    _, _⟩ := two_adds_make_group od R A B optsA optsB envA envB ra rb hGrouping
      hNoChildren hNoEchoA hNoEchoB hReadyA hReadyB hEquivAB hPlainA hFreshA
  -- third call: the matching sibling is the group node
  obtain ⟨e1, e2, e3⟩ := (hasSame_some_iff rb rc).mp hEquivBC
  have hsame : hasSameReadyStatusSeverityAndReason (GetReadyCondition C)
      (GetReadyCondition g2) = true := by
    rw [hReadyC, hr, hasSame_some_iff]
    exact ⟨by rw [hs1, e1], by rw [hs2, e2], by rw [hs3, e3]⟩
  have hmatch : od2.matchingSibling (GetReadyCondition C)
      (od2.childKeys R.UID envC.order) = some g2.UID := by
    rw [childKeys_single _ _ _ _ hown]
    simp only [ObjectTree.matchingSibling, hitem, Option.some_bind, hsame, if_true]
  obtain ⟨g3, hu, hUID, _, _, _, hann, hitems3, _, _⟩ :=
    updateGroupNode_spec g2 (markMetaName (AddObjectOptions.ApplyOptions {} optsC)
      (markDebug od2 C)) (GetReadyCondition C) envC hsame
  simp only [markMetaName_Name, markDebug_Name] at hitems3
  have h3 := add_eq_update od2 R C optsC envC g2.UID g2 g3
    (isEcho_of_noEcho_false _ _ _ _ hNoEchoC) hGrouping hmatch hitem hgroup hu
  -- the member list
  have hperm2 : (sortStrings [B.Name, A.Name]).Perm [B.Name, A.Name] := sortStrings_perm _
  have hfree2 : ∀ x ∈ sortStrings [B.Name, A.Name], hasSeparator x = false := by
    intro x hx
    rcases List.mem_cons.mp (hperm2.mem_iff.mp hx) with hx | hx
    · rw [hx]; exact hSepB
    · rw [List.mem_singleton.mp hx]; exact hSepA
  have hne2 : sortStrings [B.Name, A.Name] ≠ [] := by
    intro hnil
    have := hperm2.length_eq
    rw [hnil] at this
    simp at this
  rw [hitems, stringsSplit_stringsJoin _ hne2 hfree2] at hitems3
  have hperm3 : (sortStrings (sortStrings [B.Name, A.Name] ++ [C.Name])).Perm
      [A.Name, B.Name, C.Name] := by
    refine (sortStrings_perm _).trans ?_
    refine (List.Perm.append_right [C.Name] hperm2).trans ?_
    exact List.Perm.swap A.Name B.Name [C.Name]
  have hfree3 : ∀ x ∈ sortStrings (sortStrings [B.Name, A.Name] ++ [C.Name]),
      hasSeparator x = false := by
    intro x hx
    have hx3 := hperm3.mem_iff.mp hx
    simp only [List.mem_cons, List.mem_singleton, List.not_mem_nil, or_false] at hx3
    rcases hx3 with hx3 | hx3 | hx3
    · rw [hx3]; exact hSepA
    · rw [hx3]; exact hSepB
    · rw [hx3]; exact hSepC
  have hne3 : sortStrings (sortStrings [B.Name, A.Name] ++ [C.Name]) ≠ [] := by
    intro hnil
    have := hperm3.length_eq
    rw [hnil] at this
    simp at this
  have hown3 : ({ od2 with items := fun id => if id = g2.UID then some g3 else od2.items id }
      : ObjectTree).ownership R.UID = od2.ownership R.UID := rfl
  refine ⟨od1, od2, _, g3, sortStrings (sortStrings [B.Name, A.Name] ++ [C.Name]),
    h1, h2, h3, ?_, ?_, ?_, hitems3, ?_, hperm3, sortStrings_sorted _, rfl, ?_⟩
  · rw [hUID]
    exact hown
  · intro order
    have hown4 : (({ od2 with items := fun id => if id = g2.UID then some g3 else od2.items id }
        : ObjectTree).ownership R.UID).elems = [g2.UID] := hown
    simp only [ObjectTree.GetObjectsByParent, childKeys_single _ _ _ _ hown4, List.map]
    simp [ObjectTree.GetObject]
  · rw [IsGroupObject_congr g2 g3 (hann _ (by decide))]
    exact hgroup
  · rw [hitems3]
    exact stringsSplit_stringsJoin _ hne3 hfree3
  · rw [hUID]
    exact ⟨g2, hitem, hgroup⟩

theorem add_three_equivalent_siblings_witness :
    ∃ od1 od2 od3 g l,
      (newObjectTree {}).add sampleParent (machine "m1" "uid-1" (warned 10 "boom")) [] {} =
        some od1 ∧
      od1.add sampleParent (machine "m2" "uid-2" (warned 20 "bang")) []
        { rand := "abcdef" } = some od2 ∧
      od2.add sampleParent (machine "m3" "uid-3" (warned 5 "crack")) [] {} = some od3 ∧
      (od3.ownership sampleParent.UID).elems = [g.UID] ∧
      (∀ order : MapOrder, od3.GetObjectsByParent sampleParent.UID order = [some g]) ∧
      IsGroupObject g = true ∧
      GetGroupItems g = stringsJoin l GroupItemsSeparator ∧
      stringsSplit (GetGroupItems g) GroupItemsSeparator = l ∧
      l.Perm [(machine "m1" "uid-1" (warned 10 "boom")).Name,
        (machine "m2" "uid-2" (warned 20 "bang")).Name,
        (machine "m3" "uid-3" (warned 5 "crack")).Name] ∧
      l.Pairwise stringLe ∧
      od3.ownership = od2.ownership ∧
      (∃ g2, od2.GetObject g.UID = some g2 ∧ IsGroupObject g2 = true) :=
  add_three_equivalent_siblings (newObjectTree {}) sampleParent
    (machine "m1" "uid-1" (warned 10 "boom")) (machine "m2" "uid-2" (warned 20 "bang"))
    (machine "m3" "uid-3" (warned 5 "crack")) [] [] [] {} { rand := "abcdef" } {}
    (warned 10 "boom") (warned 20 "bang") (warned 5 "crack")
    (by decide) (by decide) (by decide) (by decide) (by decide) (by decide) (by decide)
    (by decide) (by decide) (by decide) (by decide) (by decide) (by decide) (by decide)
    (by decide)

/-- C6 as stated fails: the three machines of `separatorAdds` have the
distinct names `b, a`, `c` and `d` and the same readiness (status False,
severity Warning, reason X).  After the three insertions the parent has one
child, a group node, but its member list is `a, b, c, d`, four entries, and
not the three names in sorted order, `b, a`, `c`, `d`: the absorption of the
third machine split the stored list at the separator inside the first name. -/
theorem add_three_equivalent_siblings_counterexample :
    IsGroupingObject sampleParent = true ∧
    ((newObjectTree {}).ownership sampleParent.UID).elems = [] ∧
    separatorAdds.map (fun od => (od.ownership sampleParent.UID).elems) =
      some [", /zz_False_Warning_X_abcdef"] ∧
    (separatorAdds.bind (fun od => od.GetObject ", /zz_False_Warning_X_abcdef")).map
      IsGroupObject = some true ∧
    (separatorAdds.bind (fun od => od.GetObject ", /zz_False_Warning_X_abcdef")).map
      GetGroupItems = some "a, b, c, d" ∧
    (separatorAdds.bind (fun od => od.GetObject ", /zz_False_Warning_X_abcdef")).map
      (fun g => stringsSplit (GetGroupItems g) GroupItemsSeparator) =
      some ["a", "b", "c", "d"] ∧
    sortStrings ["b, a", "c", "d"] = ["b, a", "c", "d"] ∧
    stringsJoin (sortStrings ["b, a", "c", "d"]) GroupItemsSeparator = "b, a, c, d" := by
  decide

/-! ## Grouping establishment -/

theorem marks2_Annotation_other (od : ObjectTree) (o : AddObjectOptions) (obj : Object)
    (key : String) (h1 : key ≠ ShowObjectConditionsAnnotation)
    (h2 : key ≠ ObjectMetaNameAnnotation) :
    mapLookup (markMetaName o (markDebug od obj)).Annotations key =
      mapLookup obj.Annotations key := by
  unfold markMetaName markDebug addAnnotation
  split <;> split <;>
    simp [mapLookup_mapStore_other _ _ _ _ h1, mapLookup_mapStore_other _ _ _ _ h2]

theorem IsGroupingObject_marks_of_false (od : ObjectTree) (o : AddObjectOptions)
    (obj : Object) (h : IsGroupingObject obj = false) :
    IsGroupingObject (markGrouping od o (markMetaName o (markDebug od obj))) =
      (o.GroupingObject && !od.options.DisableGroupObjects) := by
  have hkeep : IsGroupingObject (markMetaName o (markDebug od obj)) = false := by
    rw [← h]
    unfold IsGroupingObject getBoolAnnotation
    rw [marks2_Annotation_other od o obj GroupingObjectAnnotation (by decide) (by decide)]
  unfold markGrouping
  split
  · rename_i hopt
    rw [hopt]
    simp [IsGroupingObject, getBoolAnnotation, addAnnotation, mapLookup_mapStore_same,
      parseBool]
  · rename_i hopt
    rw [hkeep]
    simpa using hopt

/-- C11: when a call of `add` reaches the plain insertion (it is not
echo-suppressed and no grouping merge happens) for an object on which
`IsGroupingObject` was false before the call, in particular one without the
grouping-parent annotation, the object stored by the call satisfies
`IsGroupingObject` exactly when the `GroupingObject` option is true and the
`DisableGroupObjects` toggle of the tree is off.  The marker decides whether a
later call attempts grouping: a call of `add` that is not echo-suppressed
ends in the plain insertion whenever its parent does not carry the marker,
whatever the siblings are, and otherwise returns what the sibling loop
decides. -/
theorem add_establishes_grouping (od : ObjectTree) (parent obj : Object)
    (opts : List AddObjectOption) (env : Env)
    (hBefore : IsGroupingObject obj = false)
    (hNotEcho : ¬ ((AddObjectOptions.ApplyOptions {} opts).NoEcho = true ∧
      od.options.DisableNoEcho = false ∧
      ((∃ r, GetReadyCondition obj = some r ∧ r.Status = ConditionTrue) ∨
        hasSameReadyStatusSeverityAndReason (GetReadyCondition obj)
          (GetReadyCondition parent) = true)))
    (hNoMerge : IsGroupingObject parent = false ∨
      ∀ k ∈ (od.ownership parent.UID).elems,
        hasSameReadyStatusSeverityAndReason (GetReadyCondition obj)
          ((od.GetObject k).bind GetReadyCondition) = false) :
    (∃ od1 stored, od.add parent obj opts env = some od1 ∧
      od1.GetObject obj.UID = some stored ∧
      (IsGroupingObject stored = true ↔
        ((AddObjectOptions.ApplyOptions {} opts).GroupingObject = true ∧
          od.options.DisableGroupObjects = false))) ∧
    (∀ (od2 : ObjectTree) (p child : Object) (opts2 : List AddObjectOption) (env2 : Env),
      isEcho od2 (AddObjectOptions.ApplyOptions {} opts2) (GetReadyCondition p)
        (GetReadyCondition child) = false →
      (IsGroupingObject p = false →
        od2.add p child opts2 env2 =
          some (od2.addInner p (markGrouping od2 (AddObjectOptions.ApplyOptions {} opts2)
            (markMetaName (AddObjectOptions.ApplyOptions {} opts2) (markDebug od2 child))))) ∧
      (IsGroupingObject p = true →
        od2.add p child opts2 env2 =
          addOutcome od2 p (markMetaName (AddObjectOptions.ApplyOptions {} opts2)
              (markDebug od2 child)) (AddObjectOptions.ApplyOptions {} opts2)
            (groupSiblings od2 p (markMetaName (AddObjectOptions.ApplyOptions {} opts2)
              (markDebug od2 child)) (GetReadyCondition child) env2
              (od2.childKeys p.UID env2.order)))) := by
  have hecho : isEcho od (AddObjectOptions.ApplyOptions {} opts) (GetReadyCondition parent)
      (GetReadyCondition obj) = false := by
    rw [← Bool.not_eq_true, isEcho_iff]
    exact hNotEcho
  constructor
  · refine ⟨od.addInner parent (markGrouping od (AddObjectOptions.ApplyOptions {} opts)
        (markMetaName (AddObjectOptions.ApplyOptions {} opts) (markDebug od obj))),
      markGrouping od (AddObjectOptions.ApplyOptions {} opts)
        (markMetaName (AddObjectOptions.ApplyOptions {} opts) (markDebug od obj)),
      add_eq_addInner od parent obj opts env hecho hNoMerge, ?_, ?_⟩
    · simp [ObjectTree.GetObject, ObjectTree.addInner]
    · rw [IsGroupingObject_marks_of_false od _ obj hBefore]
      simp
  · intro od2 p child opts2 env2 hecho2
    constructor
    · intro hp
      exact add_eq_addInner od2 p child opts2 env2 hecho2 (Or.inl hp)
    · intro hp
      unfold ObjectTree.add
      simp only [hecho2, hp, if_true]
      cases groupSiblings od2 p (markMetaName (AddObjectOptions.ApplyOptions {} opts2)
        (markDebug od2 child)) (GetReadyCondition child) env2
        (od2.childKeys p.UID env2.order) <;> simp [addOutcome]

theorem add_establishes_grouping_witness :
    (∃ od1 stored, (newObjectTree {}).add plainParent (machine "m0" "uid-m0" (crashed 7 "x"))
        [AddObjectOption.GroupingObject true] {} = some od1 ∧
      od1.GetObject (machine "m0" "uid-m0" (crashed 7 "x")).UID = some stored ∧
      (IsGroupingObject stored = true ↔
        ((AddObjectOptions.ApplyOptions {} [AddObjectOption.GroupingObject true]).GroupingObject
            = true ∧
          (newObjectTree {}).options.DisableGroupObjects = false))) ∧
    (∀ (od2 : ObjectTree) (p child : Object) (opts2 : List AddObjectOption) (env2 : Env),
      isEcho od2 (AddObjectOptions.ApplyOptions {} opts2) (GetReadyCondition p)
        (GetReadyCondition child) = false →
      (IsGroupingObject p = false →
        od2.add p child opts2 env2 =
          some (od2.addInner p (markGrouping od2 (AddObjectOptions.ApplyOptions {} opts2)
            (markMetaName (AddObjectOptions.ApplyOptions {} opts2) (markDebug od2 child))))) ∧
      (IsGroupingObject p = true →
        od2.add p child opts2 env2 =
          addOutcome od2 p (markMetaName (AddObjectOptions.ApplyOptions {} opts2)
              (markDebug od2 child)) (AddObjectOptions.ApplyOptions {} opts2)
            (groupSiblings od2 p (markMetaName (AddObjectOptions.ApplyOptions {} opts2)
              (markDebug od2 child)) (GetReadyCondition child) env2
              (od2.childKeys p.UID env2.order)))) :=
  add_establishes_grouping (newObjectTree {}) plainParent (machine "m0" "uid-m0" (crashed 7 "x"))
    [AddObjectOption.GroupingObject true] {} (by decide) (fun h => absurd h.1 (by decide))
    (Or.inl (by decide))

/-! ## Debug marking -/

theorem createGroupNode_congr (s : Object) (sReady : Option Condition) (o1 o2 : Object)
    (r : Option Condition) (env : Env) (hName : o1.Name = o2.Name)
    (hNs : o1.Namespace = o2.Namespace) (hConds : o1.Conditions = o2.Conditions) :
    createGroupNode s sReady o1 r env = createGroupNode s sReady o2 r env := by
  simp only [createGroupNode, readyStatusSeverityAndReasonUID, GetReadyCondition, hName, hNs,
    hConds]

theorem updateGroupNode_congr (s : Object) (sReady : Option Condition) (o1 o2 : Object)
    (r : Option Condition) (env : Env) (hName : o1.Name = o2.Name) :
    updateGroupNode s sReady o1 r env = updateGroupNode s sReady o2 r env := by
  simp only [updateGroupNode, hName]

theorem groupSiblings_sameStructure (od1 od2 : ObjectTree) (parent o1 o2 : Object)
    (r : Option Condition) (env : Env) (keys : List String)
    (hItems : od1.items = od2.items) (hOwn : od1.ownership = od2.ownership)
    (hName : o1.Name = o2.Name) (hNs : o1.Namespace = o2.Namespace)
    (hConds : o1.Conditions = o2.Conditions) :
    GroupOutcome.sameStructure (groupSiblings od1 parent o1 r env keys)
      (groupSiblings od2 parent o2 r env keys) := by
  induction keys with
  | nil => simp [groupSiblings, GroupOutcome.sameStructure]
  | cons k rest ih =>
    have hget : od1.GetObject k = od2.GetObject k := by
      simp [ObjectTree.GetObject, hItems]
    simp only [groupSiblings]
    rw [hget]
    split
    · exact ih
    · cases hs : od2.GetObject k with
      | none => simp [GroupOutcome.sameStructure]
      | some s =>
        simp only
        rw [updateGroupNode_congr s _ o1 o2 r env hName,
          createGroupNode_congr s _ o1 o2 r env hName hNs hConds]
        split
        · cases updateGroupNode s (Option.bind (some s) GetReadyCondition) o2 r env with
          | none => simp [GroupOutcome.sameStructure]
          | some s1 => simp [GroupOutcome.sameStructure, hItems, hOwn]
        · cases createGroupNode s (Option.bind (some s) GetReadyCondition) o2 r env with
          | none => simp [GroupOutcome.sameStructure]
          | some g =>
            simp [GroupOutcome.sameStructure, ObjectTree.remove, ObjectTree.addInner, hItems,
              hOwn]

theorem mapLookup_markDebug (od : ObjectTree) (obj : Object) (key : String)
    (h : key ≠ ShowObjectConditionsAnnotation) :
    mapLookup (markDebug od obj).Annotations key = mapLookup obj.Annotations key := by
  unfold markDebug addAnnotation
  split <;> simp [mapLookup_mapStore_other _ _ _ _ h]

theorem mapLookup_markMetaName_congr (o : AddObjectOptions) (x y : Object) (key : String)
    (h : mapLookup x.Annotations key = mapLookup y.Annotations key) :
    mapLookup (markMetaName o x).Annotations key =
      mapLookup (markMetaName o y).Annotations key := by
  unfold markMetaName addAnnotation
  split
  · by_cases hk : key = ObjectMetaNameAnnotation
    · subst hk
      simp [mapLookup_mapStore_same]
    · simp [mapLookup_mapStore_other _ _ _ _ hk, h]
  · exact h

theorem mapLookup_markGrouping_congr (od1 od2 : ObjectTree) (o : AddObjectOptions)
    (x y : Object) (key : String)
    (hopt : od1.options.DisableGroupObjects = od2.options.DisableGroupObjects)
    (h : mapLookup x.Annotations key = mapLookup y.Annotations key) :
    mapLookup (markGrouping od1 o x).Annotations key =
      mapLookup (markGrouping od2 o y).Annotations key := by
  unfold markGrouping addAnnotation
  rw [hopt]
  split
  · by_cases hk : key = GroupingObjectAnnotation
    · subst hk
      simp [mapLookup_mapStore_same]
    · simp [mapLookup_mapStore_other _ _ _ _ hk, h]
  · exact h

theorem marks_sameButShowConditions (od1 od2 : ObjectTree) (o : AddObjectOptions)
    (obj : Object)
    (hopt : od1.options.DisableGroupObjects = od2.options.DisableGroupObjects) :
    sameButShowConditions (markGrouping od1 o (markMetaName o (markDebug od1 obj)))
      (markGrouping od2 o (markMetaName o (markDebug od2 obj))) := by
  have h1 := marks_only_annotations od1 o obj
  have h2 := marks_only_annotations od2 o obj
  refine ⟨?_, ?_, ?_, ?_, ?_, ?_, ?_⟩
  · rw [h1, h2]
  · rw [h1, h2]
  · rw [h1, h2]
  · rw [h1, h2]
  · rw [h1, h2]
  · rw [h1, h2]
  · intro key hkey
    unfold getAnnotation
    apply mapLookup_markGrouping_congr _ _ _ _ _ _ hopt
    apply mapLookup_markMetaName_congr
    rw [mapLookup_markDebug od1 obj key hkey, mapLookup_markDebug od2 obj key hkey]

theorem sameButShowConditions_refl (o : Object) : sameButShowConditions o o :=
  ⟨rfl, rfl, rfl, rfl, rfl, rfl, fun _ _ => rfl⟩

/-- C20: for every tree, parent, object and options, two calls of `add` that
differ only in the `ShowOtherConditions` filter of the tree either both panic
or both return; the trees returned have the same ownership relation and the
same key set of `items`, hold the same item under every identity other than
that of the object, and the items they hold under the identity of the object
differ at most in the show-conditions annotation. -/
theorem add_filter_never_affects_structure (od : ObjectTree) (parent obj : Object)
    (opts : List AddObjectOption) (env : Env) (f1 f2 : String) :
    ((od.withFilter f1).add parent obj opts env = none ↔
      (od.withFilter f2).add parent obj opts env = none) ∧
    ∀ t1 t2, (od.withFilter f1).add parent obj opts env = some t1 →
      (od.withFilter f2).add parent obj opts env = some t2 →
      t1.ownership = t2.ownership ∧
      (∀ id, (t1.GetObject id).isSome = (t2.GetObject id).isSome) ∧
      (∀ id, id ≠ obj.UID → t1.GetObject id = t2.GetObject id) ∧
      (∀ o1 o2, t1.GetObject obj.UID = some o1 → t2.GetObject obj.UID = some o2 →
        sameButShowConditions o1 o2) := by
  have hstruct := groupSiblings_sameStructure (od.withFilter f1) (od.withFilter f2) parent
    (markMetaName (AddObjectOptions.ApplyOptions {} opts) (markDebug (od.withFilter f1) obj))
    (markMetaName (AddObjectOptions.ApplyOptions {} opts) (markDebug (od.withFilter f2) obj))
    (GetReadyCondition obj) env (od.childKeys parent.UID env.order) rfl rfl
    (by simp) (by simp) (by simp)
  have hmarks := marks_sameButShowConditions (od.withFilter f1) (od.withFilter f2)
    (AddObjectOptions.ApplyOptions {} opts) obj rfl
  have hecho : isEcho (od.withFilter f1) (AddObjectOptions.ApplyOptions {} opts)
      (GetReadyCondition parent) (GetReadyCondition obj) =
      isEcho (od.withFilter f2) (AddObjectOptions.ApplyOptions {} opts)
      (GetReadyCondition parent) (GetReadyCondition obj) := rfl
  have hkeys : ∀ f, (od.withFilter f).childKeys parent.UID env.order =
      od.childKeys parent.UID env.order := fun _ => rfl
  unfold ObjectTree.add
  simp only [hkeys]
  rw [hecho]
  by_cases he : isEcho (od.withFilter f2) (AddObjectOptions.ApplyOptions {} opts)
      (GetReadyCondition parent) (GetReadyCondition obj) = true
  · simp only [he, if_true]
    refine ⟨by simp, ?_⟩
    intro t1 t2 h1 h2
    simp only [Option.some.injEq] at h1 h2
    subst h1 h2
    refine ⟨rfl, fun _ => rfl, fun _ _ => rfl, ?_⟩
    intro o1 o2 ho1 ho2
    have : o1 = o2 := by
      have h := ho1.symm.trans ho2
      simpa [ObjectTree.GetObject, ObjectTree.withFilter] using h
    rw [this]
    exact sameButShowConditions_refl o2
  · simp only [he]
    by_cases hg : IsGroupingObject parent = true
    · simp only [hg, if_true]
      generalize groupSiblings (od.withFilter f1) parent _ _ env _ = out1 at hstruct ⊢
      generalize groupSiblings (od.withFilter f2) parent _ _ env _ = out2 at hstruct ⊢
      cases out1 <;> cases out2 <;> simp only [GroupOutcome.sameStructure] at hstruct
      · refine ⟨by simp, ?_⟩
        intro t1 t2 h1 h2
        simp only [Bool.false_eq_true, if_false, Option.some.injEq] at h1 h2
        subst h1 h2
        refine ⟨by funext p; simp [ObjectTree.addInner, ObjectTree.withFilter], ?_, ?_, ?_⟩
        · intro id
          by_cases hid : id = obj.UID <;>
            simp [ObjectTree.GetObject, ObjectTree.addInner, ObjectTree.withFilter, hid]
        · intro id hid
          simp [ObjectTree.GetObject, ObjectTree.addInner, ObjectTree.withFilter, hid]
        · intro o1 o2 ho1 ho2
          simp [ObjectTree.GetObject, ObjectTree.addInner] at ho1 ho2
          rw [← ho1, ← ho2]
          exact hmarks
      · rename_i m1 m2
        refine ⟨by simp, ?_⟩
        intro t1 t2 h1 h2
        simp only [Bool.false_eq_true, if_false, Option.some.injEq] at h1 h2
        subst h1 h2
        refine ⟨hstruct.2, ?_, ?_, ?_⟩
        · intro id
          simp [ObjectTree.GetObject, hstruct.1]
        · intro id _
          simp [ObjectTree.GetObject, hstruct.1]
        · intro o1 o2 ho1 ho2
          have : o1 = o2 := by
            have h := ho1.symm.trans (by simpa [ObjectTree.GetObject, hstruct.1] using ho2)
            simpa using h
          rw [this]
          exact sameButShowConditions_refl o2
      · simp
    · simp only [hg]
      refine ⟨by simp, ?_⟩
      intro t1 t2 h1 h2
      simp only [Bool.false_eq_true, if_false, Option.some.injEq] at h1 h2
      subst h1 h2
      refine ⟨by funext p; simp [ObjectTree.addInner, ObjectTree.withFilter], ?_, ?_, ?_⟩
      · intro id
        by_cases hid : id = obj.UID <;>
          simp [ObjectTree.GetObject, ObjectTree.addInner, ObjectTree.withFilter, hid]
      · intro id hid
        simp [ObjectTree.GetObject, ObjectTree.addInner, ObjectTree.withFilter, hid]
      · intro o1 o2 ho1 ho2
        simp [ObjectTree.GetObject, ObjectTree.addInner] at ho1 ho2
        rw [← ho1, ← ho2]
        exact hmarks

/-! ## Invariants of sequences of add calls -/

theorem TreeInv.mono (done done1 : List String) (od : ObjectTree) (h : TreeInv done od)
    (hsub : ∀ x ∈ done, x ∈ done1) : TreeInv done1 od :=
  ⟨h.consistent, h.keyed, h.singleOwner, fun p c hc => hsub c (h.known p c hc)⟩

theorem TreeInv.empty (options : objectTreeOptions) : TreeInv [] (newObjectTree options) := by
  refine ⟨?_, ?_, ?_, ?_⟩ <;> intros <;>
    simp_all [newObjectTree, UIDSet.empty, ObjectTree.GetObject]

theorem mem_ownership_addInner (od : ObjectTree) (parent obj : Object) (p c : String) :
    c ∈ ((od.addInner parent obj).ownership p).elems ↔
      (p = parent.UID ∧ c = obj.UID) ∨ c ∈ (od.ownership p).elems := by
  by_cases hp : p = parent.UID
  · subst hp
    simp [ObjectTree.addInner, UIDSet.mem_insert]
  · simp [ObjectTree.addInner, hp]

theorem mem_ownership_remove (od : ObjectTree) (parent s : Object) (p c : String) :
    c ∈ ((od.remove parent s).ownership p).elems ↔
      c ∈ (od.ownership p).elems ∧ ¬ (p = parent.UID ∧ c = s.UID) := by
  by_cases hp : p = parent.UID
  · subst hp
    simp [ObjectTree.remove, UIDSet.mem_erase]
  · simp [ObjectTree.remove, hp]

theorem TreeInv.addInner (done : List String) (od : ObjectTree) (parent obj : Object)
    (h : TreeInv done od) (hnew : obj.UID ∉ done) :
    TreeInv (obj.UID :: done) (od.addInner parent obj) := by
  have hnot : ∀ p, obj.UID ∉ (od.ownership p).elems := fun p hc => hnew (h.known p _ hc)
  refine ⟨?_, ?_, ?_, ?_⟩
  · intro p c hc
    rw [mem_ownership_addInner] at hc
    by_cases hco : c = obj.UID
    · exact ⟨obj, by simp [ObjectTree.GetObject, ObjectTree.addInner, hco]⟩
    · rcases hc with ⟨_, hc⟩ | hc
      · exact absurd hc hco
      · obtain ⟨o, ho⟩ := h.consistent p c hc
        exact ⟨o, by simpa [ObjectTree.GetObject, ObjectTree.addInner, hco] using ho⟩
  · intro k o hk
    by_cases hko : k = obj.UID
    · simp [ObjectTree.GetObject, ObjectTree.addInner, hko] at hk
      rw [← hk, hko]
    · simp only [ObjectTree.GetObject, ObjectTree.addInner, hko, if_false] at hk
      exact h.keyed k o hk
  · intro p1 p2 c h1 h2
    rw [mem_ownership_addInner] at h1 h2
    rcases h1 with ⟨hp1, hc1⟩ | h1
    · rcases h2 with ⟨hp2, _⟩ | h2
      · rw [hp1, hp2]
      · exact absurd (hc1 ▸ h2) (hnot p2)
    · rcases h2 with ⟨_, hc2⟩ | h2
      · exact absurd (hc2 ▸ h1) (hnot p1)
      · exact h.singleOwner p1 p2 c h1 h2
  · intro p c hc
    rw [mem_ownership_addInner] at hc
    rcases hc with ⟨_, hc⟩ | hc
    · rw [hc]; exact List.mem_cons_self _ _
    · exact List.mem_cons_of_mem _ (h.known p c hc)

theorem TreeInv.update (done : List String) (od : ObjectTree) (k : String) (s1 : Object)
    (h : TreeInv done od) (hUID : s1.UID = k) :
    TreeInv done { od with items := fun id => if id = k then some s1 else od.items id } := by
  refine ⟨?_, ?_, h.singleOwner, h.known⟩
  · intro p c hc
    by_cases hck : c = k
    · exact ⟨s1, by simp [ObjectTree.GetObject, hck]⟩
    · obtain ⟨o, ho⟩ := h.consistent p c hc
      exact ⟨o, by simpa [ObjectTree.GetObject, hck] using ho⟩
  · intro j o hj
    by_cases hjk : j = k
    · simp [ObjectTree.GetObject, hjk] at hj
      rw [← hj, hUID, hjk]
    · simp only [ObjectTree.GetObject, hjk, if_false] at hj
      exact h.keyed j o hj

theorem TreeInv.replace (done : List String) (od : ObjectTree) (parent s g : Object)
    (h : TreeInv done od) (hs : s.UID ∈ (od.ownership parent.UID).elems)
    (hnew : g.UID ∉ done) :
    TreeInv (g.UID :: done) ((od.addInner parent g).remove parent s) := by
  have hadd := TreeInv.addInner done od parent g h hnew
  have hgs : g.UID ≠ s.UID := fun hgs => hnew (h.known _ _ (hgs ▸ hs))
  refine ⟨?_, ?_, ?_, ?_⟩
  · intro p c hc
    rw [mem_ownership_remove] at hc
    obtain ⟨o, ho⟩ := hadd.consistent p c hc.1
    have hcs : c ≠ s.UID := by
      intro hcs
      subst hcs
      have hc1 := hc.1
      rw [mem_ownership_addInner] at hc1
      rcases hc1 with ⟨_, hc1⟩ | hc1
      · exact hgs hc1.symm
      · exact hc.2 ⟨h.singleOwner _ _ _ hc1 hs, rfl⟩
    exact ⟨o, by simpa [ObjectTree.GetObject, ObjectTree.remove, hcs] using ho⟩
  · intro k o hk
    by_cases hks : k = s.UID
    · simp [ObjectTree.GetObject, ObjectTree.remove, hks] at hk
    · have hk1 : (od.addInner parent g).GetObject k = some o := by
        simpa [ObjectTree.GetObject, ObjectTree.remove, hks] using hk
      exact hadd.keyed k o hk1
  · intro p1 p2 c h1 h2
    rw [mem_ownership_remove] at h1 h2
    exact hadd.singleOwner p1 p2 c h1.1 h2.1
  · intro p c hc
    rw [mem_ownership_remove] at hc
    exact hadd.known p c hc.1

theorem matchingSibling_none (od : ObjectTree) (objReady : Option Condition)
    (keys : List String) (h : od.matchingSibling objReady keys = none) :
    ∀ k ∈ keys, hasSameReadyStatusSeverityAndReason objReady
      ((od.GetObject k).bind GetReadyCondition) = false := by
  induction keys with
  | nil => intro k hk; simp at hk
  | cons j rest ih =>
    by_cases hj : hasSameReadyStatusSeverityAndReason objReady
        ((od.GetObject j).bind GetReadyCondition) = true
    · simp [ObjectTree.matchingSibling, hj] at h
    · simp only [ObjectTree.matchingSibling, hj] at h
      intro k hk
      rcases List.mem_cons.mp hk with hk | hk
      · rw [hk]; simpa using hj
      · exact ih h k hk

/-- One call of `add` whose object and synthesized group identity are new
returns and keeps the invariant. -/
theorem TreeInv.after_add (done : List String) (od : ObjectTree) (parent obj : Object)
    (opts : List AddObjectOption) (env : Env) (h : TreeInv done od)
    (hobj : obj.UID ∉ done) (hgroup : groupNodeUID obj env.rand ∉ done) :
    ∃ od1, od.add parent obj opts env = some od1 ∧
      TreeInv (obj.UID :: groupNodeUID obj env.rand :: done) od1 := by
  have hsub1 : ∀ x ∈ done, x ∈ obj.UID :: groupNodeUID obj env.rand :: done :=
    fun x hx => List.mem_cons_of_mem _ (List.mem_cons_of_mem _ hx)
  by_cases he : isEcho od (AddObjectOptions.ApplyOptions {} opts) (GetReadyCondition parent)
      (GetReadyCondition obj) = true
  · refine ⟨od, ?_, h.mono _ _ _ hsub1⟩
    unfold ObjectTree.add
    simp only [he, if_true]
  · simp only [Bool.not_eq_true] at he
    have hplain : ∀ hNoMerge : (IsGroupingObject parent = false ∨
        ∀ k ∈ (od.ownership parent.UID).elems,
          hasSameReadyStatusSeverityAndReason (GetReadyCondition obj)
            ((od.GetObject k).bind GetReadyCondition) = false),
        ∃ od1, od.add parent obj opts env = some od1 ∧
          TreeInv (obj.UID :: groupNodeUID obj env.rand :: done) od1 := by
      intro hNoMerge
      refine ⟨_, add_eq_addInner od parent obj opts env he hNoMerge, ?_⟩
      have hinv := TreeInv.addInner done od parent
        (markGrouping od (AddObjectOptions.ApplyOptions {} opts)
          (markMetaName (AddObjectOptions.ApplyOptions {} opts) (markDebug od obj))) h
        (by simpa using hobj)
      refine hinv.mono _ _ _ ?_
      intro x hx
      simp only [markGrouping_UID, markMetaName_UID, markDebug_UID, List.mem_cons] at hx
      rcases hx with hx | hx
      · rw [hx]; exact List.mem_cons_self _ _
      · exact hsub1 x hx
    by_cases hg : IsGroupingObject parent = true
    · cases hm : od.matchingSibling (GetReadyCondition obj)
          (od.childKeys parent.UID env.order) with
      | none =>
        apply hplain
        right
        intro k hk
        exact matchingSibling_none _ _ _ hm k ((env.order.perm _).mem_iff.mpr hk)
      | some k =>
        obtain ⟨hkmem, hsame⟩ := matchingSibling_some _ _ _ _ hm
        have hkown : k ∈ (od.ownership parent.UID).elems :=
          (env.order.perm _).mem_iff.mp hkmem
        obtain ⟨s, hs⟩ := h.consistent _ _ hkown
        have hsUID := h.keyed k s hs
        rw [hs] at hsame
        simp only [Option.some_bind] at hsame
        by_cases hgo : IsGroupObject s = true
        · obtain ⟨s1, hu, hUID1, _⟩ := updateGroupNode_spec s
            (markMetaName (AddObjectOptions.ApplyOptions {} opts) (markDebug od obj))
            (GetReadyCondition obj) env hsame
          refine ⟨_, add_eq_update od parent obj opts env k s s1 he hg hm hs hgo hu, ?_⟩
          exact (TreeInv.update done od k s1 h (hUID1.trans hsUID)).mono _ _ _ hsub1
        · simp only [Bool.not_eq_true] at hgo
          obtain ⟨g, hc, hgUID, _⟩ := createGroupNode_spec s
            (markMetaName (AddObjectOptions.ApplyOptions {} opts) (markDebug od obj))
            (GetReadyCondition s) (GetReadyCondition obj) env hsame
            (fun r hr => GetReadyCondition_type obj r hr)
          rw [groupNodeUID_marks] at hgUID
          refine ⟨_, add_eq_create od parent obj opts env k s g he hg hm hs hgo hc, ?_⟩
          have hinv := TreeInv.replace done od parent s g h (hsUID ▸ hkown)
            (by rw [hgUID]; exact hgroup)
          refine hinv.mono _ _ _ ?_
          intro x hx
          rw [hgUID] at hx
          exact List.mem_cons_of_mem _ hx
    · exact hplain (Or.inl (by simpa using hg))

/-- A sequence of calls whose identities are new and pairwise distinct returns
and keeps the invariant. -/
theorem TreeInv.after_runAdds (cs : List AddCall) :
    ∀ (done : List String) (od : ObjectTree), TreeInv done od →
      (callIdentities cs).Nodup → (∀ x ∈ callIdentities cs, x ∉ done) →
      ∃ od1 done1, runAdds od cs = some od1 ∧ TreeInv done1 od1 := by
  induction cs with
  | nil =>
    intro done od h _ _
    exact ⟨od, done, rfl, h⟩
  | cons c rest ih =>
    intro done od h hnodup hnew
    simp only [callIdentities, List.nodup_cons, List.mem_cons, not_or] at hnodup
    obtain ⟨⟨hog, horest⟩, hgrest, hrest⟩ := hnodup
    obtain ⟨od1, hadd, hinv⟩ := TreeInv.after_add done od c.parent c.obj c.opts c.env h
      (hnew _ (by simp [callIdentities])) (hnew _ (by simp [callIdentities]))
    have hnew1 : ∀ x ∈ callIdentities rest,
        x ∉ c.obj.UID :: groupNodeUID c.obj c.env.rand :: done := by
      intro x hx hmem
      rcases List.mem_cons.mp hmem with hmem | hmem
      · exact horest (hmem ▸ hx)
      · rcases List.mem_cons.mp hmem with hmem | hmem
        · exact hgrest (hmem ▸ hx)
        · exact hnew x (by simp [callIdentities, hx]) hmem
    obtain ⟨od2, done2, hrun, hinv2⟩ := ih _ od1 hinv hrest hnew1
    exact ⟨od2, done2, by simp only [runAdds, hadd, hrun], hinv2⟩

/-- C12: starting from the empty tree, every sequence of calls of `add` in
which the identities of the objects and the identities synthesized for group
nodes are pairwise distinct (each resource identity is inserted at most once
and the synthesized identities are fresh) returns, and in the tree it returns
every identity that occurs in a child set of `ownership` is a key of
`items`. -/
theorem runAdds_items_ownership_consistent (options : objectTreeOptions)
    (cs : List AddCall) (hFresh : (callIdentities cs).Nodup) :
    ∃ od, runAdds (newObjectTree options) cs = some od ∧
      ∀ p c, c ∈ (od.ownership p).elems → (od.GetObject c).isSome = true := by
  obtain ⟨od, done, hrun, hinv⟩ := TreeInv.after_runAdds cs [] (newObjectTree options)
    (TreeInv.empty options) hFresh (fun x _ hx => by simp at hx)
  refine ⟨od, hrun, ?_⟩
  intro p c hc
  obtain ⟨o, ho⟩ := hinv.consistent p c hc
  simp [ho]

theorem runAdds_items_ownership_consistent_witness :
    ∃ od, runAdds (newObjectTree {}) sampleCalls = some od ∧
      ∀ p c, c ∈ (od.ownership p).elems → (od.GetObject c).isSome = true :=
  runAdds_items_ownership_consistent {} sampleCalls (by decide)

/-- C13 (amended): starting from the empty tree, every sequence of calls of
`add` in which the identities of the objects and the identities synthesized
for group nodes are pairwise distinct returns, and in the tree it returns
every identity is a member of the child set of at most one parent. -/
theorem runAdds_single_owner (options : objectTreeOptions)
    (cs : List AddCall) (hFresh : (callIdentities cs).Nodup) :
    ∃ od, runAdds (newObjectTree options) cs = some od ∧
      ∀ p1 p2 c, c ∈ (od.ownership p1).elems → c ∈ (od.ownership p2).elems → p1 = p2 := by
  obtain ⟨od, done, hrun, hinv⟩ := TreeInv.after_runAdds cs [] (newObjectTree options)
    (TreeInv.empty options) hFresh (fun x _ hx => by simp at hx)
  exact ⟨od, hrun, hinv.singleOwner⟩

theorem runAdds_single_owner_witness :
    ∃ od, runAdds (newObjectTree {}) sampleCalls = some od ∧
      ∀ p1 p2 c, c ∈ (od.ownership p1).elems → c ∈ (od.ownership p2).elems → p1 = p2 :=
  runAdds_single_owner {} sampleCalls (by decide)

/-- C13 as stated fails: after the same machine was added under
`plainParent` and then under `otherParent`, its identity is a member of the
child sets of both parents; `add` links the object under the second parent
without unlinking it from the first. -/
theorem runAdds_single_owner_counterexample :
    (runAdds (newObjectTree {}) twoParentCalls).map
        (fun od => ((od.ownership plainParent.UID).elems, (od.ownership otherParent.UID).elems)) =
      some (["uid-m0"], ["uid-m0"]) ∧
    plainParent.UID ≠ otherParent.UID := by
  decide

/-! ## Classification and truncation of getCond -/

/-- C14: `getCond` gives a present condition with status True the colour
green whatever the severity, and a condition with status False or Unknown the
colour red for the severity Error, yellow for Warning and white for every
other severity; the row of a node without readiness condition is printed in
gray with empty status, severity and reason and an empty age. -/
theorem getCond_classification (env : RenderEnv) :
    (∀ c : Condition,
      (getCond env (some { c with Status := ConditionTrue })).readyColor = some Color.green) ∧
    (∀ c : Condition,
      (getCond env (some { c with Status := ConditionFalse })).readyColor =
        some (if c.Severity = ConditionSeverityError then Color.red
          else if c.Severity = ConditionSeverityWarning then Color.yellow
          else Color.white) ∧
      (getCond env (some { c with Status := ConditionUnknown })).readyColor =
        some (if c.Severity = ConditionSeverityError then Color.red
          else if c.Severity = ConditionSeverityWarning then Color.yellow
          else Color.white)) ∧
    (∀ (pfx : String) (bolds : Nat) (obj : Object), GetReadyCondition obj = none →
      ∃ row, nodeRow env pfx bolds obj = some row ∧
        row.status = env.sprint bolds Color.gray "" ∧
        row.severity = env.sprint bolds Color.gray "" ∧
        row.reason = env.sprint bolds Color.gray "" ∧
        row.age = "") := by
  refine ⟨?_, ?_, ?_⟩
  · intro c
    simp [getCond]
  · intro c
    have hwe : ConditionSeverityWarning ≠ ConditionSeverityError := by decide
    by_cases h1 : c.Severity = ConditionSeverityError <;>
      by_cases h2 : c.Severity = ConditionSeverityWarning <;>
      simp [getCond, h1, h2, hwe, ConditionFalse, ConditionTrue, ConditionUnknown]
  · intro pfx bolds obj hready
    by_cases hg : IsGroupObject obj = true
    · by_cases hl : (stringsSplit (GetGroupItems obj) GroupItemsSeparator).length ≤ 2
      · simp [nodeRow, hready, addRow, hg, hl]
      · simp [nodeRow, hready, addRow, hg, hl]
    · simp [nodeRow, hready, addRow, hg]

set_option maxRecDepth 100000 in
/-- C15: a message of 60 characters that fill two bytes each is not longer
than 100 characters, yet `getCond` renders only its first 50 characters,
which are its first 100 bytes, followed by the marker; and of a message of
101 characters whose 100th character fills two bytes it renders the first 99
characters and the first byte of the 100th, not the first 100 characters. -/
theorem getCond_truncates_by_bytes :
    accentedMessage.length = 60 ∧
    (getCond {} (some { Message := accentedMessage })).message =
      utf8Bytes (String.mk (List.replicate 50 'é') ++ " ...") ∧
    (getCond {} (some { Message := accentedMessage })).message ≠ utf8Bytes accentedMessage ∧
    straddlingMessage.length = 101 ∧
    (getCond {} (some { Message := straddlingMessage })).message =
      utf8Bytes (String.mk (List.replicate 99 'a')) ++ [195] ++ utf8Bytes " ..." ∧
    (getCond {} (some { Message := straddlingMessage })).message ≠
      utf8Bytes (String.mk (List.replicate 99 'a' ++ ['é']) ++ " ...") := by
  decide

/-! ## Insertion sort of sort.Slice -/

theorem sinkLeft_perm {α : Type} (less : α → α → Bool) (x : α) (l : List α) :
    (sinkLeft less x l).Perm (x :: l) := by
  induction l with
  | nil => exact List.Perm.refl _
  | cons e rest ih =>
    by_cases h : less x e = true
    · simp only [sinkLeft, h, if_true]
      exact (List.Perm.cons e ih).trans (List.Perm.swap x e rest)
    · simp only [sinkLeft, h, Bool.false_eq_true, if_false]
      exact List.Perm.refl _

theorem insertionSortGo_perm {α : Type} (less : α → α → Bool) (l : List α) :
    ∀ sorted : List α, (insertionSortGo less sorted l).Perm (l.reverse ++ sorted) := by
  induction l with
  | nil => intro sorted; exact List.Perm.refl _
  | cons x rest ih =>
    intro sorted
    simp only [insertionSortGo, List.reverse_cons, List.append_assoc, List.singleton_append]
    exact (ih _).trans (List.Perm.append_left _ (sinkLeft_perm less x sorted))

theorem sortSlice_perm {α : Type} (less : α → α → Bool) (l : List α) :
    (sortSlice less l).Perm l := by
  unfold sortSlice
  refine (List.reverse_perm _).trans ?_
  refine (insertionSortGo_perm less l []).trans ?_
  simp only [List.append_nil]
  exact List.reverse_perm l

theorem sinkLeft_sorted {α : Type} (less : α → α → Bool)
    (hasymm : ∀ a b, less a b = true → less b a = false)
    (htrans : ∀ a b c, less b a = false → less c b = false → less c a = false)
    (x : α) (l : List α) (h : l.Pairwise (fun a b => less a b = false)) :
    (sinkLeft less x l).Pairwise (fun a b => less a b = false) := by
  induction l with
  | nil => simp [sinkLeft]
  | cons e rest ih =>
    rw [List.pairwise_cons] at h
    by_cases hx : less x e = true
    · simp only [sinkLeft, hx, if_true]
      rw [List.pairwise_cons]
      refine ⟨?_, ih h.2⟩
      intro y hy
      rcases List.mem_cons.mp ((sinkLeft_perm less x rest).mem_iff.mp hy) with hy | hy
      · rw [hy]; exact hasymm x e hx
      · exact h.1 y hy
    · simp only [sinkLeft, hx, Bool.false_eq_true, if_false]
      have hxe : less x e = false := by simpa using hx
      rw [List.pairwise_cons]
      refine ⟨?_, List.pairwise_cons.mpr h⟩
      intro y hy
      rcases List.mem_cons.mp hy with hy | hy
      · rw [hy]; exact hxe
      · exact htrans y e x (h.1 y hy) hxe

theorem insertionSortGo_sorted {α : Type} (less : α → α → Bool)
    (hasymm : ∀ a b, less a b = true → less b a = false)
    (htrans : ∀ a b c, less b a = false → less c b = false → less c a = false)
    (l : List α) :
    ∀ sorted : List α, sorted.Pairwise (fun a b => less a b = false) →
      (insertionSortGo less sorted l).Pairwise (fun a b => less a b = false) := by
  induction l with
  | nil => intro sorted h; exact h
  | cons x rest ih =>
    intro sorted h
    exact ih _ (sinkLeft_sorted less hasymm htrans x sorted h)

/-- The result of `sortSlice` is in non-decreasing order: no element is less
than an element before it. -/
theorem sortSlice_sorted {α : Type} (less : α → α → Bool)
    (hasymm : ∀ a b, less a b = true → less b a = false)
    (htrans : ∀ a b c, less b a = false → less c b = false → less c a = false)
    (l : List α) : (sortSlice less l).Pairwise (fun a b => less b a = false) := by
  unfold sortSlice
  rw [List.pairwise_reverse]
  exact insertionSortGo_sorted less hasymm htrans l [] List.Pairwise.nil

theorem sortSlice_byKey_sorted {α : Type} (key : α → String) (l : List α) :
    (sortSlice (fun a b => stringLess (key a) (key b)) l).Pairwise
      (fun a b => stringLe (key a) (key b)) := by
  apply sortSlice_sorted
  · intro a b h
    exact lessChars_asymm _ _ h
  · intro a b c hab hbc
    exact lessChars_le_trans _ _ _ hab hbc

/-! ## Order of the children at render time -/

theorem allPresent_visitOrder (env : RenderEnv) (od : ObjectTree) (obj : Object)
    (chs : List Object)
    (h : allPresent (od.GetObjectsByParent obj.UID env.order) = some chs) :
    visitOrder env od obj =
      some (sortSlice (fun a b => stringLess (getName env a) (getName env b)) chs) := by
  simp only [visitOrder, h]

/-- C16: when every child of a node is present, `treeViewInner` visits them
in the order `visitOrder`: a permutation of `GetObjectsByParent` in which no
child has a rendered name less than the name of a child before it; the loop
over the children visits them one after another in that order, the rows of a
child before the rows of the next one, and `treeViewInner` returns the row of
the node, the rows of its conditions and then the rows of that loop. -/
theorem treeViewInner_visits_sorted_children (env : RenderEnv) (od : ObjectTree)
    (obj : Object) (chs : List Object)
    (hPresent : allPresent (od.GetObjectsByParent obj.UID env.order) = some chs) :
    ∃ visited, visitOrder env od obj = some visited ∧
      visited.Perm chs ∧
      visited.Pairwise (fun a b => stringLe (getName env a) (getName env b)) ∧
      (∀ (visit : String → Nat → Object → Option (List Row × Nat)) (pfx : String)
          (bolds : Nat) (child next : Object) (rest : List Object),
        visitChildren visit pfx bolds [] = some ([], bolds) ∧
        visitChildren visit pfx bolds [child] = visit (pfx ++ lastElemPrefix) bolds child ∧
        visitChildren visit pfx bolds (child :: next :: rest) =
          (visit (pfx ++ firstElemPrefix) bolds child).bind (fun r =>
            (visitChildren visit pfx r.2 (next :: rest)).map
              (fun r1 => (r.1 ++ r1.1, r1.2)))) ∧
      (∀ (fuel : Nat) (pfx : String) (bolds : Nat) (row : Row) (condRows : List Row),
        nodeRow env pfx (if IsGroupObject obj then bolds + 1 else bolds) obj = some row →
        conditionRows env pfx (if IsGroupObject obj then bolds + 1 else bolds)
          (od.GetObjectsByParent obj.UID env.order).length obj = some condRows →
        treeViewInner env od (fuel + 1) pfx bolds obj =
          (visitChildren (treeViewInner env od fuel) pfx
            (if IsGroupObject obj then bolds + 1 else bolds) visited).map
            (fun r => (row :: condRows ++ r.1, r.2))) := by
  refine ⟨_, allPresent_visitOrder env od obj chs hPresent, sortSlice_perm _ _,
    sortSlice_byKey_sorted (getName env) chs, ?_, ?_⟩
  · intro visit pfx bolds child next rest
    refine ⟨rfl, rfl, ?_⟩
    simp only [visitChildren]
    cases visit (pfx ++ firstElemPrefix) bolds child with
    | none => rfl
    | some r =>
      obtain ⟨rows, bolds1⟩ := r
      simp only [Option.some_bind]
      cases visitChildren visit pfx bolds1 (next :: rest) with
      | none => rfl
      | some r1 => rfl
  · intro fuel pfx bolds row condRows hrow hcond
    simp only [treeViewInner, hrow, hcond, allPresent_visitOrder env od obj chs hPresent]
    cases visitChildren (treeViewInner env od fuel) pfx
        (if IsGroupObject obj then bolds + 1 else bolds)
        (sortSlice (fun a b => stringLess (getName env a) (getName env b)) chs) with
    | none => rfl
    | some r => rfl

theorem treeViewInner_visits_sorted_children_witness :
    ∃ visited, visitOrder {} twoMachineTree plainParent = some visited ∧
      visited.Perm [machine "b" "uid-b" (crashed 10 "boom"), machine "a" "uid-a" (readyTrue 20)] ∧
      visited.Pairwise (fun a b => stringLe (getName {} a) (getName {} b)) ∧
      (∀ (visit : String → Nat → Object → Option (List Row × Nat)) (pfx : String)
          (bolds : Nat) (child next : Object) (rest : List Object),
        visitChildren visit pfx bolds [] = some ([], bolds) ∧
        visitChildren visit pfx bolds [child] = visit (pfx ++ lastElemPrefix) bolds child ∧
        visitChildren visit pfx bolds (child :: next :: rest) =
          (visit (pfx ++ firstElemPrefix) bolds child).bind (fun r =>
            (visitChildren visit pfx r.2 (next :: rest)).map
              (fun r1 => (r.1 ++ r1.1, r1.2)))) ∧
      (∀ (fuel : Nat) (pfx : String) (bolds : Nat) (row : Row) (condRows : List Row),
        nodeRow {} pfx (if IsGroupObject plainParent then bolds + 1 else bolds) plainParent =
          some row →
        conditionRows {} pfx (if IsGroupObject plainParent then bolds + 1 else bolds)
          (twoMachineTree.GetObjectsByParent plainParent.UID
            ({} : RenderEnv).order).length plainParent = some condRows →
        treeViewInner {} twoMachineTree (fuel + 1) pfx bolds plainParent =
          (visitChildren (treeViewInner {} twoMachineTree fuel) pfx
            (if IsGroupObject plainParent then bolds + 1 else bolds) visited).map
            (fun r => (row :: condRows ++ r.1, r.2))) :=
  treeViewInner_visits_sorted_children {} twoMachineTree plainParent
    [machine "b" "uid-b" (crashed 10 "boom"), machine "a" "uid-a" (readyTrue 20)] (by decide)

/-! ## Rows of the other conditions -/

theorem getCond_readyColor_some (env : RenderEnv) (c : Condition) :
    ∃ color, (getCond env (some c)).readyColor = some color := by
  simp only [getCond]
  split
  · exact ⟨_, rfl⟩
  · split
    · split
      · exact ⟨_, rfl⟩
      · split <;> exact ⟨_, rfl⟩
    · exact ⟨_, rfl⟩

theorem conditionRow_some (env : RenderEnv) (pfx : String) (bolds children total i : Nat)
    (c : Condition) : ∃ row, conditionRow env pfx bolds children total i c = some row := by
  obtain ⟨color, hcolor⟩ := getCond_readyColor_some env c
  simp only [conditionRow, addRow, hcolor]
  exact ⟨_, rfl⟩

theorem conditionRowsFrom_spec (env : RenderEnv) (pfx : String) (bolds children total : Nat)
    (conds : List Condition) :
    ∀ i, ∃ rows, conditionRowsFrom env pfx bolds children total i conds = some rows ∧
      rows.length = conds.length ∧
      ∀ j c, conds[j]? = some c →
        rows[j]? = conditionRow env pfx bolds children total (i + j) c := by
  induction conds with
  | nil =>
    intro i
    exact ⟨[], rfl, rfl, fun j c h => by simp at h⟩
  | cons c rest ih =>
    intro i
    obtain ⟨row, hrow⟩ := conditionRow_some env pfx bolds children total i c
    obtain ⟨rows, hrows, hlen, hget⟩ := ih (i + 1)
    refine ⟨row :: rows, by simp only [conditionRowsFrom, hrow, hrows], by simp [hlen], ?_⟩
    intro j d hj
    cases j with
    | zero =>
      simp only [List.getElem?_cons_zero, Option.some.injEq] at hj
      subst hj
      simp [hrow]
    | succ j =>
      simp only [List.getElem?_cons_succ] at hj ⊢
      rw [hget j d hj]
      congr 1
      omega

/-- The row of a condition, cell by cell: the printed prefix and the type of
the condition, the status, severity and reason in the colour `color` of the
condition, the age and the message cut by bytes. -/
theorem conditionRow_cells (env : RenderEnv) (pfx : String) (bolds children total i : Nat)
    (c : Condition) (color : Color)
    (hcolor : color =
      if c.Status = ConditionTrue then Color.green
      else if c.Status = ConditionFalse ∨ c.Status = ConditionUnknown then
        if c.Severity = ConditionSeverityError then Color.red
        else if c.Severity = ConditionSeverityWarning then Color.yellow
        else Color.white
      else Color.gray) :
    conditionRow env pfx bolds children total i c =
      some { name :=
               env.sprint bolds Color.gray (printPrefix
                 (if i = total - 1 then
                   pfx ++ (if children > 0 then pipe else "  ") ++ stringsRepeat " " 10 ++
                     lastElemPrefix
                 else
                   pfx ++ (if children > 0 then pipe else "  ") ++ stringsRepeat " " 10 ++
                     firstElemPrefix)) ++
               env.sprint bolds Color.cyan c.Type_
             status := env.sprint bolds color c.Status
             severity := env.sprint bolds color c.Severity
             reason := env.sprint bolds color c.Reason
             age := env.humanDuration (env.now - c.LastTransitionTime)
             message :=
               if (utf8Bytes c.Message).length > 100 then
                 (utf8Bytes c.Message).take 100 ++ utf8Bytes " ..."
               else utf8Bytes c.Message } := by
  subst hcolor
  simp only [conditionRow, addRow, getCond, truncateMessage]
  split_ifs <;> rfl

theorem nodeRow_some (env : RenderEnv) (pfx : String) (bolds : Nat) (obj : Object) :
    ∃ row, nodeRow env pfx bolds obj = some row := by
  unfold nodeRow
  cases hready : GetReadyCondition obj with
  | none =>
    simp only [addRow]
    split_ifs <;> exact ⟨_, rfl⟩
  | some ready =>
    obtain ⟨color, hcolor⟩ := getCond_readyColor_some env ready
    simp only [addRow]
    split_ifs <;> simp only [hcolor] <;> exact ⟨_, rfl⟩

/-- C19: `GetOtherConditions` returns a permutation of the conditions of the
object whose type is not Ready, in which no condition has a type less than
the type of a condition before it; and for a node that carries the
show-conditions marker `treeViewInner` adds, after the row of the node and
before the rows of its children, exactly one row per such condition, in that
order.  The row of the condition of index `i` shows, after the printed prefix
(the prefix of the node, the bar or blanks of the siblings, the filler and the
glyph of the last condition or of one that is not the last), the type of the
condition, then its status, severity and reason in the colour of its
classification, its age and its message. -/
theorem treeViewInner_other_conditions (env : RenderEnv) (od : ObjectTree) (obj : Object)
    (hShow : IsShowConditionsObject obj = true) :
    (GetOtherConditions obj).Perm
      (obj.Conditions.filter (fun c => c.Type_ != ReadyCondition)) ∧
    (GetOtherConditions obj).Pairwise (fun a b => stringLe a.Type_ b.Type_) ∧
    ∀ (pfx : String) (bolds : Nat),
      ∃ row condRows,
        nodeRow env pfx (if IsGroupObject obj then bolds + 1 else bolds) obj = some row ∧
        conditionRows env pfx (if IsGroupObject obj then bolds + 1 else bolds)
          (od.GetObjectsByParent obj.UID env.order).length obj = some condRows ∧
        condRows.length = (GetOtherConditions obj).length ∧
        (∀ i c, (GetOtherConditions obj)[i]? = some c →
          ∃ color p,
            color =
              (if c.Status = ConditionTrue then Color.green
              else if c.Status = ConditionFalse ∨ c.Status = ConditionUnknown then
                if c.Severity = ConditionSeverityError then Color.red
                else if c.Severity = ConditionSeverityWarning then Color.yellow
                else Color.white
              else Color.gray) ∧
            p =
              (if i = (GetOtherConditions obj).length - 1 then
                pfx ++ (if (od.GetObjectsByParent obj.UID env.order).length > 0 then pipe
                  else "  ") ++ stringsRepeat " " 10 ++ lastElemPrefix
              else
                pfx ++ (if (od.GetObjectsByParent obj.UID env.order).length > 0 then pipe
                  else "  ") ++ stringsRepeat " " 10 ++ firstElemPrefix) ∧
            condRows[i]? = some
              { name :=
                  env.sprint (if IsGroupObject obj then bolds + 1 else bolds) Color.gray
                    (printPrefix p) ++
                  env.sprint (if IsGroupObject obj then bolds + 1 else bolds) Color.cyan
                    c.Type_
                status :=
                  env.sprint (if IsGroupObject obj then bolds + 1 else bolds) color c.Status
                severity :=
                  env.sprint (if IsGroupObject obj then bolds + 1 else bolds) color c.Severity
                reason :=
                  env.sprint (if IsGroupObject obj then bolds + 1 else bolds) color c.Reason
                age := env.humanDuration (env.now - c.LastTransitionTime)
                message :=
                  if (utf8Bytes c.Message).length > 100 then
                    (utf8Bytes c.Message).take 100 ++ utf8Bytes " ..."
                  else utf8Bytes c.Message }) ∧
        (∀ fuel : Nat,
          treeViewInner env od (fuel + 1) pfx bolds obj =
            (visitOrder env od obj).bind (fun chs =>
              (visitChildren (treeViewInner env od fuel) pfx
                (if IsGroupObject obj then bolds + 1 else bolds) chs).map
                (fun r => (row :: condRows ++ r.1, r.2)))) := by
  refine ⟨sortSlice_perm _ _, sortSlice_byKey_sorted (fun c : Condition => c.Type_) _, ?_⟩
  intro pfx bolds
  obtain ⟨row, hrow⟩ := nodeRow_some env pfx (if IsGroupObject obj then bolds + 1 else bolds) obj
  obtain ⟨rows, hrows, hlen, hget⟩ := conditionRowsFrom_spec env pfx
    (if IsGroupObject obj then bolds + 1 else bolds)
    (od.GetObjectsByParent obj.UID env.order).length (GetOtherConditions obj).length
    (GetOtherConditions obj) 0
  have hcond : conditionRows env pfx (if IsGroupObject obj then bolds + 1 else bolds)
      (od.GetObjectsByParent obj.UID env.order).length obj = some rows := by
    simp only [conditionRows, hShow, if_true, hrows]
  refine ⟨row, rows, hrow, hcond, hlen, ?_, ?_⟩
  · intro i c hi
    refine ⟨_, _, rfl, rfl, ?_⟩
    rw [hget i c hi, Nat.zero_add]
    exact conditionRow_cells env pfx _ _ _ i c _ rfl
  · intro fuel
    simp only [treeViewInner, hrow, hcond]
    cases visitOrder env od obj with
    | none => rfl
    | some chs =>
      simp only [Option.some_bind]
      cases visitChildren (treeViewInner env od fuel) pfx
          (if IsGroupObject obj then bolds + 1 else bolds) chs with
      | none => rfl
      | some r => rfl

/-- The machine `debugMachine`, with two conditions besides the readiness,
rendered by `showingEnv`: the row of the machine and then one row per
condition, by type. -/
theorem treeViewInner_other_conditions_witness :
    IsShowConditionsObject debugMachine = true ∧
    ((GetOtherConditions debugMachine).Perm
      (debugMachine.Conditions.filter (fun c => c.Type_ != ReadyCondition)) ∧
    (GetOtherConditions debugMachine).Pairwise (fun a b => stringLe a.Type_ b.Type_) ∧
    ∀ (pfx : String) (bolds : Nat),
      ∃ row condRows,
        nodeRow showingEnv pfx (if IsGroupObject debugMachine then bolds + 1 else bolds) debugMachine = some row ∧
        conditionRows showingEnv pfx (if IsGroupObject debugMachine then bolds + 1 else bolds)
          (twoMachineTree.GetObjectsByParent debugMachine.UID showingEnv.order).length debugMachine = some condRows ∧
        condRows.length = (GetOtherConditions debugMachine).length ∧
        (∀ i c, (GetOtherConditions debugMachine)[i]? = some c →
          ∃ color p,
            color =
              (if c.Status = ConditionTrue then Color.green
              else if c.Status = ConditionFalse ∨ c.Status = ConditionUnknown then
                if c.Severity = ConditionSeverityError then Color.red
                else if c.Severity = ConditionSeverityWarning then Color.yellow
                else Color.white
              else Color.gray) ∧
            p =
              (if i = (GetOtherConditions debugMachine).length - 1 then
                pfx ++ (if (twoMachineTree.GetObjectsByParent debugMachine.UID showingEnv.order).length > 0 then pipe
                  else "  ") ++ stringsRepeat " " 10 ++ lastElemPrefix
              else
                pfx ++ (if (twoMachineTree.GetObjectsByParent debugMachine.UID showingEnv.order).length > 0 then pipe
                  else "  ") ++ stringsRepeat " " 10 ++ firstElemPrefix) ∧
            condRows[i]? = some
              { name :=
                  showingEnv.sprint (if IsGroupObject debugMachine then bolds + 1 else bolds) Color.gray
                    (printPrefix p) ++
                  showingEnv.sprint (if IsGroupObject debugMachine then bolds + 1 else bolds) Color.cyan
                    c.Type_
                status :=
                  showingEnv.sprint (if IsGroupObject debugMachine then bolds + 1 else bolds) color c.Status
                severity :=
                  showingEnv.sprint (if IsGroupObject debugMachine then bolds + 1 else bolds) color c.Severity
                reason :=
                  showingEnv.sprint (if IsGroupObject debugMachine then bolds + 1 else bolds) color c.Reason
                age := showingEnv.humanDuration (showingEnv.now - c.LastTransitionTime)
                message :=
                  if (utf8Bytes c.Message).length > 100 then
                    (utf8Bytes c.Message).take 100 ++ utf8Bytes " ..."
                  else utf8Bytes c.Message }) ∧
        (∀ fuel : Nat,
          treeViewInner showingEnv twoMachineTree (fuel + 1) pfx bolds debugMachine =
            (visitOrder showingEnv twoMachineTree debugMachine).bind (fun chs =>
              (visitChildren (treeViewInner showingEnv twoMachineTree fuel) pfx
                (if IsGroupObject debugMachine then bolds + 1 else bolds) chs).map
                (fun r => (row :: condRows ++ r.1, r.2))))) ∧
    (treeViewInner showingEnv twoMachineTree 1 "" 0 debugMachine).map
        (fun r => r.1.map
          (fun row => (row.name, row.status, row.severity, row.reason, row.age))) =
      some [("<gray>Machine/<bold>m9", "<red>False", "<red>Error", "<red>Crashed", "90s"),
        ("<gray>            ├─<cyan>BootstrapReady", "<green>True", "<green>", "<green>", "96s"),
        ("<gray>            └─<cyan>InfrastructureReady", "<yellow>False", "<yellow>Warning",
          "<yellow>Waiting", "97s")] :=
  ⟨by decide, treeViewInner_other_conditions showingEnv twoMachineTree debugMachine (by decide),
    by decide⟩

/-! ## Rows and enumeration order -/

/-- C17: the tree of `twoGroupCalls` has under `sampleParent` two group nodes
with the same rendered name, `2 Machines...`.  For the two enumeration orders
of that child set `treeViewInner` returns the same three rows in different
sequences: the row of the crashed group comes before the row of the warned
group in one and after it in the other. -/
theorem treeViewInner_rows_depend_on_enumeration :
    (runAdds (newObjectTree {}) twoGroupCalls).map
        (fun od => (od.ownership sampleParent.UID).elems) =
      some [", /zz_False_Error_Crashed_bbbbbb", ", /zz_False_Warning_X_dddddd"] ∧
    (twoGroupRows MapOrder.stored).map (fun rows => rows.map (fun row => (row.name, row.reason))) =
      some [("KubeadmControlPlane/cp", ""), ("├─2 Machines...", "Crashed"),
        ("└─2 Machines...", "X")] ∧
    (twoGroupRows MapOrder.reversed).map
        (fun rows => rows.map (fun row => (row.name, row.reason))) =
      some [("KubeadmControlPlane/cp", ""), ("├─2 Machines...", "X"),
        ("└─2 Machines...", "Crashed")] ∧
    twoGroupRows MapOrder.stored ≠ twoGroupRows MapOrder.reversed := by
  decide

/-! ## Connector rewriting of printPrefix -/

theorem countGo_first (cs : List PrefixCell) :
    countGo ['├', '─'] (renderCells cs) 0 = countCells PrefixCell.first cs := by
  induction cs with
  | nil => rfl
  | cons c rest ih =>
    cases c <;>
      simp [renderCells, PrefixCell.chars, countGo, countCells, List.isPrefixOf, ih]

theorem countGo_last (cs : List PrefixCell) :
    countGo ['└', '─'] (renderCells cs) 0 = countCells PrefixCell.last cs := by
  induction cs with
  | nil => rfl
  | cons c rest ih =>
    cases c <;>
      simp [renderCells, PrefixCell.chars, countGo, countCells, List.isPrefixOf, ih]

theorem replaceGo_first (cs : List PrefixCell) :
    ∀ n, replaceGo ['├', '─'] ['│', ' '] (renderCells cs) n 0 =
      renderCells (replaceCells PrefixCell.first PrefixCell.bar n cs) := by
  induction cs with
  | nil => intro n; cases n <;> rfl
  | cons c rest ih =>
    intro n
    cases n with
    | zero => cases c <;> rfl
    | succ n =>
      cases c <;>
        simp [renderCells, PrefixCell.chars, replaceGo, replaceCells, List.isPrefixOf, ih]

theorem replaceGo_last (cs : List PrefixCell) :
    ∀ n, replaceGo ['└', '─'] [' ', ' '] (renderCells cs) n 0 =
      renderCells (replaceCells PrefixCell.last PrefixCell.blank n cs) := by
  induction cs with
  | nil => intro n; cases n <;> rfl
  | cons c rest ih =>
    intro n
    cases n with
    | zero => cases c <;> rfl
    | succ n =>
      cases c <;>
        simp [renderCells, PrefixCell.chars, replaceGo, replaceCells, List.isPrefixOf, ih]

theorem renderCells_append (a b : List PrefixCell) :
    renderCells (a ++ b) = renderCells a ++ renderCells b := by
  induction a with
  | nil => rfl
  | cons c rest ih => simp [renderCells, ih]

theorem hasSuffix_first_cells (cs : List PrefixCell) (c : PrefixCell) :
    List.isPrefixOf ['─', '├'] (renderCells (cs ++ [c])).reverse =
      decide (c = PrefixCell.first) := by
  rw [renderCells_append, List.reverse_append]
  cases c <;> simp [renderCells, PrefixCell.chars, List.isPrefixOf]

theorem hasSuffix_last_cells (cs : List PrefixCell) (c : PrefixCell) :
    List.isPrefixOf ['─', '└'] (renderCells (cs ++ [c])).reverse =
      decide (c = PrefixCell.last) := by
  rw [renderCells_append, List.reverse_append]
  cases c <;> simp [renderCells, PrefixCell.chars, List.isPrefixOf]

theorem replaceCells_append_count (x y : PrefixCell) (cs tail : List PrefixCell) :
    ∀ m, replaceCells x y (countCells x cs + m) (cs ++ tail) =
      cs.map (fun c => if c = x then y else c) ++ replaceCells x y m tail := by
  induction cs with
  | nil =>
    intro m
    simp [countCells]
  | cons c rest ih =>
    intro m
    by_cases hc : c = x
    · have hn : countCells x (c :: rest) + m = (countCells x rest + m) + 1 := by
        simp only [countCells, hc, if_true]
        omega
      rw [hn]
      simp only [List.cons_append, replaceCells, hc, if_true, List.map_cons, List.append_eq,
        ih m]
    · have hn : countCells x (c :: rest) + m = countCells x rest + m := by
        simp only [countCells, hc, if_false]
      rw [hn]
      cases hk : countCells x rest + m with
      | zero =>
        have h0 := ih m
        rw [hk] at h0
        simp only [replaceCells] at h0
        have hm : m = 0 := by omega
        subst hm
        simp only [replaceCells] at h0 ⊢
        simp only [List.cons_append, List.map_cons, hc, if_false, h0]
      | succ n =>
        simp only [List.cons_append, replaceCells, hc, if_false, List.map_cons, List.append_eq]
        rw [← hk, ih m]

theorem replaceCells_all (x y : PrefixCell) (cs : List PrefixCell) :
    replaceCells x y (countCells x cs) cs = cs.map (fun c => if c = x then y else c) := by
  have h := replaceCells_append_count x y cs [] 0
  simp only [Nat.add_zero, List.append_nil] at h
  rw [h]
  simp [replaceCells]

theorem replaceCells_keep_last (x y : PrefixCell) (cs : List PrefixCell) :
    replaceCells x y (countCells x cs) (cs ++ [x]) =
      cs.map (fun c => if c = x then y else c) ++ [x] := by
  have h := replaceCells_append_count x y cs [x] 0
  simp only [Nat.add_zero] at h
  rw [h]
  simp [replaceCells]

theorem countCells_append (x : PrefixCell) (a b : List PrefixCell) :
    countCells x (a ++ b) = countCells x a + countCells x b := by
  induction a with
  | nil => simp [countCells]
  | cons c rest ih =>
    by_cases hc : c = x
    · simp only [List.cons_append, countCells, hc, if_true, List.append_eq, ih]
      omega
    · simp only [List.cons_append, countCells, hc, if_false, List.append_eq, ih]

theorem stringsCount_first (l : List Char) :
    stringsCount (String.mk l) firstElemPrefix = countGo ['├', '─'] l 0 := rfl

theorem stringsCount_last (l : List Char) :
    stringsCount (String.mk l) lastElemPrefix = countGo ['└', '─'] l 0 := rfl

theorem stringsReplace_first (l : List Char) (k : Nat) :
    stringsReplace (String.mk l) firstElemPrefix pipe (k : Int) =
      String.mk (replaceGo ['├', '─'] ['│', ' '] l k 0) := by
  have h1 : ¬ ((k : Int) < 0) := by omega
  have h2 : firstElemPrefix ≠ pipe := by decide
  have h3 : firstElemPrefix.data ≠ [] := by decide
  simp only [stringsReplace, h1, h2, h3, if_false, Int.toNat_ofNat]
  rfl

theorem stringsReplace_last (l : List Char) (k : Nat) :
    stringsReplace (String.mk l) lastElemPrefix (stringsRepeat " " lastElemPrefix.length)
        (k : Int) =
      String.mk (replaceGo ['└', '─'] [' ', ' '] l k 0) := by
  have h1 : ¬ ((k : Int) < 0) := by omega
  have h2 : lastElemPrefix ≠ stringsRepeat " " lastElemPrefix.length := by decide
  have h3 : lastElemPrefix.data ≠ [] := by decide
  simp only [stringsReplace, h1, h2, h3, if_false, Int.toNat_ofNat]
  rfl

theorem stringsReplaceAll_first (l : List Char) :
    stringsReplaceAll (String.mk l) firstElemPrefix pipe =
      String.mk (replaceGo ['├', '─'] ['│', ' '] l (countGo ['├', '─'] l 0) 0) := by
  have h2 : firstElemPrefix ≠ pipe := by decide
  have h3 : firstElemPrefix.data ≠ [] := by decide
  simp only [stringsReplaceAll, stringsReplace, h2, h3, if_false, stringsCount_first]
  rfl

theorem stringsReplaceAll_last (l : List Char) :
    stringsReplaceAll (String.mk l) lastElemPrefix (stringsRepeat " " lastElemPrefix.length) =
      String.mk (replaceGo ['└', '─'] [' ', ' '] l (countGo ['└', '─'] l 0) 0) := by
  have h2 : lastElemPrefix ≠ stringsRepeat " " lastElemPrefix.length := by decide
  have h3 : lastElemPrefix.data ≠ [] := by decide
  simp only [stringsReplaceAll, stringsReplace, h2, h3, if_false, stringsCount_last]
  rfl

theorem stringsHasSuffix_first (l : List Char) :
    stringsHasSuffix (String.mk l) firstElemPrefix = List.isPrefixOf ['─', '├'] l.reverse := rfl

theorem stringsHasSuffix_last (l : List Char) :
    stringsHasSuffix (String.mk l) lastElemPrefix = List.isPrefixOf ['─', '└'] l.reverse := rfl

theorem joinBranches_data (gs : List Bool) :
    (joinBranches gs).data = renderCells (gs.map branchCell) := by
  induction gs with
  | nil => rfl
  | cons g rest ih =>
    cases g <;> simp [joinBranches, branchGlyph, branchCell, renderCells, PrefixCell.chars, ih,
      firstElemPrefix, lastElemPrefix]

theorem joinContinuations_data (gs : List Bool) :
    (joinContinuations gs).data = renderCells (gs.map continuationCell) := by
  induction gs with
  | nil => rfl
  | cons g rest ih =>
    cases g <;> simp [joinContinuations, continuationGlyph, continuationCell, renderCells,
      PrefixCell.chars, ih, pipe]

theorem map_continuation (gs : List Bool) :
    ((gs.map branchCell).map
        (fun c => if c = PrefixCell.first then PrefixCell.bar else c)).map
      (fun c => if c = PrefixCell.last then PrefixCell.blank else c) =
      gs.map continuationCell := by
  induction gs with
  | nil => rfl
  | cons g rest ih =>
    cases g <;> simp [branchCell, continuationCell, ih]

/-- The two passes of `printPrefix` on a sequence of branch cells: every cell
but the last becomes its continuation. -/
theorem printPrefix_cells (gs : List Bool) (g : Bool) :
    printPrefix (String.mk (renderCells (gs.map branchCell ++ [branchCell g]))) =
      String.mk (renderCells (gs.map continuationCell ++ [branchCell g])) := by
  rw [← map_continuation]
  generalize gs.map branchCell = cs
  cases g with
  | true =>
    have hb : branchCell true = PrefixCell.first := rfl
    rw [hb]
    have hcount : stringsCount (String.mk (renderCells (cs ++ [PrefixCell.first])))
        firstElemPrefix = countCells PrefixCell.first cs + 1 := by
      rw [stringsCount_first, countGo_first, countCells_append]
      rfl
    have hn : ((countCells PrefixCell.first cs + 1 : Nat) : Int) - 1 =
        ((countCells PrefixCell.first cs : Nat) : Int) := by
      push_cast
      omega
    have hpass1 : (if stringsHasSuffix (String.mk (renderCells (cs ++ [PrefixCell.first])))
          firstElemPrefix then
        stringsReplace (String.mk (renderCells (cs ++ [PrefixCell.first]))) firstElemPrefix pipe
          ((stringsCount (String.mk (renderCells (cs ++ [PrefixCell.first])))
            firstElemPrefix : Int) - 1)
        else stringsReplaceAll (String.mk (renderCells (cs ++ [PrefixCell.first])))
          firstElemPrefix pipe) =
        String.mk (renderCells (cs.map
          (fun c => if c = PrefixCell.first then PrefixCell.bar else c) ++
            [PrefixCell.first])) := by
      rw [stringsHasSuffix_first, hasSuffix_first_cells, hcount, hn,
        show decide (PrefixCell.first = PrefixCell.first) = true from rfl]
      simp only [if_true]
      rw [stringsReplace_first, replaceGo_first, replaceCells_keep_last]
    unfold printPrefix
    simp only [hpass1]
    rw [stringsHasSuffix_last, hasSuffix_last_cells,
      show decide (PrefixCell.first = PrefixCell.last) = false from rfl]
    simp only [Bool.false_eq_true, if_false]
    rw [stringsReplaceAll_last, countGo_last, replaceGo_last, replaceCells_all]
    simp
  | false =>
    have hb : branchCell false = PrefixCell.last := rfl
    rw [hb]
    have hpass1 : (if stringsHasSuffix (String.mk (renderCells (cs ++ [PrefixCell.last])))
          firstElemPrefix then
        stringsReplace (String.mk (renderCells (cs ++ [PrefixCell.last]))) firstElemPrefix pipe
          ((stringsCount (String.mk (renderCells (cs ++ [PrefixCell.last])))
            firstElemPrefix : Int) - 1)
        else stringsReplaceAll (String.mk (renderCells (cs ++ [PrefixCell.last])))
          firstElemPrefix pipe) =
        String.mk (renderCells (cs.map
          (fun c => if c = PrefixCell.first then PrefixCell.bar else c) ++
            [PrefixCell.last])) := by
      rw [stringsHasSuffix_first, hasSuffix_first_cells,
        show decide (PrefixCell.last = PrefixCell.first) = false from rfl]
      simp only [Bool.false_eq_true, if_false]
      rw [stringsReplaceAll_first, countGo_first, replaceGo_first, replaceCells_all]
      simp
    unfold printPrefix
    simp only [hpass1]
    have hcount : stringsCount (String.mk (renderCells (cs.map
          (fun c => if c = PrefixCell.first then PrefixCell.bar else c) ++ [PrefixCell.last])))
        lastElemPrefix = countCells PrefixCell.last (cs.map
          (fun c => if c = PrefixCell.first then PrefixCell.bar else c)) + 1 := by
      rw [stringsCount_last, countGo_last, countCells_append]
      rfl
    have hn : ((countCells PrefixCell.last (cs.map
          (fun c => if c = PrefixCell.first then PrefixCell.bar else c)) + 1 : Nat) : Int) - 1 =
        ((countCells PrefixCell.last (cs.map
          (fun c => if c = PrefixCell.first then PrefixCell.bar else c)) : Nat) : Int) := by
      push_cast
      omega
    rw [stringsHasSuffix_last, hasSuffix_last_cells, hcount, hn,
      show decide (PrefixCell.last = PrefixCell.last) = true from rfl]
    simp only [if_true]
    rw [stringsReplace_last, replaceGo_last, replaceCells_keep_last]

/-- C18: for a prefix made of the branch glyphs of `n ≥ 1` levels,
`printPrefix` returns the continuations of the first `n - 1` levels (the
vertical bar for `├─`, two blanks for `└─`) followed by the glyph of the last
level unchanged; and `printPrefix` of the empty prefix is empty. -/
theorem printPrefix_branch_glyphs (gs : List Bool) (g : Bool) :
    printPrefix (joinBranches (gs ++ [g])) = joinContinuations gs ++ branchGlyph g ∧
    printPrefix "" = "" := by
  refine ⟨?_, by decide⟩
  have hin : joinBranches (gs ++ [g]) =
      String.mk (renderCells (gs.map branchCell ++ [branchCell g])) := by
    apply String.ext
    rw [joinBranches_data]
    simp
  have hout : joinContinuations gs ++ branchGlyph g =
      String.mk (renderCells (gs.map continuationCell ++ [branchCell g])) := by
    apply String.ext
    rw [String.data_append, joinContinuations_data, renderCells_append]
    cases g <;> simp [branchGlyph, branchCell, renderCells, PrefixCell.chars, firstElemPrefix,
      lastElemPrefix]
  rw [hin, hout]
  exact printPrefix_cells gs g

/-! ## The echo toggle and the equivalence relation -/

/-- Claim C22: `hasSameReadyStatusSeverityAndReason` is reflexive and symmetric
on optional conditions: an absent or present condition is equivalent to
itself, and the result does not depend on the order of the two arguments. -/
theorem hasSameReadyStatusSeverityAndReason_refl_symm :
    (∀ a : Option Condition, hasSameReadyStatusSeverityAndReason a a = true) ∧
    (∀ a b : Option Condition,
      hasSameReadyStatusSeverityAndReason a b = hasSameReadyStatusSeverityAndReason b a) := by
  refine ⟨?_, hasSame_symm⟩
  intro a
  cases a with
  | none => rfl
  | some x => simp [hasSameReadyStatusSeverityAndReason]

theorem isEcho_of_disabled (od : ObjectTree) (addOpts : AddObjectOptions)
    (parentReady objReady : Option Condition) (h : od.options.DisableNoEcho = true) :
    isEcho od addOpts parentReady objReady = false := by
  simp [isEcho, h]

/-- The result of `add` when the call is not cut short by the echo test: the
end of the sibling loop, run only under a grouping parent, decides it. -/
theorem add_eq_addOutcome (od : ObjectTree) (parent obj : Object)
    (opts : List AddObjectOption) (env : Env)
    (hecho : isEcho od (AddObjectOptions.ApplyOptions {} opts) (GetReadyCondition parent)
      (GetReadyCondition obj) = false) :
    od.add parent obj opts env =
      addOutcome od parent (markMetaName (AddObjectOptions.ApplyOptions {} opts)
          (markDebug od obj)) (AddObjectOptions.ApplyOptions {} opts)
        (if IsGroupingObject parent then
          groupSiblings od parent (markMetaName (AddObjectOptions.ApplyOptions {} opts)
            (markDebug od obj)) (GetReadyCondition obj) env (od.childKeys parent.UID env.order)
        else GroupOutcome.fallThrough) := by
  unfold ObjectTree.add
  simp only [hecho]
  split <;> simp_all [addOutcome]

/-- Claim C21: on a tree whose `DisableNoEcho` is true the option `NoEcho` has
no effect.  Two calls of `add` whose options agree on the meta name and on the
grouping flag return the same tree, whatever their `NoEcho` values; the call
never takes the early return of the echo test, so its result is the one of the
grouping steps; and when no sibling is to be merged with, the object is stored
in `items` and is a child of the parent, also when its status is True or its
readiness is equivalent to the one of the parent. -/
theorem add_disableNoEcho_ignores_noEcho (od : ObjectTree) (parent obj : Object)
    (opts : List AddObjectOption) (env : Env)
    (hToggle : od.options.DisableNoEcho = true) :
    (∀ opts2 : List AddObjectOption,
      (AddObjectOptions.ApplyOptions {} opts2).MetaName =
        (AddObjectOptions.ApplyOptions {} opts).MetaName →
      (AddObjectOptions.ApplyOptions {} opts2).GroupingObject =
        (AddObjectOptions.ApplyOptions {} opts).GroupingObject →
      od.add parent obj opts2 env = od.add parent obj opts env) ∧
    (∀ b : Bool,
      od.add parent obj (opts ++ [AddObjectOption.NoEcho b]) env =
        od.add parent obj (opts ++ [AddObjectOption.NoEcho false]) env) ∧
    od.add parent obj opts env =
      addOutcome od parent (markMetaName (AddObjectOptions.ApplyOptions {} opts)
          (markDebug od obj)) (AddObjectOptions.ApplyOptions {} opts)
        (if IsGroupingObject parent then
          groupSiblings od parent (markMetaName (AddObjectOptions.ApplyOptions {} opts)
            (markDebug od obj)) (GetReadyCondition obj) env (od.childKeys parent.UID env.order)
        else GroupOutcome.fallThrough) ∧
    ((IsGroupingObject parent = false ∨
        ∀ k ∈ (od.ownership parent.UID).elems,
          hasSameReadyStatusSeverityAndReason (GetReadyCondition obj)
            ((od.GetObject k).bind GetReadyCondition) = false) →
      ∃ od1 stored, od.add parent obj opts env = some od1 ∧
        od1.GetObject obj.UID = some stored ∧ stored.UID = obj.UID ∧
        stored.Name = obj.Name ∧ stored.Conditions = obj.Conditions ∧
        obj.UID ∈ (od1.ownership parent.UID).elems) := by
  have hkey : ∀ o1 o2 : List AddObjectOption,
      (AddObjectOptions.ApplyOptions {} o1).MetaName =
        (AddObjectOptions.ApplyOptions {} o2).MetaName →
      (AddObjectOptions.ApplyOptions {} o1).GroupingObject =
        (AddObjectOptions.ApplyOptions {} o2).GroupingObject →
      od.add parent obj o1 env = od.add parent obj o2 env := by
    intro o1 o2 hm hg
    rw [add_eq_addOutcome od parent obj o1 env (isEcho_of_disabled _ _ _ _ hToggle),
      add_eq_addOutcome od parent obj o2 env (isEcho_of_disabled _ _ _ _ hToggle)]
    have hmeta : ∀ x, markMetaName (AddObjectOptions.ApplyOptions {} o1) x =
        markMetaName (AddObjectOptions.ApplyOptions {} o2) x := by
      intro x
      simp only [markMetaName, hm]
    rw [hmeta]
    cases hout : (if IsGroupingObject parent then
          groupSiblings od parent (markMetaName (AddObjectOptions.ApplyOptions {} o2)
            (markDebug od obj)) (GetReadyCondition obj) env (od.childKeys parent.UID env.order)
        else GroupOutcome.fallThrough) with
    | fallThrough => simp only [addOutcome, markGrouping, hg]
    | merged t => rfl
    | panicked => rfl
  have happ : ∀ (l : List AddObjectOption) (o : AddObjectOptions) (x : AddObjectOption),
      AddObjectOptions.ApplyOptions o (l ++ [x]) =
        x.ApplyToAdd (AddObjectOptions.ApplyOptions o l) := by
    intro l
    induction l with
    | nil => intro o x; rfl
    | cons y rest ih => intro o x; exact ih (y.ApplyToAdd o) x
  refine ⟨fun opts2 hm hg => hkey opts2 opts hm hg, ?_, ?_, ?_⟩
  · intro b
    apply hkey
    · rw [happ, happ]; rfl
    · rw [happ, happ]; rfl
  · exact add_eq_addOutcome od parent obj opts env (isEcho_of_disabled _ _ _ _ hToggle)
  · intro hNoMerge
    refine ⟨od.addInner parent (markGrouping od (AddObjectOptions.ApplyOptions {} opts)
        (markMetaName (AddObjectOptions.ApplyOptions {} opts) (markDebug od obj))),
      markGrouping od (AddObjectOptions.ApplyOptions {} opts)
        (markMetaName (AddObjectOptions.ApplyOptions {} opts) (markDebug od obj)),
      add_eq_addInner od parent obj opts env
        (isEcho_of_disabled _ _ _ _ hToggle) hNoMerge, ?_, ?_, ?_, ?_, ?_⟩
    · simp [ObjectTree.GetObject, ObjectTree.addInner]
    · simp
    · exact Name_marks _ _ _
    · have := marks_only_annotations od (AddObjectOptions.ApplyOptions {} opts) obj
      rw [this]
    · rw [mem_ownership_addInner]
      left
      simp

/-- A healthy machine added with `NoEcho(true)` to the tree whose `DisableNoEcho`
is true: the call behaves as with `NoEcho(false)` and the machine is stored. -/
theorem add_disableNoEcho_ignores_noEcho_witness :
    (newObjectTree { DisableNoEcho := true }).options.DisableNoEcho = true ∧
    ((∀ opts2 : List AddObjectOption,
      (AddObjectOptions.ApplyOptions {} opts2).MetaName =
        (AddObjectOptions.ApplyOptions {} [AddObjectOption.NoEcho true]).MetaName →
      (AddObjectOptions.ApplyOptions {} opts2).GroupingObject =
        (AddObjectOptions.ApplyOptions {} [AddObjectOption.NoEcho true]).GroupingObject →
      (newObjectTree { DisableNoEcho := true }).add plainParent
          (machine "m0" "uid-m0" (readyTrue 7)) opts2 {} =
        (newObjectTree { DisableNoEcho := true }).add plainParent
          (machine "m0" "uid-m0" (readyTrue 7)) [AddObjectOption.NoEcho true] {}) ∧
    (∀ b : Bool,
      (newObjectTree { DisableNoEcho := true }).add plainParent
          (machine "m0" "uid-m0" (readyTrue 7))
          ([AddObjectOption.NoEcho true] ++ [AddObjectOption.NoEcho b]) {} =
        (newObjectTree { DisableNoEcho := true }).add plainParent
          (machine "m0" "uid-m0" (readyTrue 7))
          ([AddObjectOption.NoEcho true] ++ [AddObjectOption.NoEcho false]) {}) ∧
    (newObjectTree { DisableNoEcho := true }).add plainParent
        (machine "m0" "uid-m0" (readyTrue 7)) [AddObjectOption.NoEcho true] {} =
      addOutcome (newObjectTree { DisableNoEcho := true }) plainParent
        (markMetaName (AddObjectOptions.ApplyOptions {} [AddObjectOption.NoEcho true])
          (markDebug (newObjectTree { DisableNoEcho := true })
            (machine "m0" "uid-m0" (readyTrue 7))))
        (AddObjectOptions.ApplyOptions {} [AddObjectOption.NoEcho true])
        (if IsGroupingObject plainParent then
          groupSiblings (newObjectTree { DisableNoEcho := true }) plainParent
            (markMetaName (AddObjectOptions.ApplyOptions {} [AddObjectOption.NoEcho true])
              (markDebug (newObjectTree { DisableNoEcho := true })
                (machine "m0" "uid-m0" (readyTrue 7))))
            (GetReadyCondition (machine "m0" "uid-m0" (readyTrue 7))) {}
            ((newObjectTree { DisableNoEcho := true }).childKeys plainParent.UID
              ({} : Env).order)
        else GroupOutcome.fallThrough) ∧
    ((IsGroupingObject plainParent = false ∨
        ∀ k ∈ ((newObjectTree { DisableNoEcho := true }).ownership plainParent.UID).elems,
          hasSameReadyStatusSeverityAndReason
            (GetReadyCondition (machine "m0" "uid-m0" (readyTrue 7)))
            (((newObjectTree { DisableNoEcho := true }).GetObject k).bind GetReadyCondition) =
              false) →
      ∃ od1 stored, (newObjectTree { DisableNoEcho := true }).add plainParent
          (machine "m0" "uid-m0" (readyTrue 7)) [AddObjectOption.NoEcho true] {} = some od1 ∧
        od1.GetObject (machine "m0" "uid-m0" (readyTrue 7)).UID = some stored ∧
        stored.UID = (machine "m0" "uid-m0" (readyTrue 7)).UID ∧
        stored.Name = (machine "m0" "uid-m0" (readyTrue 7)).Name ∧
        stored.Conditions = (machine "m0" "uid-m0" (readyTrue 7)).Conditions ∧
        (machine "m0" "uid-m0" (readyTrue 7)).UID ∈ (od1.ownership plainParent.UID).elems)) :=
  ⟨rfl, add_disableNoEcho_ignores_noEcho (newObjectTree { DisableNoEcho := true }) plainParent
    (machine "m0" "uid-m0" (readyTrue 7)) [AddObjectOption.NoEcho true] {} rfl⟩

/-! ## Width of the printed prefix -/

theorem isPrefixOf_length_le (a : List Char) :
    ∀ l : List Char, a.isPrefixOf l = true → a.length ≤ l.length := by
  induction a with
  | nil => intro l _; simp
  | cons x rest ih =>
    intro l h
    cases l with
    | nil => simp [List.isPrefixOf] at h
    | cons y tail =>
      simp only [List.isPrefixOf, Bool.and_eq_true] at h
      have := ih tail h.2
      simp only [List.length_cons]
      omega

/-- A replacement by a text of the same length keeps the length: what
`replaceGo` returns has the length of its input less the characters still to
be dropped. -/
theorem replaceGo_length (old new : List Char) (hlen : old.length = new.length)
    (hne : 0 < old.length) :
    ∀ (l : List Char) (n skip : Nat),
      (replaceGo old new l n skip).length = l.length - skip := by
  intro l
  induction l with
  | nil => intro n skip; simp [replaceGo]
  | cons c cs ih =>
    intro n skip
    cases skip with
    | succ k =>
      rw [replaceGo, ih]
      simp
    | zero =>
      cases n with
      | zero => simp [replaceGo]
      | succ m =>
        rw [replaceGo]
        split
        · rename_i hp
          have hle := isPrefixOf_length_le old (c :: cs) hp
          simp only [List.length_cons] at hle
          rw [List.length_append, ih]
          simp only [List.length_cons]
          omega
        · rw [List.length_cons, ih]
          simp

theorem stringsReplace_length (s old new : String) (n : Int)
    (hlen : old.length = new.length) (hne : 0 < old.length) :
    (stringsReplace s old new n).length = s.length := by
  have hdata : old.data ≠ [] := by
    intro h
    have : old.length = 0 := by
      show old.data.length = 0
      rw [h]; rfl
    omega
  unfold stringsReplace
  simp only
  split
  · rfl
  · show (replaceGo old.data new.data s.data _ 0).length = s.data.length
    rw [replaceGo_length old.data new.data hlen hne]
    simp

theorem printPrefix_length (p : String) : (printPrefix p).length = p.length := by
  have h1 : firstElemPrefix.length = pipe.length := by decide
  have h2 : lastElemPrefix.length = (stringsRepeat " " lastElemPrefix.length).length := by
    decide
  have p1 : 0 < firstElemPrefix.length := by decide
  have p2 : 0 < lastElemPrefix.length := by decide
  unfold printPrefix
  simp only [stringsReplaceAll]
  split <;> split <;> simp only [stringsReplace_length _ _ _ _ h1 p1,
    stringsReplace_length _ _ _ _ h2 p2]

theorem joinBranches_length (gs : List Bool) : (joinBranches gs).length = 2 * gs.length := by
  induction gs with
  | nil => rfl
  | cons g rest ih =>
    rw [joinBranches, String.length_append, ih, List.length_cons]
    have : (branchGlyph g).length = 2 := by cases g <;> rfl
    omega

/-- Claim C27: `printPrefix` keeps the number of characters of every prefix,
since each glyph is replaced by a continuation of the same width.  So the
prefix of a node at depth `n`, a concatenation of `n` branch glyphs, is printed
with `2 * n` characters, and the prefix of a condition row of a node at depth
`n` (the glyphs, the bar or blanks of the siblings, the filler of ten blanks
and one final glyph) with `2 * n + 14` characters: rows of the same depth are
aligned. -/
theorem printPrefix_preserves_width :
    (∀ p : String, (printPrefix p).length = p.length) ∧
    (∀ gs : List Bool, (printPrefix (joinBranches gs)).length = 2 * gs.length) ∧
    (∀ (gs : List Bool) (children : Nat) (g : Bool),
      (printPrefix (joinBranches gs ++ (if children > 0 then pipe else "  ") ++
        stringsRepeat " " 10 ++ branchGlyph g)).length = 2 * gs.length + 14 ∧
      (joinBranches gs ++ (if children > 0 then pipe else "  ") ++
        stringsRepeat " " 10 ++ branchGlyph g).length = 2 * gs.length + 14) := by
  refine ⟨printPrefix_length, ?_, ?_⟩
  · intro gs
    rw [printPrefix_length, joinBranches_length]
  · intro gs children g
    have hlen : (joinBranches gs ++ (if children > 0 then pipe else "  ") ++
        stringsRepeat " " 10 ++ branchGlyph g).length = 2 * gs.length + 14 := by
      rw [String.length_append, String.length_append, String.length_append,
        joinBranches_length]
      have h1 : (if children > 0 then pipe else "  ").length = 2 := by
        split <;> rfl
      have h2 : (stringsRepeat " " 10).length = 10 := by decide
      have h3 : (branchGlyph g).length = 2 := by cases g <;> rfl
      omega
    exact ⟨by rw [printPrefix_length, hlen], hlen⟩

/-! ## The grouping toggle -/

theorem add_options (od od1 : ObjectTree) (parent obj : Object) (opts : List AddObjectOption)
    (env : Env) (h : od.add parent obj opts env = some od1) : od1.options = od.options := by
  have hloop : ∀ (o : Object) (r : Option Condition) (keys : List String) (t : ObjectTree),
      groupSiblings od parent o r env keys = GroupOutcome.merged t → t.options = od.options := by
    intro o r keys
    induction keys with
    | nil => intro t ht; simp [groupSiblings] at ht
    | cons k rest ih =>
      intro t ht
      simp only [groupSiblings] at ht
      split at ht
      · exact ih t ht
      · split at ht
        · cases ht
        · split at ht
          · split at ht
            · cases ht
            · cases ht; rfl
          · split at ht
            · cases ht
            · cases ht; rfl
  unfold ObjectTree.add at h
  simp only at h
  split at h
  · cases h; rfl
  · split at h
    · cases h
    · rename_i t heq
      cases h
      split at heq
      · exact hloop _ _ _ _ heq
      · cases heq
    · cases h; rfl

theorem isEcho_options (od1 od2 : ObjectTree) (addOpts : AddObjectOptions)
    (parentReady objReady : Option Condition) (h : od1.options = od2.options) :
    isEcho od1 addOpts parentReady objReady = isEcho od2 addOpts parentReady objReady := by
  simp only [isEcho, h]

theorem marks_options (od1 od2 : ObjectTree) (addOpts : AddObjectOptions) (obj : Object)
    (h : od1.options = od2.options) :
    markGrouping od1 addOpts (markMetaName addOpts (markDebug od1 obj)) =
      markGrouping od2 addOpts (markMetaName addOpts (markDebug od2 obj)) := by
  simp only [markGrouping, markDebug, h]

/-- Under a parent without the grouping marker a call of `add` either is cut
short by the echo test or stores the object under the parent. -/
theorem add_under_plain_parent (options : objectTreeOptions) (od : ObjectTree) (c : AddCall)
    (hopt : od.options = options) (hPlain : IsGroupingObject c.parent = false) :
    od.add c.parent c.obj c.opts c.env =
      if c.suppressed options then some od
      else some (od.addInner c.parent (c.stored options)) := by
  have hopt2 : od.options = (newObjectTree options).options := hopt
  by_cases hs : c.suppressed options = true
  · rw [if_pos hs]
    unfold AddCall.suppressed at hs
    rw [← isEcho_options od _ _ _ _ hopt2] at hs
    unfold ObjectTree.add
    simp only [hs, if_true]
  · rw [if_neg hs]
    have hs2 : isEcho od (AddObjectOptions.ApplyOptions {} c.opts) (GetReadyCondition c.parent)
        (GetReadyCondition c.obj) = false := by
      unfold AddCall.suppressed at hs
      rw [isEcho_options od _ _ _ _ hopt2]
      simpa using hs
    rw [add_eq_addInner od c.parent c.obj c.opts c.env hs2 (Or.inl hPlain)]
    unfold AddCall.stored
    rw [marks_options od _ _ _ hopt2]

/-- A sequence of calls under parents without the grouping marker: every call
returns, and the tree ends with what it had and what the calls that were not
cut short by the echo test stored. -/
theorem runAdds_under_plain_parents (options : objectTreeOptions) (cs : List AddCall) :
    ∀ od : ObjectTree, od.options = options →
      (∀ c ∈ cs, IsGroupingObject c.parent = false) →
      ∃ od1, runAdds od cs = some od1 ∧
        (∀ p id, id ∈ (od1.ownership p).elems ↔
          id ∈ (od.ownership p).elems ∨
            ∃ c ∈ cs, c.suppressed options = false ∧ c.parent.UID = p ∧ c.obj.UID = id) ∧
        (∀ id o, od1.GetObject id = some o →
          od.GetObject id = some o ∨
            ∃ c ∈ cs, c.suppressed options = false ∧ c.obj.UID = id ∧
              o = c.stored options) ∧
        (∀ id, (od.GetObject id).isSome = true → (od1.GetObject id).isSome = true) ∧
        (∀ c ∈ cs, c.suppressed options = false → (od1.GetObject c.obj.UID).isSome = true) := by
  induction cs with
  | nil =>
    intro od _ _
    refine ⟨od, rfl, ?_, ?_, ?_, ?_⟩
    · intro p id; simp
    · intro id o h; exact Or.inl h
    · intro id h; exact h
    · intro c hc; simp at hc
  | cons c rest ih =>
    intro od hopt hPlain
    have hc := add_under_plain_parent options od c hopt
      (hPlain c (List.mem_cons_self _ _))
    have hrest : ∀ x ∈ rest, IsGroupingObject x.parent = false :=
      fun x hx => hPlain x (List.mem_cons_of_mem _ hx)
    by_cases hs : c.suppressed options = true
    · rw [if_pos hs] at hc
      obtain ⟨od1, hrun, hown, hitems, hkeep, hin⟩ := ih od hopt hrest
      refine ⟨od1, ?_, ?_, ?_, hkeep, ?_⟩
      · simp only [runAdds, hc]; exact hrun
      · intro p id
        rw [hown p id]
        constructor
        · rintro (h | ⟨x, hx, h⟩)
          · exact Or.inl h
          · exact Or.inr ⟨x, List.mem_cons_of_mem _ hx, h⟩
        · rintro (h | ⟨x, hx, h⟩)
          · exact Or.inl h
          · rcases List.mem_cons.mp hx with rfl | hx
            · rw [hs] at h; exact absurd h.1 (by simp)
            · exact Or.inr ⟨x, hx, h⟩
      · intro id o h
        rcases hitems id o h with h | ⟨x, hx, h⟩
        · exact Or.inl h
        · exact Or.inr ⟨x, List.mem_cons_of_mem _ hx, h⟩
      · intro x hx hxs
        rcases List.mem_cons.mp hx with rfl | hx
        · rw [hs] at hxs; exact absurd hxs (by simp)
        · exact hin x hx hxs
    · rw [if_neg hs] at hc
      have hs2 : c.suppressed options = false := by simpa using hs
      obtain ⟨od1, hrun, hown, hitems, hkeep, hin⟩ :=
        ih (od.addInner c.parent (c.stored options)) hopt hrest
      have hUID : (c.stored options).UID = c.obj.UID := by
        unfold AddCall.stored; simp
      refine ⟨od1, ?_, ?_, ?_, ?_, ?_⟩
      · simp only [runAdds, hc]; exact hrun
      · intro p id
        rw [hown p id, mem_ownership_addInner, hUID]
        constructor
        · rintro ((⟨hp, hid⟩ | h) | ⟨x, hx, h⟩)
          · exact Or.inr ⟨c, List.mem_cons_self _ _, hs2, hp.symm, hid.symm⟩
          · exact Or.inl h
          · exact Or.inr ⟨x, List.mem_cons_of_mem _ hx, h⟩
        · rintro (h | ⟨x, hx, h⟩)
          · exact Or.inl (Or.inr h)
          · rcases List.mem_cons.mp hx with rfl | hx
            · exact Or.inl (Or.inl ⟨h.2.1.symm, h.2.2.symm⟩)
            · exact Or.inr ⟨x, hx, h⟩
      · intro id o h
        rcases hitems id o h with h | ⟨x, hx, h⟩
        · simp only [ObjectTree.GetObject, ObjectTree.addInner] at h
          split at h
          · rename_i hid
            cases h
            exact Or.inr ⟨c, List.mem_cons_self _ _, hs2, (hid.trans hUID).symm, rfl⟩
          · exact Or.inl h
        · exact Or.inr ⟨x, List.mem_cons_of_mem _ hx, h⟩
      · intro id h
        apply hkeep
        simp only [ObjectTree.GetObject, ObjectTree.addInner]
        split
        · rfl
        · exact h
      · intro x hx hxs
        rcases List.mem_cons.mp hx with rfl | hx
        · apply hkeep
          simp [ObjectTree.GetObject, ObjectTree.addInner, hUID]
        · exact hin x hx hxs

/-- With the toggle `DisableGroupObjects` the grouping step of `add` leaves the
object as it is. -/
theorem stored_IsGroupingObject (options : objectTreeOptions) (c : AddCall)
    (hToggle : options.DisableGroupObjects = true) (h : IsGroupingObject c.obj = false) :
    IsGroupingObject (c.stored options) = false := by
  unfold AddCall.stored
  rw [IsGroupingObject_marks_of_false _ _ _ h]
  simp [newObjectTree, hToggle]

/-- Claim C25: on a tree whose `DisableGroupObjects` is true, starting from the
empty tree, when no object carries the grouping marker beforehand (the object
of a call does not, and the parent of a call either does not or is an object as
one of the calls stored it), every sequence of calls of `add` returns and the
tree holds exactly what the calls that were not cut short by the echo test
brought: a child set holds the identities of the objects added under that
parent, the keys of `items` are the identities of those objects, and every item
is the object of such a call with the marks of that call, without the grouping
marker and a group node only if the object was one when it came.  So no group
node is made and no object that was stored is removed. -/
theorem runAdds_disableGroupObjects (options : objectTreeOptions) (cs : List AddCall)
    (hToggle : options.DisableGroupObjects = true)
    (hObjs : ∀ c ∈ cs, IsGroupingObject c.obj = false)
    (hParents : ∀ c ∈ cs, IsGroupingObject c.parent = false ∨
      ∃ c0 ∈ cs, c.parent = c0.stored options) :
    ∃ od, runAdds (newObjectTree options) cs = some od ∧
      (∀ p id, id ∈ (od.ownership p).elems ↔
        ∃ c ∈ cs, c.suppressed options = false ∧ c.parent.UID = p ∧ c.obj.UID = id) ∧
      (∀ id, (od.GetObject id).isSome = true ↔
        ∃ c ∈ cs, c.suppressed options = false ∧ c.obj.UID = id) ∧
      (∀ id o, od.GetObject id = some o →
        ∃ c ∈ cs, c.suppressed options = false ∧ c.obj.UID = id ∧ o = c.stored options ∧
          IsGroupingObject o = false ∧ IsGroupObject o = IsGroupObject c.obj) := by
  have hPlain : ∀ c ∈ cs, IsGroupingObject c.parent = false := by
    intro c hc
    rcases hParents c hc with h | ⟨c0, hc0, h⟩
    · exact h
    · rw [h]
      exact stored_IsGroupingObject options c0 hToggle (hObjs c0 hc0)
  obtain ⟨od, hrun, hown, hitems, _, hin⟩ :=
    runAdds_under_plain_parents options cs (newObjectTree options) rfl hPlain
  have hitems2 : ∀ id o, od.GetObject id = some o →
      ∃ c ∈ cs, c.suppressed options = false ∧ c.obj.UID = id ∧ o = c.stored options := by
    intro id o h
    rcases hitems id o h with h0 | h1
    · simp [ObjectTree.GetObject, newObjectTree] at h0
    · exact h1
  refine ⟨od, hrun, ?_, ?_, ?_⟩
  · intro p id
    rw [hown p id]
    simp [newObjectTree, UIDSet.empty]
  · intro id
    constructor
    · intro h
      obtain ⟨o, ho⟩ := Option.isSome_iff_exists.mp h
      obtain ⟨c, hc, hs, hid, _⟩ := hitems2 id o ho
      exact ⟨c, hc, hs, hid⟩
    · rintro ⟨c, hc, hs, rfl⟩
      exact hin c hc hs
  · intro id o h
    obtain ⟨c, hc, hs, hid, ho⟩ := hitems2 id o h
    refine ⟨c, hc, hs, hid, ho, ?_, ?_⟩
    · rw [ho]
      exact stored_IsGroupingObject options c hToggle (hObjs c hc)
    · rw [ho]
      unfold AddCall.stored
      exact IsGroupObject_marks _ _ _

/-- The calls of `ungroupedCalls` on a tree whose `DisableGroupObjects` is
true: the two machines with equivalent readiness stay two children. -/
theorem runAdds_disableGroupObjects_witness :
    ({ DisableGroupObjects := true } : objectTreeOptions).DisableGroupObjects = true ∧
    (∀ c ∈ ungroupedCalls, IsGroupingObject c.obj = false) ∧
    (∀ c ∈ ungroupedCalls, IsGroupingObject c.parent = false ∨
      ∃ c0 ∈ ungroupedCalls, c.parent = c0.stored { DisableGroupObjects := true }) ∧
    ∃ od, runAdds (newObjectTree { DisableGroupObjects := true }) ungroupedCalls = some od ∧
      (∀ p id, id ∈ (od.ownership p).elems ↔
        ∃ c ∈ ungroupedCalls, c.suppressed { DisableGroupObjects := true } = false ∧
          c.parent.UID = p ∧ c.obj.UID = id) ∧
      (∀ id, (od.GetObject id).isSome = true ↔
        ∃ c ∈ ungroupedCalls, c.suppressed { DisableGroupObjects := true } = false ∧
          c.obj.UID = id) ∧
      (∀ id o, od.GetObject id = some o →
        ∃ c ∈ ungroupedCalls, c.suppressed { DisableGroupObjects := true } = false ∧
          c.obj.UID = id ∧ o = c.stored { DisableGroupObjects := true } ∧
          IsGroupingObject o = false ∧ IsGroupObject o = IsGroupObject c.obj) :=
  ⟨rfl, by decide, by decide,
    runAdds_disableGroupObjects { DisableGroupObjects := true } ungroupedCalls rfl
      (by decide) (by decide)⟩

/-! ## Member lists of group nodes -/

theorem containsChars_snoc2 (l : List Char) (c d : Char) :
    containsChars [',', ' '] (l ++ [c, d]) =
      (containsChars [',', ' '] (l ++ [c]) || (',' == c && ' ' == d)) := by
  induction l with
  | nil => simp [containsChars, List.isPrefixOf]
  | cons a rest ih =>
    cases rest with
    | nil => simp [containsChars, List.isPrefixOf, Bool.or_assoc]
    | cons b tail =>
      simp only [List.cons_append, containsChars, List.isPrefixOf, Bool.and_true] at ih ⊢
      rw [ih]
      simp [Bool.or_assoc]

/-- No piece that `splitGo` cuts contains the separator: the piece being read,
extended by the next character, is free of it. -/
theorem splitGo_pieces_free (cs : List Char) :
    ∀ (cur : List Char) (skip : Nat),
      (skip = 0 → containsChars [',', ' '] (cur ++ cs.take 1) = false) →
      (0 < skip → cur = []) →
      ∀ piece ∈ splitGo [',', ' '] cs cur skip, containsChars [',', ' '] piece = false := by
  induction cs with
  | nil =>
    intro cur skip h0 h1 piece hp
    simp only [splitGo, List.mem_singleton] at hp
    subst hp
    rcases Nat.eq_zero_or_pos skip with hz | hpos
    · simpa using h0 hz
    · rw [h1 hpos]; rfl
  | cons c rest ih =>
    intro cur skip h0 h1 piece hp
    cases skip with
    | succ k =>
      rw [splitGo] at hp
      have hcur := h1 (Nat.succ_pos k)
      subst hcur
      refine ih [] k ?_ (fun _ => rfl) piece hp
      intro _
      cases rest with
      | nil => rfl
      | cons d tail => simp [containsChars, List.isPrefixOf]
    | zero =>
      have hgood := h0 rfl
      simp only [List.take_succ_cons, List.take_zero] at hgood
      rw [splitGo] at hp
      split at hp
      · rcases List.mem_cons.mp hp with rfl | hp
        · cases hcur : containsChars [',', ' '] piece with
          | false => rfl
          | true =>
            exfalso
            have : ∀ (l : List Char) (x : Char), containsChars [',', ' '] l = true →
                containsChars [',', ' '] (l ++ [x]) = true := by
              intro l x
              induction l with
              | nil => intro h; simp [containsChars] at h
              | cons a tail iht =>
                intro h
                cases tail with
                | nil => simp [containsChars, List.isPrefixOf] at h
                | cons b tail2 =>
                  simp only [containsChars, List.isPrefixOf, Bool.and_true,
                    Bool.or_eq_true, Bool.and_eq_true, List.cons_append] at h iht ⊢
                  rcases h with h | h
                  · exact Or.inl h
                  · exact Or.inr (iht h)
            have h2 := this piece c hcur
            rw [hgood] at h2
            exact Bool.noConfusion h2
        · exact ih [] 1 (fun h => absurd h (by decide)) (fun _ => rfl) piece hp
      · rename_i hnp
        refine ih (cur ++ [c]) 0 ?_ (fun h => absurd h (by decide)) piece hp
        intro _
        cases rest with
        | nil => simpa using hgood
        | cons d tail =>
          simp only [List.take_succ_cons, List.take_zero, List.append_assoc,
            List.singleton_append]
          rw [containsChars_snoc2, hgood]
          simp only [List.isPrefixOf, Bool.and_true, Bool.and_eq_true, beq_iff_eq,
            not_and] at hnp
          simp only [Bool.false_or]
          cases hcd : (',' == c && ' ' == d) with
          | false => rfl
          | true =>
            simp only [Bool.and_eq_true, beq_iff_eq] at hcd
            exact absurd hcd.2 (hnp hcd.1)

/-- The pieces of `strings.Split(s, ", ")` do not contain the separator. -/
theorem stringsSplit_pieces_free (s : String) :
    ∀ x ∈ stringsSplit s GroupItemsSeparator, hasSeparator x = false := by
  intro x hx
  have hsep : GroupItemsSeparator.data = [',', ' '] := rfl
  unfold stringsSplit at hx
  rw [if_neg (by rw [hsep]; simp)] at hx
  rw [hsep] at hx
  obtain ⟨piece, hpiece, rfl⟩ := List.mem_map.mp hx
  unfold hasSeparator
  rw [hsep]
  refine splitGo_pieces_free s.data [] 0 ?_ (fun h => absurd h (by decide)) piece hpiece
  intro _
  cases s.data with
  | nil => rfl
  | cons d tail => simp [containsChars, List.isPrefixOf]

theorem stringsSplit_ne_nil (s : String) : stringsSplit s GroupItemsSeparator ≠ [] := by
  have hsep : GroupItemsSeparator.data = [',', ' '] := rfl
  have hgo : ∀ (cs cur : List Char) (skip : Nat), splitGo [',', ' '] cs cur skip ≠ [] := by
    intro cs
    induction cs with
    | nil => intro cur skip; simp [splitGo]
    | cons c rest ih =>
      intro cur skip
      cases skip with
      | succ k => rw [splitGo]; exact ih cur k
      | zero =>
        rw [splitGo]
        split
        · simp
        · exact ih _ 0
  unfold stringsSplit
  rw [if_neg (by rw [hsep]; simp), hsep]
  intro h
  exact hgo _ _ _ (List.map_eq_nil_iff.mp h)

theorem createGroupNode_Annotations (s obj : Object) (sReady objReady : Option Condition)
    (env : Env) (g : Object) (h : createGroupNode s sReady obj objReady env = some g) :
    g.Annotations =
      mapStore (mapStore [( VirtualObjectAnnotation, "True")] GroupObjectAnnotation "True")
        GroupItemsAnnotation (stringsJoin (sortStrings [obj.Name, s.Name]) GroupItemsSeparator) := by
  unfold createGroupNode at h
  simp only at h
  split at h
  · cases h; rfl
  · split at h
    · cases h
    · cases h; rfl

theorem updateGroupNode_Annotations (s obj : Object) (sReady objReady : Option Condition)
    (env : Env) (s1 : Object) (h : updateGroupNode s sReady obj objReady env = some s1) :
    s1.Annotations =
      mapStore s.Annotations GroupItemsAnnotation
        (stringsJoin (sortStrings (stringsSplit (GetGroupItems s) GroupItemsSeparator ++
          [obj.Name])) GroupItemsSeparator) := by
  unfold updateGroupNode at h
  simp only at h
  split at h
  · cases h; rfl
  · split at h
    · cases h
    · cases h; rfl

theorem createGroupNode_returns (s obj : Object) (sReady objReady : Option Condition)
    (env : Env) (h : hasSameReadyStatusSeverityAndReason objReady sReady = true) :
    ∃ g, createGroupNode s sReady obj objReady env = some g := by
  obtain ⟨t, ht⟩ := minLastTransitionTime_of_same _ _ h
  unfold createGroupNode
  cases objReady with
  | none => exact ⟨_, rfl⟩
  | some r => simp only [ht]; exact ⟨_, rfl⟩

theorem updateGroupNode_returns (s obj : Object) (sReady objReady : Option Condition)
    (env : Env) (h : hasSameReadyStatusSeverityAndReason objReady sReady = true) :
    ∃ s1, updateGroupNode s sReady obj objReady env = some s1 := by
  obtain ⟨t, ht⟩ := minLastTransitionTime_of_same _ _ h
  unfold updateGroupNode
  cases sReady with
  | none => exact ⟨_, rfl⟩
  | some r => simp only [ht]; exact ⟨_, rfl⟩

/-- The member list read back from a joined list of names without separator. -/
theorem memberList_of_items (g : Object) (l : List String) (hne : l ≠ [])
    (hfree : ∀ x ∈ l, hasSeparator x = false)
    (h : GetGroupItems g = stringsJoin (sortStrings l) GroupItemsSeparator) :
    memberList g = sortStrings l := by
  unfold memberList
  rw [h]
  apply stringsSplit_stringsJoin
  · intro hnil
    have := (sortStrings_perm l).length_eq
    rw [hnil] at this
    exact hne (List.length_eq_zero.mp this.symm)
  · intro x hx
    exact hfree x ((sortStrings_perm l).mem_iff.mp hx)

/-- The node `createGroupNode` returns carries the group-node marker and has
the two names, sorted, as member list. -/
theorem memberList_createGroupNode (s obj : Object) (sReady objReady : Option Condition)
    (env : Env) (g : Object) (hs : hasSeparator s.Name = false)
    (ho : hasSeparator obj.Name = false)
    (hg : createGroupNode s sReady obj objReady env = some g) :
    IsGroupObject g = true ∧ memberList g = sortStrings [obj.Name, s.Name] := by
  have hA := createGroupNode_Annotations s obj sReady objReady env g hg
  have hitems : GetGroupItems g =
      stringsJoin (sortStrings [obj.Name, s.Name]) GroupItemsSeparator := by
    simp only [GetGroupItems, getAnnotation, hA, mapLookup_mapStore_same]
  constructor
  · have hlook : mapLookup g.Annotations GroupObjectAnnotation = some "True" := by
      rw [hA, mapLookup_mapStore_other _ _ _ _ (by decide), mapLookup_mapStore_same]
    simp only [IsGroupObject, getBoolAnnotation, hlook]
    rfl
  · apply memberList_of_items g _ (by simp) _ hitems
    intro x hx
    simp only [List.mem_cons, List.mem_singleton, List.not_mem_nil, or_false] at hx
    rcases hx with rfl | rfl
    · exact ho
    · exact hs

/-- The node `updateGroupNode` returns is a group node when the node was one,
and has the previous members and the new name, sorted, as member list. -/
theorem memberList_updateGroupNode (g obj : Object) (gReady objReady : Option Condition)
    (env : Env) (g1 : Object) (ho : hasSeparator obj.Name = false)
    (hg1 : updateGroupNode g gReady obj objReady env = some g1) :
    IsGroupObject g1 = IsGroupObject g ∧
      memberList g1 = sortStrings (memberList g ++ [obj.Name]) := by
  have hA := updateGroupNode_Annotations g obj gReady objReady env g1 hg1
  have hitems : GetGroupItems g1 =
      stringsJoin (sortStrings (memberList g ++ [obj.Name])) GroupItemsSeparator := by
    simp only [GetGroupItems, getAnnotation, hA, mapLookup_mapStore_same, memberList]
  constructor
  · apply IsGroupObject_congr
    simp only [ getAnnotation, hA]
    exact mapLookup_mapStore_other _ _ _ _ (by decide)
  · apply memberList_of_items g1 _ (by simp) _ hitems
    intro x hx
    rcases List.mem_append.mp hx with hx | hx
    · exact stringsSplit_pieces_free _ x hx
    · rw [List.mem_singleton.mp hx]
      exact ho

/-- Claim C24: the member list of a group node, the group-items annotation cut
at the separator, is well formed after every operation on it, provided the
names do not contain the separator.  `createGroupNode` returns for two objects
with equivalent readiness, and every node it returns carries the group-node
marker and has as member list the two names in sorted order.  `updateGroupNode`
returns for an object with readiness equivalent to the one of the node, and
every node it returns has as member list the previous members and the new name
in sorted order: one entry more than before, hence at least two, in
non-decreasing order, whatever the node was before the call. -/
theorem group_member_list_well_formed :
    (∀ (s obj : Object) (sReady objReady : Option Condition) (env : Env),
      hasSeparator s.Name = false → hasSeparator obj.Name = false →
      (hasSameReadyStatusSeverityAndReason objReady sReady = true →
        ∃ g, createGroupNode s sReady obj objReady env = some g) ∧
      ∀ g, createGroupNode s sReady obj objReady env = some g →
        IsGroupObject g = true ∧
        memberList g = sortStrings [obj.Name, s.Name] ∧
        (memberList g).Perm [s.Name, obj.Name] ∧
        (memberList g).length = 2 ∧
        (memberList g).Pairwise stringLe) ∧
    (∀ (g obj : Object) (gReady objReady : Option Condition) (env : Env),
      hasSeparator obj.Name = false →
      (hasSameReadyStatusSeverityAndReason objReady gReady = true →
        ∃ g1, updateGroupNode g gReady obj objReady env = some g1) ∧
      ∀ g1, updateGroupNode g gReady obj objReady env = some g1 →
        IsGroupObject g1 = IsGroupObject g ∧
        memberList g1 = sortStrings (memberList g ++ [obj.Name]) ∧
        (memberList g1).Perm (obj.Name :: memberList g) ∧
        (memberList g1).length = (memberList g).length + 1 ∧
        2 ≤ (memberList g1).length ∧
        (memberList g1).Pairwise stringLe) := by
  constructor
  · intro s obj sReady objReady env hs ho
    refine ⟨createGroupNode_returns s obj sReady objReady env, ?_⟩
    intro g hg
    obtain ⟨hgroup, hml⟩ := memberList_createGroupNode s obj sReady objReady env g hs ho hg
    have hperm := sortStrings_perm [obj.Name, s.Name]
    refine ⟨hgroup, hml, ?_, ?_, ?_⟩
    · rw [hml]
      exact hperm.trans (List.Perm.swap _ _ _)
    · rw [hml, hperm.length_eq]
      rfl
    · rw [hml]
      exact sortStrings_sorted _
  · intro g obj gReady objReady env ho
    refine ⟨updateGroupNode_returns g obj gReady objReady env, ?_⟩
    intro g1 hg1
    obtain ⟨hgroup, hml⟩ := memberList_updateGroupNode g obj gReady objReady env g1 ho hg1
    have hperm := sortStrings_perm (memberList g ++ [obj.Name])
    have hlen : (memberList g1).length = (memberList g).length + 1 := by
      rw [hml, hperm.length_eq, List.length_append]
      rfl
    have hpos : 0 < (memberList g).length :=
      List.length_pos.mpr (stringsSplit_ne_nil _)
    refine ⟨hgroup, hml, ?_, hlen, by omega, ?_⟩
    · rw [hml]
      exact hperm.trans (List.perm_append_comm.trans (List.Perm.refl _))
    · rw [hml]
      exact sortStrings_sorted _

/-! ## Mutually exclusive siblings -/

theorem hasSame_congr_left (a b c : Option Condition)
    (h : hasSameReadyStatusSeverityAndReason a b = true) :
    hasSameReadyStatusSeverityAndReason a c = hasSameReadyStatusSeverityAndReason b c := by
  cases a with
  | none =>
    cases b with
    | none => rfl
    | some y => simp [hasSameReadyStatusSeverityAndReason] at h
  | some x =>
    cases b with
    | none => simp [hasSameReadyStatusSeverityAndReason] at h
    | some y =>
      obtain ⟨h1, h2, h3⟩ := (hasSame_some_iff x y).mp h
      cases c with
      | none => rfl
      | some z => simp only [hasSameReadyStatusSeverityAndReason, h1, h2, h3]

/-- A readiness that is absent when `r` is absent and has the status, severity
and reason of `r` otherwise is equivalent to `r`. -/
theorem hasSame_of_fields (r1 r : Option Condition)
    (hnone : r = none → r1 = none)
    (hsome : ∀ x, r = some x → ∃ y, r1 = some y ∧
      y.Status = x.Status ∧ y.Severity = x.Severity ∧ y.Reason = x.Reason ∧ y.Message = "") :
    hasSameReadyStatusSeverityAndReason r1 r = true := by
  cases r with
  | none => rw [hnone rfl]; rfl
  | some x =>
    obtain ⟨y, hy, h1, h2, h3, _⟩ := hsome x rfl
    rw [hy]
    exact (hasSame_some_iff y x).mpr ⟨h1, h2, h3⟩

/-- A call of `add` under a grouping parent keeps the children of that parent
mutually exclusive, and returns. -/
theorem Exclusive.kept_by_add (od : ObjectTree) (parent obj : Object)
    (opts : List AddObjectOption) (env : Env) (h : Exclusive od parent.UID)
    (hGrouping : IsGroupingObject parent = true) :
    ∃ od1, od.add parent obj opts env = some od1 ∧ Exclusive od1 parent.UID := by
  by_cases hecho : isEcho od (AddObjectOptions.ApplyOptions {} opts) (GetReadyCondition parent)
      (GetReadyCondition obj) = true
  · refine ⟨od, ?_, h⟩
    unfold ObjectTree.add
    simp only [hecho, if_true]
  · have hecho2 : isEcho od (AddObjectOptions.ApplyOptions {} opts) (GetReadyCondition parent)
        (GetReadyCondition obj) = false := by simpa using hecho
    cases hm : od.matchingSibling (GetReadyCondition obj)
        (od.childKeys parent.UID env.order) with
    | none =>
      have hnone := matchingSibling_none _ _ _ hm
      have hno : ∀ k ∈ (od.ownership parent.UID).elems,
          hasSameReadyStatusSeverityAndReason (GetReadyCondition obj)
            ((od.GetObject k).bind GetReadyCondition) = false := by
        intro k hk
        exact hnone k ((env.order.perm _).mem_iff.mpr hk)
      refine ⟨_, add_eq_addInner od parent obj opts env hecho2 (Or.inr hno), ?_⟩
      have hUID : (markGrouping od (AddObjectOptions.ApplyOptions {} opts)
          (markMetaName (AddObjectOptions.ApplyOptions {} opts) (markDebug od obj))).UID =
          obj.UID := by simp
      have hitem : ∀ id, (od.addInner parent (markGrouping od
          (AddObjectOptions.ApplyOptions {} opts)
          (markMetaName (AddObjectOptions.ApplyOptions {} opts) (markDebug od obj)))).GetObject
            id = if id = obj.UID then
              some (markGrouping od (AddObjectOptions.ApplyOptions {} opts)
                (markMetaName (AddObjectOptions.ApplyOptions {} opts) (markDebug od obj)))
            else od.GetObject id := by
        intro id
        simp only [ObjectTree.GetObject, ObjectTree.addInner, hUID]
      have hready : ∀ id, (od.addInner parent (markGrouping od
          (AddObjectOptions.ApplyOptions {} opts)
          (markMetaName (AddObjectOptions.ApplyOptions {} opts) (markDebug od obj)))).readyOf
            id = if id = obj.UID then GetReadyCondition obj else od.readyOf id := by
        intro id
        unfold ObjectTree.readyOf
        rw [hitem]
        split
        · simp only [Option.some_bind]
          exact GetReadyCondition_marks _ _ _
        · rfl
      constructor
      · intro k hk
        rw [mem_ownership_addInner, hUID] at hk
        rw [hitem]
        by_cases hko : k = obj.UID
        · rw [if_pos hko]
          exact ⟨_, rfl, hUID.trans hko.symm⟩
        · rw [if_neg hko]
          rcases hk with ⟨_, hk⟩ | hk
          · exact absurd hk hko
          · exact h.present k hk
      · intro k1 hk1 k2 hk2 hne
        rw [mem_ownership_addInner, hUID] at hk1 hk2
        rw [hready, hready]
        by_cases h1 : k1 = obj.UID
        · have h2 : k2 ≠ obj.UID := fun h2 => hne (h1.trans h2.symm)
          rw [if_pos h1, if_neg h2]
          rcases hk2 with ⟨_, hk2⟩ | hk2
          · exact absurd hk2 h2
          · exact hno k2 hk2
        · rw [if_neg h1]
          rcases hk1 with ⟨_, hk1⟩ | hk1
          · exact absurd hk1 h1
          · by_cases h2 : k2 = obj.UID
            · rw [if_pos h2, hasSame_symm]
              exact hno k1 hk1
            · rw [if_neg h2]
              rcases hk2 with ⟨_, hk2⟩ | hk2
              · exact absurd hk2 h2
              · exact h.exclusive k1 hk1 k2 hk2 hne
    | some k =>
      obtain ⟨hkmem, hsame⟩ := matchingSibling_some _ _ _ _ hm
      have hk : k ∈ (od.ownership parent.UID).elems := (env.order.perm _).mem_iff.mp hkmem
      obtain ⟨s, hs, hsUID⟩ := h.present k hk
      rw [hs] at hsame
      simp only [Option.some_bind] at hsame
      have hreadyk : od.readyOf k = GetReadyCondition s := by
        unfold ObjectTree.readyOf; rw [hs]; rfl
      by_cases hg : IsGroupObject s = true
      · obtain ⟨s1, hu, hUID1, _, _, _, _, _, hrn, hrs⟩ :=
          updateGroupNode_spec s (markMetaName (AddObjectOptions.ApplyOptions {} opts)
            (markDebug od obj)) (GetReadyCondition obj) env hsame
        refine ⟨_, add_eq_update od parent obj opts env k s s1 hecho2 hGrouping hm hs hg hu, ?_⟩
        have hclass : hasSameReadyStatusSeverityAndReason (GetReadyCondition s1)
            (GetReadyCondition s) = true := hasSame_of_fields _ _ hrn hrs
        have hready : ∀ x c, hasSameReadyStatusSeverityAndReason (ObjectTree.readyOf
            { od with items := fun id => if id = k then some s1 else od.items id } x) c =
            hasSameReadyStatusSeverityAndReason (od.readyOf x) c := by
          intro id c
          unfold ObjectTree.readyOf ObjectTree.GetObject
          simp only
          by_cases hid : id = k
          · rw [if_pos hid, hid]
            show hasSameReadyStatusSeverityAndReason (GetReadyCondition s1) c = _
            rw [hasSame_congr_left _ _ c hclass]
            have := hs
            unfold ObjectTree.GetObject at this
            rw [this]
            rfl
          · rw [if_neg hid]
        constructor
        · intro k1 hk1
          show ∃ o, (if k1 = k then some s1 else od.items k1) = some o ∧ o.UID = k1
          by_cases hid : k1 = k
          · rw [if_pos hid]
            exact ⟨s1, rfl, hUID1.trans (hsUID.trans hid.symm)⟩
          · rw [if_neg hid]
            exact h.present k1 hk1
        · intro k1 hk1 k2 hk2 hne
          rw [hready, hasSame_symm, hready, hasSame_symm]
          exact h.exclusive k1 hk1 k2 hk2 hne
      · have hg2 : IsGroupObject s = false := by simpa using hg
        obtain ⟨g, hc, hgUID, _, _, _, hrn, hrs⟩ :=
          createGroupNode_spec s (markMetaName (AddObjectOptions.ApplyOptions {} opts)
            (markDebug od obj)) (GetReadyCondition s) (GetReadyCondition obj) env hsame
            (fun r hr => GetReadyCondition_type obj r hr)
        refine ⟨_, add_eq_create od parent obj opts env k s g hecho2 hGrouping hm hs hg2 hc, ?_⟩
        have hclass : hasSameReadyStatusSeverityAndReason (GetReadyCondition g)
            (GetReadyCondition obj) = true := hasSame_of_fields _ _ hrn hrs
        have hitem : ∀ id, ((od.addInner parent g).remove parent s).GetObject id =
            if id = k then none else if id = g.UID then some g else od.GetObject id := by
          intro id
          simp only [ObjectTree.GetObject, ObjectTree.addInner, ObjectTree.remove, hsUID]
        have hmem : ∀ id, id ∈ (((od.addInner parent g).remove parent s).ownership
            parent.UID).elems → id ≠ k ∧ (id = g.UID ∨ id ∈ (od.ownership parent.UID).elems) := by
          intro id hid
          rw [mem_ownership_remove, mem_ownership_addInner, hsUID] at hid
          refine ⟨fun hk => hid.2 ⟨rfl, hk⟩, ?_⟩
          rcases hid.1 with ⟨_, h1⟩ | h1
          · exact Or.inl h1
          · exact Or.inr h1
        have hready : ∀ id, id ≠ k →
            ((od.addInner parent g).remove parent s).readyOf id =
              if id = g.UID then GetReadyCondition g else od.readyOf id := by
          intro id hid
          unfold ObjectTree.readyOf
          rw [hitem, if_neg hid]
          split <;> rfl
        have hgk : ∀ k2, k2 ∈ (od.ownership parent.UID).elems → k2 ≠ k →
            hasSameReadyStatusSeverityAndReason (GetReadyCondition g) (od.readyOf k2) =
              false := by
          intro k2 hk2 hne
          rw [hasSame_congr_left _ _ _ hclass, hasSame_congr_left _ _ _ hsame, ← hreadyk]
          exact h.exclusive k hk k2 hk2 (fun e => hne e.symm)
        constructor
        · intro k1 hk1
          obtain ⟨hne, hor⟩ := hmem k1 hk1
          rw [hitem, if_neg hne]
          by_cases hid : k1 = g.UID
          · rw [if_pos hid]
            exact ⟨g, rfl, hid.symm⟩
          · rw [if_neg hid]
            rcases hor with h1 | h1
            · exact absurd h1 hid
            · exact h.present k1 h1
        · intro k1 hk1 k2 hk2 hne
          obtain ⟨hne1, hor1⟩ := hmem k1 hk1
          obtain ⟨hne2, hor2⟩ := hmem k2 hk2
          rw [hready k1 hne1, hready k2 hne2]
          by_cases h1 : k1 = g.UID
          · have h2 : k2 ≠ g.UID := fun h2 => hne (h1.trans h2.symm)
            rw [if_pos h1, if_neg h2]
            rcases hor2 with h2' | h2'
            · exact absurd h2' h2
            · exact hgk k2 h2' hne2
          · rw [if_neg h1]
            rcases hor1 with h1' | h1'
            · exact absurd h1' h1
            · by_cases h2 : k2 = g.UID
              · rw [if_pos h2, hasSame_symm]
                exact hgk k1 h1' hne1
              · rw [if_neg h2]
                rcases hor2 with h2' | h2'
                · exact absurd h2' h2
                · exact h.exclusive k1 h1' k2 h2' hne

/-- Every sequence of calls of `add` under a grouping parent returns and keeps
its children mutually exclusive. -/
theorem Exclusive.kept_by_runAdds (pid : String) (cs : List AddCall) :
    ∀ od : ObjectTree, Exclusive od pid →
      (∀ c ∈ cs, c.parent.UID = pid ∧ IsGroupingObject c.parent = true) →
      ∃ od1, runAdds od cs = some od1 ∧ Exclusive od1 pid := by
  induction cs with
  | nil => intro od h _; exact ⟨od, rfl, h⟩
  | cons c rest ih =>
    intro od h hcs
    obtain ⟨hpid, hgr⟩ := hcs c (List.mem_cons_self _ _)
    obtain ⟨od1, hadd, h1⟩ := Exclusive.kept_by_add od c.parent c.obj c.opts c.env (hpid ▸ h) hgr
    obtain ⟨od2, hrun, h2⟩ := ih od1 (hpid ▸ h1) (fun x hx => hcs x (List.mem_cons_of_mem _ hx))
    exact ⟨od2, by simp only [runAdds, hadd]; exact hrun, h2⟩

theorem matchingSibling_eq_none (od : ObjectTree) (objReady : Option Condition)
    (keys : List String)
    (h : ∀ k ∈ keys, hasSameReadyStatusSeverityAndReason objReady
      ((od.GetObject k).bind GetReadyCondition) = false) :
    od.matchingSibling objReady keys = none := by
  cases hm : od.matchingSibling objReady keys with
  | none => rfl
  | some k =>
    obtain ⟨hk, hsame⟩ := matchingSibling_some _ _ _ _ hm
    rw [h k hk] at hsame
    exact Bool.noConfusion hsame

/-- When at most one key matches, the sibling at which the loop of `add` stops
does not depend on the order of the keys. -/
theorem matchingSibling_perm (od : ObjectTree) (objReady : Option Condition)
    (keys1 keys2 : List String) (hperm : keys1.Perm keys2)
    (huniq : ∀ k1 ∈ keys2, ∀ k2 ∈ keys2,
      hasSameReadyStatusSeverityAndReason objReady (od.readyOf k1) = true →
      hasSameReadyStatusSeverityAndReason objReady (od.readyOf k2) = true → k1 = k2) :
    od.matchingSibling objReady keys1 = od.matchingSibling objReady keys2 := by
  cases hm : od.matchingSibling objReady keys2 with
  | none =>
    apply matchingSibling_eq_none
    intro k hk
    exact matchingSibling_none _ _ _ hm k (hperm.mem_iff.mp hk)
  | some k =>
    obtain ⟨hk, hsame⟩ := matchingSibling_some _ _ _ _ hm
    cases hm1 : od.matchingSibling objReady keys1 with
    | none =>
      have := matchingSibling_none _ _ _ hm1 k (hperm.mem_iff.mpr hk)
      rw [this] at hsame
      exact Bool.noConfusion hsame
    | some k1 =>
      obtain ⟨hk1, hsame1⟩ := matchingSibling_some _ _ _ _ hm1
      rw [huniq k1 (hperm.mem_iff.mp hk1) k hk hsame1 hsame]

/-- The sibling loop takes from its environment the random suffix and the
current time only. -/
theorem groupSiblings_env (od : ObjectTree) (parent obj : Object)
    (objReady : Option Condition) (env1 env2 : Env) (hrand : env1.rand = env2.rand)
    (hnow : env1.now = env2.now) (keys : List String) :
    groupSiblings od parent obj objReady env1 keys =
      groupSiblings od parent obj objReady env2 keys := by
  have hc : ∀ s sr, createGroupNode s sr obj objReady env1 =
      createGroupNode s sr obj objReady env2 := by
    intro s sr
    simp only [createGroupNode, hrand, hnow]
  have hu : ∀ s sr, updateGroupNode s sr obj objReady env1 =
      updateGroupNode s sr obj objReady env2 := by
    intro s sr
    simp only [updateGroupNode, hnow]
  induction keys with
  | nil => rfl
  | cons k rest ih => simp only [groupSiblings, hc, hu, ih]

/-- The sibling loop over two orders of the same keys, when at most one key
matches. -/
theorem groupSiblings_perm (od : ObjectTree) (parent obj : Object)
    (objReady : Option Condition) (env : Env) (keys1 keys2 : List String)
    (hperm : keys1.Perm keys2)
    (huniq : ∀ k1 ∈ keys2, ∀ k2 ∈ keys2,
      hasSameReadyStatusSeverityAndReason objReady (od.readyOf k1) = true →
      hasSameReadyStatusSeverityAndReason objReady (od.readyOf k2) = true → k1 = k2) :
    groupSiblings od parent obj objReady env keys1 =
      groupSiblings od parent obj objReady env keys2 := by
  have hm := matchingSibling_perm od objReady keys1 keys2 hperm huniq
  cases hm2 : od.matchingSibling objReady keys2 with
  | none =>
    rw [hm2] at hm
    rw [groupSiblings_fallThrough _ _ _ _ _ _ (matchingSibling_none _ _ _ hm),
      groupSiblings_fallThrough _ _ _ _ _ _ (matchingSibling_none _ _ _ hm2)]
  | some k =>
    rw [hm2] at hm
    rw [groupSiblings_matching _ _ _ _ _ _ _ hm, groupSiblings_matching _ _ _ _ _ _ _ hm2]

/-- At most one of mutually exclusive children matches a readiness. -/
theorem Exclusive.unique_match (od : ObjectTree) (pid : String) (h : Exclusive od pid)
    (objReady : Option Condition) :
    ∀ k1 ∈ (od.ownership pid).elems, ∀ k2 ∈ (od.ownership pid).elems,
      hasSameReadyStatusSeverityAndReason objReady (od.readyOf k1) = true →
      hasSameReadyStatusSeverityAndReason objReady (od.readyOf k2) = true → k1 = k2 := by
  intro k1 hk1 k2 hk2 h1 h2
  by_contra hne
  have hex := h.exclusive k1 hk1 k2 hk2 hne
  rw [hasSame_symm] at h1
  rw [hasSame_congr_left _ _ _ h1, h2] at hex
  exact Bool.noConfusion hex

/-- Claim C23: the children of a grouping parent are mutually exclusive.  When
the parent carries the grouping marker and has no child, every sequence of
calls of `add` under it returns, and afterwards every child has an item, no
two children have equivalent readiness, at most one child matches any
readiness, and the result of a further call of `add` under the parent is the
same for every order in which the children are enumerated. -/
theorem runAdds_children_exclusive (od : ObjectTree) (P : Object) (cs : List AddCall)
    (hGrouping : IsGroupingObject P = true)
    (hNoChildren : (od.ownership P.UID).elems = [])
    (hUnder : ∀ c ∈ cs, c.parent = P) :
    ∃ od1, runAdds od cs = some od1 ∧
      (∀ k ∈ (od1.ownership P.UID).elems, (od1.GetObject k).isSome = true) ∧
      (∀ k1 ∈ (od1.ownership P.UID).elems, ∀ k2 ∈ (od1.ownership P.UID).elems, k1 ≠ k2 →
        hasSameReadyStatusSeverityAndReason (od1.readyOf k1) (od1.readyOf k2) = false) ∧
      (∀ objReady : Option Condition,
        ∀ k1 ∈ (od1.ownership P.UID).elems, ∀ k2 ∈ (od1.ownership P.UID).elems,
          hasSameReadyStatusSeverityAndReason objReady (od1.readyOf k1) = true →
          hasSameReadyStatusSeverityAndReason objReady (od1.readyOf k2) = true → k1 = k2) ∧
      (∀ (obj : Object) (opts : List AddObjectOption) (env1 env2 : Env),
        env1.rand = env2.rand → env1.now = env2.now →
        od1.add P obj opts env1 = od1.add P obj opts env2) := by
  have h0 : Exclusive od P.UID := by
    constructor
    · intro k hk; rw [hNoChildren] at hk; simp at hk
    · intro k hk; rw [hNoChildren] at hk; simp at hk
  obtain ⟨od1, hrun, h1⟩ := Exclusive.kept_by_runAdds P.UID cs od h0
    (fun c hc => by rw [hUnder c hc]; exact ⟨rfl, hGrouping⟩)
  refine ⟨od1, hrun, ?_, h1.exclusive, Exclusive.unique_match od1 P.UID h1, ?_⟩
  · intro k hk
    obtain ⟨o, ho, _⟩ := h1.present k hk
    rw [ho]; rfl
  · intro obj opts env1 env2 hrand hnow
    by_cases hecho : isEcho od1 (AddObjectOptions.ApplyOptions {} opts) (GetReadyCondition P)
        (GetReadyCondition obj) = true
    · unfold ObjectTree.add
      simp only [hecho, if_true]
    · have hecho2 : isEcho od1 (AddObjectOptions.ApplyOptions {} opts) (GetReadyCondition P)
          (GetReadyCondition obj) = false := by simpa using hecho
      rw [add_eq_addOutcome od1 P obj opts env1 hecho2,
        add_eq_addOutcome od1 P obj opts env2 hecho2]
      simp only [hGrouping, if_true]
      rw [groupSiblings_env od1 P _ _ env1 env2 hrand hnow,
        groupSiblings_perm od1 P _ (GetReadyCondition obj) env2
          (od1.childKeys P.UID env1.order) (od1.childKeys P.UID env2.order)
          ((env1.order.perm _).trans (env2.order.perm _).symm)]
      intro k1 hk1 k2 hk2
      exact Exclusive.unique_match od1 P.UID h1 (GetReadyCondition obj)
        k1 ((env2.order.perm _).mem_iff.mp hk1) k2 ((env2.order.perm _).mem_iff.mp hk2)

/-- The calls of `mixedCalls`, on the empty tree, under `sampleParent`. -/
theorem runAdds_children_exclusive_witness :
    IsGroupingObject sampleParent = true ∧
    ((newObjectTree {}).ownership sampleParent.UID).elems = [] ∧
    (∀ c ∈ mixedCalls, c.parent = sampleParent) ∧
    ∃ od1, runAdds (newObjectTree {}) mixedCalls = some od1 ∧
      (∀ k ∈ (od1.ownership sampleParent.UID).elems, (od1.GetObject k).isSome = true) ∧
      (∀ k1 ∈ (od1.ownership sampleParent.UID).elems,
        ∀ k2 ∈ (od1.ownership sampleParent.UID).elems, k1 ≠ k2 →
        hasSameReadyStatusSeverityAndReason (od1.readyOf k1) (od1.readyOf k2) = false) ∧
      (∀ objReady : Option Condition,
        ∀ k1 ∈ (od1.ownership sampleParent.UID).elems,
        ∀ k2 ∈ (od1.ownership sampleParent.UID).elems,
          hasSameReadyStatusSeverityAndReason objReady (od1.readyOf k1) = true →
          hasSameReadyStatusSeverityAndReason objReady (od1.readyOf k2) = true → k1 = k2) ∧
      (∀ (obj : Object) (opts : List AddObjectOption) (env1 env2 : Env),
        env1.rand = env2.rand → env1.now = env2.now →
        od1.add sampleParent obj opts env1 = od1.add sampleParent obj opts env2) :=
  ⟨by decide, rfl, by decide,
    runAdds_children_exclusive (newObjectTree {}) sampleParent mixedCalls (by decide) rfl
      (by decide)⟩

/-! ## Names kept by grouping -/

theorem namesOfAll_congr (od1 od2 : ObjectTree) (l : List String)
    (h : ∀ k ∈ l, od1.namesOf k = od2.namesOf k) : od1.namesOfAll l = od2.namesOfAll l := by
  induction l with
  | nil => rfl
  | cons k rest ih =>
    simp only [ObjectTree.namesOfAll]
    rw [h k (List.mem_cons_self _ _), ih (fun x hx => h x (List.mem_cons_of_mem _ hx))]

theorem namesOfAll_append (od : ObjectTree) (a b : List String) :
    od.namesOfAll (a ++ b) = od.namesOfAll a ++ od.namesOfAll b := by
  induction a with
  | nil => rfl
  | cons k rest ih =>
    show od.namesOf k ++ od.namesOfAll (rest ++ b) = _
    rw [ih]
    simp only [ObjectTree.namesOfAll, List.append_assoc]

theorem filter_ne_of_not_mem (l : List String) (k : String)
    (h : k ∉ l) : l.filter (fun x => x != k) = l := by
  apply List.filter_eq_self.mpr
  intro x hx
  simp only [bne_iff_ne, ne_eq]
  intro hxk
  exact h (hxk ▸ hx)

/-- The names of the children, with the names of one child put first. -/
theorem namesOfAll_split (od : ObjectTree) (l : List String) (k : String)
    (hnodup : l.Nodup) (hk : k ∈ l) :
    (od.namesOfAll l).Perm (od.namesOf k ++ od.namesOfAll (l.filter (fun x => x != k))) := by
  induction l with
  | nil => simp at hk
  | cons a rest ih =>
    obtain ⟨ha, hrest⟩ := List.nodup_cons.mp hnodup
    by_cases hak : a = k
    · subst hak
      have hf : (a :: rest).filter (fun x => x != a) = rest := by
        rw [List.filter_cons_of_neg (by simp)]
        exact filter_ne_of_not_mem rest a ha
      rw [hf]
      exact List.Perm.refl _
    · have hk2 : k ∈ rest := by
        rcases List.mem_cons.mp hk with h | h
        · exact absurd h.symm hak
        · exact h
      have hf : (a :: rest).filter (fun x => x != k) = a :: rest.filter (fun x => x != k) := by
        rw [List.filter_cons_of_pos (by simpa using hak)]
      rw [hf]
      simp only [ObjectTree.namesOfAll]
      have := (ih hrest hk2).append_left (od.namesOf a)
      refine this.trans ?_
      rw [← List.append_assoc, ← List.append_assoc]
      exact List.Perm.append_right _ List.perm_append_comm

theorem mem_namesOfAll (od : ObjectTree) (l : List String) (k x : String) (hk : k ∈ l)
    (hx : x ∈ od.namesOf k) : x ∈ od.namesOfAll l := by
  induction l with
  | nil => simp at hk
  | cons a rest ih =>
    simp only [ObjectTree.namesOfAll, List.mem_append]
    rcases List.mem_cons.mp hk with h | h
    · left; rw [← h]; exact hx
    · right; exact ih h

theorem UIDSet.insert_elems_of_not_mem (S : UIDSet) (x : String) (h : x ∉ S.elems) :
    (S.insert x).elems = S.elems ++ [x] := by
  unfold UIDSet.insert
  rw [dif_neg h]

/-- A call of `add` without `NoEcho`, under a grouping parent, of an object
that is no group node, whose name is free of the separator and whose
identities are new, keeps the invariant of the names with the name of the
object added. -/
theorem NamesInv.extended_by_add (od : ObjectTree) (parent obj : Object)
    (opts : List AddObjectOption) (env : Env) (ids names : List String)
    (h : NamesInv od parent.UID ids names)
    (hGrouping : IsGroupingObject parent = true)
    (hNoEcho : (AddObjectOptions.ApplyOptions {} opts).NoEcho = false)
    (hPlain : IsGroupObject obj = false)
    (hSep : hasSeparator obj.Name = false)
    (hSepNames : ∀ x ∈ names, hasSeparator x = false)
    (hobj : obj.UID ∉ ids) (hgroup : groupNodeUID obj env.rand ∉ ids) :
    ∃ od1, od.add parent obj opts env = some od1 ∧
      NamesInv od1 parent.UID (obj.UID :: groupNodeUID obj env.rand :: ids)
        (obj.Name :: names) := by
  have hecho := isEcho_of_noEcho_false od _ (GetReadyCondition parent) (GetReadyCondition obj)
    hNoEcho
  have hSep1 : hasSeparator (markMetaName (AddObjectOptions.ApplyOptions {} opts)
      (markDebug od obj)).Name = false := by
    simpa using hSep
  have hName1 : (markMetaName (AddObjectOptions.ApplyOptions {} opts)
      (markDebug od obj)).Name = obj.Name := by simp
  cases hm : od.matchingSibling (GetReadyCondition obj)
      (od.childKeys parent.UID env.order) with
  | none =>
    have hnone := matchingSibling_none _ _ _ hm
    have hno : ∀ k ∈ (od.ownership parent.UID).elems,
        hasSameReadyStatusSeverityAndReason (GetReadyCondition obj)
          ((od.GetObject k).bind GetReadyCondition) = false := by
      intro k hk
      exact hnone k ((env.order.perm _).mem_iff.mpr hk)
    refine ⟨_, add_eq_addInner od parent obj opts env hecho (Or.inr hno), ?_⟩
    generalize hS : markGrouping od (AddObjectOptions.ApplyOptions {} opts)
      (markMetaName (AddObjectOptions.ApplyOptions {} opts) (markDebug od obj)) = objS
    have hUID : objS.UID = obj.UID := by rw [← hS]; simp
    have hSName : objS.Name = obj.Name := by rw [← hS]; exact Name_marks _ _ _
    have hSGroup : IsGroupObject objS = false := by
      rw [← hS, IsGroupObject_marks]; exact hPlain
    have hnotmem : obj.UID ∉ (od.ownership parent.UID).elems := fun hk => hobj (h.known _ hk)
    have hown : (od.addInner parent objS).ownership parent.UID =
        (od.ownership parent.UID).insert obj.UID := by
      simp [ObjectTree.addInner, hUID]
    have helems : ((od.addInner parent objS).ownership parent.UID).elems =
        (od.ownership parent.UID).elems ++ [obj.UID] := by
      rw [hown, UIDSet.insert_elems_of_not_mem _ _ hnotmem]
    have hitem : ∀ id, (od.addInner parent objS).GetObject id =
        if id = obj.UID then some objS else od.GetObject id := by
      intro id
      simp only [ObjectTree.GetObject, ObjectTree.addInner, hUID]
    have hnamesOld : ∀ k ∈ (od.ownership parent.UID).elems,
        (od.addInner parent objS).namesOf k = od.namesOf k := by
      intro k hk
      have hne : k ≠ obj.UID := fun e => hnotmem (e ▸ hk)
      unfold ObjectTree.namesOf
      rw [hitem, if_neg hne]
    have hnamesObj : (od.addInner parent objS).namesOf obj.UID = [obj.Name] := by
      unfold ObjectTree.namesOf
      rw [hitem, if_pos rfl]
      simp [hSGroup, hSName]
    constructor
    · intro k hk
      rw [helems] at hk
      rw [hitem]
      rcases List.mem_append.mp hk with hk | hk
      · have hne : k ≠ obj.UID := fun e => hnotmem (e ▸ hk)
        rw [if_neg hne]
        exact h.present k hk
      · have hk2 := List.mem_singleton.mp hk
        rw [if_pos hk2]
        exact ⟨objS, rfl, hUID.trans hk2.symm⟩
    · intro k hk
      rw [helems] at hk
      rcases List.mem_append.mp hk with hk | hk
      · exact List.mem_cons_of_mem _ (List.mem_cons_of_mem _ (h.known k hk))
      · rw [List.mem_singleton.mp hk]
        exact List.mem_cons_self _ _
    · rw [helems, namesOfAll_append, namesOfAll_congr _ od _ hnamesOld]
      simp only [ObjectTree.namesOfAll, hnamesObj, List.append_nil]
      exact List.perm_append_comm.trans (List.Perm.cons _ h.names)
  | some k =>
    obtain ⟨hkmem, hsame⟩ := matchingSibling_some _ _ _ _ hm
    have hk : k ∈ (od.ownership parent.UID).elems := (env.order.perm _).mem_iff.mp hkmem
    obtain ⟨s, hs, hsUID⟩ := h.present k hk
    rw [hs] at hsame
    simp only [Option.some_bind] at hsame
    have hsplit := namesOfAll_split od _ k (od.ownership parent.UID).nodup hk
    by_cases hg : IsGroupObject s = true
    · obtain ⟨s1, hu, hUID1, _⟩ :=
        updateGroupNode_spec s (markMetaName (AddObjectOptions.ApplyOptions {} opts)
          (markDebug od obj)) (GetReadyCondition obj) env hsame
      obtain ⟨hgroup1, hml⟩ := memberList_updateGroupNode s _ _ _ env s1 hSep1 hu
      rw [hName1] at hml
      refine ⟨_, add_eq_update od parent obj opts env k s s1 hecho hGrouping hm hs hg hu, ?_⟩
      generalize hT : ({ od with items := fun id => if id = k then some s1 else od.items id } :
        ObjectTree) = od1
      have hown : od1.ownership = od.ownership := by rw [← hT]
      have hitem : ∀ id, od1.GetObject id = if id = k then some s1 else od.GetObject id := by
        intro id; rw [← hT]; rfl
      have hnamesK : od1.namesOf k = sortStrings (memberList s ++ [obj.Name]) := by
        unfold ObjectTree.namesOf
        rw [hitem, if_pos rfl]
        simp [hgroup1, hg, hml]
      have hnamesKold : od.namesOf k = memberList s := by
        unfold ObjectTree.namesOf
        rw [hs]
        simp [hg]
      have hnamesOther : ∀ x ∈ (od.ownership parent.UID).elems.filter (fun x => x != k),
          od1.namesOf x = od.namesOf x := by
        intro x hx
        have hne : x ≠ k := by simpa using (List.mem_filter.mp hx).2
        unfold ObjectTree.namesOf
        rw [hitem, if_neg hne]
      constructor
      · intro k1 hk1
        rw [hown] at hk1
        rw [hitem]
        by_cases hid : k1 = k
        · rw [if_pos hid]
          exact ⟨s1, rfl, hUID1.trans (hsUID.trans hid.symm)⟩
        · rw [if_neg hid]
          exact h.present k1 hk1
      · intro k1 hk1
        rw [hown] at hk1
        exact List.mem_cons_of_mem _ (List.mem_cons_of_mem _ (h.known k1 hk1))
      · rw [hown]
        have hsplit1 := namesOfAll_split od1 _ k (od.ownership parent.UID).nodup hk
        rw [hnamesK, namesOfAll_congr _ od _ hnamesOther] at hsplit1
        rw [hnamesKold] at hsplit
        refine hsplit1.trans ?_
        refine ((sortStrings_perm _).append_right _).trans ?_
        rw [List.append_assoc, List.singleton_append]
        exact List.perm_middle.trans (List.Perm.cons _ (hsplit.symm.trans h.names))
    · have hg2 : IsGroupObject s = false := by simpa using hg
      have hnamesKold : od.namesOf k = [s.Name] := by
        unfold ObjectTree.namesOf
        rw [hs]
        simp [hg2]
      have hsSep : hasSeparator s.Name = false := by
        apply hSepNames
        apply h.names.mem_iff.mp
        apply mem_namesOfAll od _ k _ hk
        rw [hnamesKold]
        exact List.mem_singleton_self _
      obtain ⟨g, hc, hgUID, _⟩ :=
        createGroupNode_spec s (markMetaName (AddObjectOptions.ApplyOptions {} opts)
          (markDebug od obj)) (GetReadyCondition s) (GetReadyCondition obj) env hsame
          (fun r hr => GetReadyCondition_type obj r hr)
      rw [groupNodeUID_marks] at hgUID
      obtain ⟨hgroup1, hml⟩ := memberList_createGroupNode s _ _ _ env g hsSep hSep1 hc
      rw [hName1] at hml
      refine ⟨_, add_eq_create od parent obj opts env k s g hecho hGrouping hm hs hg2 hc, ?_⟩
      have hGS : g.UID ∉ (od.ownership parent.UID).elems := by
        intro hmem
        rw [hgUID] at hmem
        exact hgroup (h.known _ hmem)
      have hGk : g.UID ≠ k := fun e => hGS (e ▸ hk)
      have hown : ((od.addInner parent g).remove parent s).ownership parent.UID =
          ((od.ownership parent.UID).insert g.UID).erase k := by
        simp [ObjectTree.addInner, ObjectTree.remove, hsUID]
      have helems : (((od.addInner parent g).remove parent s).ownership parent.UID).elems =
          (od.ownership parent.UID).elems.filter (fun x => x != k) ++ [g.UID] := by
        rw [hown]
        show ((od.ownership parent.UID).insert g.UID).elems.filter (fun x => x != k) = _
        rw [UIDSet.insert_elems_of_not_mem _ _ hGS, List.filter_append]
        congr 1
        rw [List.filter_cons_of_pos (by simpa using hGk)]
        rfl
      have hitem : ∀ id, ((od.addInner parent g).remove parent s).GetObject id =
          if id = k then none else if id = g.UID then some g else od.GetObject id := by
        intro id
        simp only [ObjectTree.GetObject, ObjectTree.addInner, ObjectTree.remove, hsUID]
      have hnamesG : ((od.addInner parent g).remove parent s).namesOf g.UID =
          sortStrings [obj.Name, s.Name] := by
        unfold ObjectTree.namesOf
        rw [hitem, if_neg hGk, if_pos rfl]
        simp [hgroup1, hml]
      have hnamesOther : ∀ x ∈ (od.ownership parent.UID).elems.filter (fun x => x != k),
          ((od.addInner parent g).remove parent s).namesOf x = od.namesOf x := by
        intro x hx
        obtain ⟨hxmem, hxne⟩ := List.mem_filter.mp hx
        have hne : x ≠ k := by simpa using hxne
        have hneG : x ≠ g.UID := fun e => hGS (e ▸ hxmem)
        unfold ObjectTree.namesOf
        rw [hitem, if_neg hne, if_neg hneG]
      constructor
      · intro k1 hk1
        rw [helems] at hk1
        rw [hitem]
        rcases List.mem_append.mp hk1 with hk1 | hk1
        · obtain ⟨hxmem, hxne⟩ := List.mem_filter.mp hk1
          have hne : k1 ≠ k := by simpa using hxne
          have hneG : k1 ≠ g.UID := fun e => hGS (e ▸ hxmem)
          rw [if_neg hne, if_neg hneG]
          exact h.present k1 hxmem
        · have hk2 := List.mem_singleton.mp hk1
          rw [hk2, if_neg hGk, if_pos rfl]
          exact ⟨g, rfl, rfl⟩
      · intro k1 hk1
        rw [helems] at hk1
        rcases List.mem_append.mp hk1 with hk1 | hk1
        · exact List.mem_cons_of_mem _ (List.mem_cons_of_mem _
            (h.known k1 (List.mem_filter.mp hk1).1))
        · rw [List.mem_singleton.mp hk1, hgUID]
          exact List.mem_cons_of_mem _ (List.mem_cons_self _ _)
      · rw [helems, namesOfAll_append, namesOfAll_congr _ od _ hnamesOther]
        simp only [ObjectTree.namesOfAll, hnamesG, List.append_nil]
        rw [hnamesKold] at hsplit
        refine ((sortStrings_perm _).append_left _).trans ?_
        refine List.perm_append_comm.trans ?_
        exact List.Perm.cons _ (hsplit.symm.trans h.names)

/-- A sequence of calls of `add` that each keep the invariant of the names:
the children end standing for the names they stood for and the names of the
added objects. -/
theorem NamesInv.extended_by_runAdds (P : Object) (hGrouping : IsGroupingObject P = true)
    (cs : List AddCall) :
    ∀ (od : ObjectTree) (ids names : List String), NamesInv od P.UID ids names →
      (∀ x ∈ names, hasSeparator x = false) →
      (∀ c ∈ cs, c.parent = P ∧ (AddObjectOptions.ApplyOptions {} c.opts).NoEcho = false ∧
        IsGroupObject c.obj = false ∧ hasSeparator c.obj.Name = false) →
      (callIdentities cs).Nodup → (∀ x ∈ callIdentities cs, x ∉ ids) →
      ∃ od1, runAdds od cs = some od1 ∧
        (od1.namesOfAll (od1.ownership P.UID).elems).Perm
          (cs.map (fun c => c.obj.Name) ++ names) := by
  induction cs with
  | nil =>
    intro od ids names h _ _ _ _
    exact ⟨od, rfl, h.names⟩
  | cons c rest ih =>
    intro od ids names h hSepNames hcs hnodup hnew
    simp only [callIdentities, List.nodup_cons, List.mem_cons, not_or] at hnodup
    obtain ⟨⟨_, horest⟩, hgrest, hrest⟩ := hnodup
    obtain ⟨hparent, hNoEcho, hPlain, hSep⟩ := hcs c (List.mem_cons_self _ _)
    obtain ⟨od1, hadd, hinv⟩ := NamesInv.extended_by_add od c.parent c.obj c.opts c.env ids names
      (hparent ▸ h) (hparent ▸ hGrouping) hNoEcho hPlain hSep hSepNames
      (hnew _ (by simp [callIdentities])) (hnew _ (by simp [callIdentities]))
    rw [hparent] at hinv
    have hnew1 : ∀ x ∈ callIdentities rest,
        x ∉ c.obj.UID :: groupNodeUID c.obj c.env.rand :: ids := by
      intro x hx hmem
      rcases List.mem_cons.mp hmem with hmem | hmem
      · exact horest (hmem ▸ hx)
      · rcases List.mem_cons.mp hmem with hmem | hmem
        · exact hgrest (hmem ▸ hx)
        · exact hnew x (by simp [callIdentities, hx]) hmem
    have hSepNames1 : ∀ x ∈ c.obj.Name :: names, hasSeparator x = false := by
      intro x hx
      rcases List.mem_cons.mp hx with hx | hx
      · rw [hx]; exact hSep
      · exact hSepNames x hx
    obtain ⟨od2, hrun, hperm⟩ := ih od1 _ _ hinv hSepNames1
      (fun x hx => hcs x (List.mem_cons_of_mem _ hx)) hrest hnew1
    refine ⟨od2, by simp only [runAdds, hadd, hrun], ?_⟩
    refine hperm.trans ?_
    simp only [List.map_cons, List.cons_append]
    exact List.perm_middle

/-- Claim C26: no name is lost by grouping.  Under a parent that carries the
grouping marker and has no child, after every sequence of calls of `add`
without `NoEcho`, of resources with distinct identities and names free of the
separator, the names the children stand for (the name of a plain child, the
member list of a group node) are, as a multiset, the names of the added
objects; so the number of plain children plus the lengths of the member lists
is the number of calls.  The objects are resources, none itself a group node,
and the identities are distinct as the data model has them: those of the
objects and those synthesized for the group nodes are pairwise distinct. -/
theorem runAdds_keeps_every_name (od : ObjectTree) (P : Object) (cs : List AddCall)
    (hGrouping : IsGroupingObject P = true)
    (hNoChildren : (od.ownership P.UID).elems = [])
    (hUnder : ∀ c ∈ cs, c.parent = P)
    (hNoEcho : ∀ c ∈ cs, (AddObjectOptions.ApplyOptions {} c.opts).NoEcho = false)
    (hPlain : ∀ c ∈ cs, IsGroupObject c.obj = false)
    (hSep : ∀ c ∈ cs, hasSeparator c.obj.Name = false)
    (hFresh : (callIdentities cs).Nodup) :
    ∃ od1, runAdds od cs = some od1 ∧
      (od1.namesOfAll (od1.ownership P.UID).elems).Perm (cs.map (fun c => c.obj.Name)) ∧
      (od1.namesOfAll (od1.ownership P.UID).elems).length = cs.length := by
  have h0 : NamesInv od P.UID [] [] := by
    constructor
    · intro k hk; rw [hNoChildren] at hk; simp at hk
    · intro k hk; rw [hNoChildren] at hk; simp at hk
    · rw [hNoChildren]; exact List.Perm.refl _
  obtain ⟨od1, hrun, hperm⟩ := NamesInv.extended_by_runAdds P hGrouping cs od [] [] h0
    (fun x hx => by simp at hx)
    (fun c hc => ⟨hUnder c hc, hNoEcho c hc, hPlain c hc, hSep c hc⟩) hFresh
    (fun x _ => by simp)
  rw [List.append_nil] at hperm
  exact ⟨od1, hrun, hperm, by rw [hperm.length_eq, List.length_map]⟩

/-- The calls of `mixedCalls`, on the empty tree, under `sampleParent`. -/
theorem runAdds_keeps_every_name_witness :
    IsGroupingObject sampleParent = true ∧
    ((newObjectTree {}).ownership sampleParent.UID).elems = [] ∧
    (∀ c ∈ mixedCalls, c.parent = sampleParent) ∧
    (∀ c ∈ mixedCalls, (AddObjectOptions.ApplyOptions {} c.opts).NoEcho = false) ∧
    (∀ c ∈ mixedCalls, IsGroupObject c.obj = false) ∧
    (∀ c ∈ mixedCalls, hasSeparator c.obj.Name = false) ∧
    (callIdentities mixedCalls).Nodup ∧
    ∃ od1, runAdds (newObjectTree {}) mixedCalls = some od1 ∧
      (od1.namesOfAll (od1.ownership sampleParent.UID).elems).Perm
        (mixedCalls.map (fun c => c.obj.Name)) ∧
      (od1.namesOfAll (od1.ownership sampleParent.UID).elems).length = mixedCalls.length :=
  ⟨by decide, rfl, by decide, by decide, by decide, by decide, by decide,
    runAdds_keeps_every_name (newObjectTree {}) sampleParent mixedCalls (by decide) rfl
      (by decide) (by decide) (by decide) (by decide) (by decide)⟩

/-! ## Absorption into an existing group: the member list -/

/-- C9, amended: when a call of `add` that is not echo-suppressed runs under a
parent carrying the grouping-parent marker, the matching sibling `s`, stored
under the key `k`, is a group node, and the name of the object does not
contain the separator of the member list, the call succeeds and creates no
node: every entry of `items` but the one of `s` is what it was, the key set of
`items` and every child set of `ownership` are unchanged, an object that was
not in the tree is not in it afterwards, and `s` is still a group node whose
member list, read back from its annotation, is the previous members plus the
name of the object, sorted again, and whose readiness stays absent or keeps
its status, severity and reason with an empty message. -/
theorem add_absorbs_into_group (od : ObjectTree) (parent obj : Object)
    (opts : List AddObjectOption) (env : Env) (k : String) (s : Object)
    (hNotEcho : ¬ ((AddObjectOptions.ApplyOptions {} opts).NoEcho = true ∧
      od.options.DisableNoEcho = false ∧
      ((∃ r, GetReadyCondition obj = some r ∧ r.Status = ConditionTrue) ∨
        hasSameReadyStatusSeverityAndReason (GetReadyCondition obj)
          (GetReadyCondition parent) = true)))
    (hGrouping : IsGroupingObject parent = true)
    (hMatch : od.matchingSibling (GetReadyCondition obj)
      (od.childKeys parent.UID env.order) = some k)
    (hItem : od.GetObject k = some s)
    (hGroup : IsGroupObject s = true)
    (hSep : hasSeparator obj.Name = false) :
    ∃ od1 s1, od.add parent obj opts env = some od1 ∧
      od1.GetObject k = some s1 ∧
      (∀ id, id ≠ k → od1.GetObject id = od.GetObject id) ∧
      (∀ id, (od1.GetObject id).isSome = (od.GetObject id).isSome) ∧
      od1.ownership = od.ownership ∧
      (od.GetObject obj.UID = none → od1.GetObject obj.UID = none) ∧
      s1.UID = s.UID ∧ IsGroupObject s1 = true ∧
      memberList s1 = sortStrings (memberList s ++ [obj.Name]) ∧
      (memberList s1).Perm (memberList s ++ [obj.Name]) ∧
      (memberList s1).Pairwise stringLe ∧
      GetGroupItems s1 =
        stringsJoin (sortStrings (memberList s ++ [obj.Name])) GroupItemsSeparator ∧
      (GetReadyCondition s = none → GetReadyCondition s1 = none) ∧
      (∀ r, GetReadyCondition s = some r → ∃ r1, GetReadyCondition s1 = some r1 ∧
        r1.Status = r.Status ∧ r1.Severity = r.Severity ∧ r1.Reason = r.Reason ∧
        r1.Message = "") := by
  have hecho : isEcho od (AddObjectOptions.ApplyOptions {} opts) (GetReadyCondition parent)
      (GetReadyCondition obj) = false := by
    rw [← Bool.not_eq_true, isEcho_iff]
    exact hNotEcho
  obtain ⟨_, hsame⟩ := matchingSibling_some _ _ _ _ hMatch
  rw [hItem] at hsame
  simp only [Option.some_bind] at hsame
  obtain ⟨s1, hupd, hUID, _, _, _, hann, hitems, hnone, hsome⟩ :=
    updateGroupNode_spec s (markMetaName (AddObjectOptions.ApplyOptions {} opts)
      (markDebug od obj)) (GetReadyCondition obj) env hsame
  have hSep1 : hasSeparator (markMetaName (AddObjectOptions.ApplyOptions {} opts)
      (markDebug od obj)).Name = false := by
    simpa using hSep
  obtain ⟨_, hml⟩ := memberList_updateGroupNode s _ _ _ env s1 hSep1 hupd
  simp only [markMetaName_Name, markDebug_Name] at hitems hml
  have hadd := add_eq_update od parent obj opts env k s s1 hecho hGrouping hMatch hItem
    hGroup hupd
  refine ⟨_, s1, hadd, ?_, ?_, ?_, rfl, ?_, hUID, ?_, hml, ?_, ?_, hitems, hnone, hsome⟩
  · simp [ObjectTree.GetObject]
  · intro id hid
    simp [ObjectTree.GetObject, hid]
  · intro id
    by_cases hid : id = k
    · subst hid
      simp [ObjectTree.GetObject] at hItem ⊢
      simp [hItem]
    · simp [ObjectTree.GetObject, hid]
  · intro hobj
    by_cases hid : obj.UID = k
    · rw [hid, hItem] at hobj
      simp at hobj
    · simpa [ObjectTree.GetObject, hid] using hobj
  · rw [IsGroupObject_congr s s1 (hann _ (by decide))]
    exact hGroup
  · rw [hml]
    exact sortStrings_perm _
  · rw [hml]
    exact sortStrings_sorted _

/-- The machine `m3` absorbed into the group of `m1` and `m2`. -/
theorem add_absorbs_into_group_witness :
    ¬ ((AddObjectOptions.ApplyOptions {} []).NoEcho = true ∧
      groupTree.options.DisableNoEcho = false ∧
      ((∃ r, GetReadyCondition (machine "m3" "uid-m3" (crashed 5 "boom")) = some r ∧
          r.Status = ConditionTrue) ∨
        hasSameReadyStatusSeverityAndReason
          (GetReadyCondition (machine "m3" "uid-m3" (crashed 5 "boom")))
          (GetReadyCondition sampleParent) = true)) ∧
    IsGroupingObject sampleParent = true ∧
    groupTree.matchingSibling (GetReadyCondition (machine "m3" "uid-m3" (crashed 5 "boom")))
      (groupTree.childKeys sampleParent.UID ({} : Env).order) = some "uid-g" ∧
    groupTree.GetObject "uid-g" = some sampleGroup ∧
    IsGroupObject sampleGroup = true ∧
    hasSeparator (machine "m3" "uid-m3" (crashed 5 "boom")).Name = false ∧
    ∃ od1 s1, groupTree.add sampleParent (machine "m3" "uid-m3" (crashed 5 "boom")) [] {} =
        some od1 ∧
      od1.GetObject "uid-g" = some s1 ∧
      (∀ id, id ≠ "uid-g" → od1.GetObject id = groupTree.GetObject id) ∧
      (∀ id, (od1.GetObject id).isSome = (groupTree.GetObject id).isSome) ∧
      od1.ownership = groupTree.ownership ∧
      (groupTree.GetObject (machine "m3" "uid-m3" (crashed 5 "boom")).UID = none →
        od1.GetObject (machine "m3" "uid-m3" (crashed 5 "boom")).UID = none) ∧
      s1.UID = sampleGroup.UID ∧ IsGroupObject s1 = true ∧
      memberList s1 =
        sortStrings (memberList sampleGroup ++
          [(machine "m3" "uid-m3" (crashed 5 "boom")).Name]) ∧
      (memberList s1).Perm
        (memberList sampleGroup ++ [(machine "m3" "uid-m3" (crashed 5 "boom")).Name]) ∧
      (memberList s1).Pairwise stringLe ∧
      GetGroupItems s1 =
        stringsJoin (sortStrings (memberList sampleGroup ++
          [(machine "m3" "uid-m3" (crashed 5 "boom")).Name])) GroupItemsSeparator ∧
      (GetReadyCondition sampleGroup = none → GetReadyCondition s1 = none) ∧
      (∀ r, GetReadyCondition sampleGroup = some r → ∃ r1, GetReadyCondition s1 = some r1 ∧
        r1.Status = r.Status ∧ r1.Severity = r.Severity ∧ r1.Reason = r.Reason ∧
        r1.Message = "") :=
  ⟨fun h => absurd h.1 (by decide), by decide, by decide, by decide, by decide, by decide,
    add_absorbs_into_group groupTree sampleParent (machine "m3" "uid-m3" (crashed 5 "boom")) []
      {} "uid-g" sampleGroup (fun h => absurd h.1 (by decide)) (by decide) (by decide)
      (by decide) (by decide) (by decide)⟩

/-- C9 as stated fails for a name that contains the separator: the machine
named `a, z` is absorbed into the group of `m1` and `m2` under all the
conditions of the claim, and the member list read back from the annotation,
`a, z, m1, m2`, has the four entries `a`, `z`, `m1`, `m2`, while the previous
members plus the name of the object, sorted, are the three entries `a, z`,
`m1`, `m2`; the node is rendered as a group of four machines. -/
theorem add_absorbs_into_group_counterexample :
    IsGroupingObject sampleParent = true ∧
    groupTree.matchingSibling (GetReadyCondition (machine "a, z" "uid-m3" (crashed 5 "boom")))
      (groupTree.childKeys sampleParent.UID MapOrder.stored) = some "uid-g" ∧
    groupTree.GetObject "uid-g" = some sampleGroup ∧
    IsGroupObject sampleGroup = true ∧
    memberList sampleGroup = ["m1", "m2"] ∧
    sortStrings (memberList sampleGroup ++ [(machine "a, z" "uid-m3" (crashed 5 "boom")).Name]) =
      ["a, z", "m1", "m2"] ∧
    ((groupTree.add sampleParent (machine "a, z" "uid-m3" (crashed 5 "boom")) [] {}).bind
      (fun od => od.GetObject "uid-g")).map GetGroupItems = some "a, z, m1, m2" ∧
    ((groupTree.add sampleParent (machine "a, z" "uid-m3" (crashed 5 "boom")) [] {}).bind
      (fun od => od.GetObject "uid-g")).map memberList = some ["a", "z", "m1", "m2"] ∧
    ((groupTree.add sampleParent (machine "a, z" "uid-m3" (crashed 5 "boom")) [] {}).bind
      (fun od => od.GetObject "uid-g")).map (getName {}) = some "4 Machines..." := by
  decide

end CapiTree
